import Mathlib

/-!
# CPPCraft voxel chunks: terrain generation and visible-geometry meshing

A shallow embedding of `source/scene/world/chunk.cpp`.

* C++ `int` values are `Int`; loop counters run over `List.range` and are cast. The index
  arithmetic of a chunk that fits in memory does not overflow.
* `float` / `double` values (positions, noise samples) are exact rationals.
* `mBlocks` (a `malloc`ed array) and the `std::vector`s are lists. An access outside the
  allocated range is undefined behaviour in C++; here it makes the enclosing function
  return `none`.
* The declarations of `chunk.hpp` enter as parameters or are modelled from the
  specification: the chunk dimensions are the parameter `Dims`, the per-direction quad
  table is the parameter `tbl`, the enumerations and the index template are modelled.
* The external collaborators are parameters as well: `noise2` is the noise source, `reg` the
  chunk registry lookup.
-/

namespace CPPCraft

/-! ## Data model -/

/-- Modelled from the spec: the `BlockType` enumeration of chunk.hpp, "air, water,
dirt, cobblestone, …"; `eOTHER` stands for every further material. -/
inductive BlockType where
  | eAIR
  | eWATER
  | eDIRT
  | eCOBBLESTONE
  | eOTHER (tag : Nat)
deriving DecidableEq, Repr

/-- Modelled from the spec: the `CubeSides` enumeration of chunk.hpp, the six
axis-aligned directions "up, down, left, right, front, back". -/
inductive CubeSides where
  | eUP
  | eDOWN
  | eLEFT
  | eRIGHT
  | eFRONT
  | eBACK
deriving DecidableEq, Repr

/-- The `glm::vec3` type, over exact rationals. -/
structure Vec3 where
  x : ℚ
  y : ℚ
  z : ℚ
deriving DecidableEq

/-- Componentwise `glm::vec3` addition. -/
def Vec3.add (a b : Vec3) : Vec3 := ⟨a.x + b.x, a.y + b.y, a.z + b.z⟩

/-- Componentwise `glm::vec3` subtraction. -/
def Vec3.sub (a b : Vec3) : Vec3 := ⟨a.x - b.x, a.y - b.y, a.z - b.z⟩

/-- The vector `glm::vec3(x, y, z)` built from three `int`s. -/
def Vec3.ofInts (x y z : Int) : Vec3 := ⟨(x : ℚ), (y : ℚ), (z : ℚ)⟩

/-- The `CubeVert` vertex record: position, normal and material tag. -/
structure CubeVert where
  pos : Vec3
  normal : Vec3
  textureID : BlockType
deriving DecidableEq

/-- The compile-time chunk dimensions `CHUNK_LENGTH`, `CHUNK_WIDTH`, `CHUNK_HEIGHT`
of chunk.hpp, kept as parameters. -/
structure Dims where
  CHUNK_LENGTH : Nat
  CHUNK_WIDTH : Nat
  CHUNK_HEIGHT : Nat
deriving DecidableEq, Repr

/-- One element of `mRenderData`: vertex list, index list and running counter
(the GPU handles play no part in the geometry). -/
structure RenderData where
  mVisibleMesh : List CubeVert
  mIndexData : List Nat
  mCurrentIndex : Nat
deriving DecidableEq

/-- The fields of `Chunk` that terrain generation and meshing touch;
`mRenderData0`, `mRenderData1` are `mRenderData[0]` and `mRenderData[1]`. -/
structure Chunk where
  mPosition : Vec3
  mBlocks : List BlockType
  mHeightMap : List Int
  mRenderData0 : RenderData
  mRenderData1 : RenderData
deriving DecidableEq

/-- The constant `WATER_HEIGHT` (chunk.cpp line 36). -/
def WATER_HEIGHT : Int := 60

/-- The constant `MAX_LAND_HEIGHT_FROM_WATER_SURFACE` (line 38). -/
def MAX_LAND_HEIGHT_FROM_WATER_SURFACE : Int := 48

/-- The constant `LAND_HEIGHT_BELOW_WATER` (line 40). -/
def LAND_HEIGHT_BELOW_WATER : Int := 10

/-- The function `getCubeIndex` (lines 42-45). -/
def getCubeIndex (d : Dims) (x y z : Int) : Int :=
  x + (z * (d.CHUNK_LENGTH : Int)) + (y * (d.CHUNK_LENGTH : Int) * (d.CHUNK_WIDTH : Int))

/-- The local coordinates `(x, y, z)` name a voxel of the grid. -/
def Dims.inGrid (d : Dims) (x y z : Int) : Prop :=
  (0 ≤ x ∧ x < (d.CHUNK_LENGTH : Int)) ∧ (0 ≤ y ∧ y < (d.CHUNK_HEIGHT : Int)) ∧
    (0 ≤ z ∧ z < (d.CHUNK_WIDTH : Int))

/-- The pair `(x, z)` names a column of the grid. -/
def Dims.inFootprint (d : Dims) (x z : Int) : Prop :=
  (0 ≤ x ∧ x < (d.CHUNK_LENGTH : Int)) ∧ (0 ≤ z ∧ z < (d.CHUNK_WIDTH : Int))

instance (d : Dims) (x y z : Int) : Decidable (d.inGrid x y z) := by
  unfold Dims.inGrid
  infer_instance

instance (d : Dims) (x z : Int) : Decidable (d.inFootprint x z) := by
  unfold Dims.inFootprint
  infer_instance

/-- The allocation made by the constructor (line 50-51) has one slot per voxel. -/
def Chunk.WellFormed (d : Dims) (c : Chunk) : Prop :=
  c.mBlocks.length = d.CHUNK_LENGTH * d.CHUNK_WIDTH * d.CHUNK_HEIGHT

instance (d : Dims) (c : Chunk) : Decidable (c.WellFormed d) := by
  unfold Chunk.WellFormed
  infer_instance

/-! ## Memory and loops -/

/-- Reading `mem[i]` with an `int` index: `none` outside the allocation. -/
def loadAt {α : Type} (mem : List α) (i : Int) : Option α :=
  if 0 ≤ i then mem[i.toNat]? else none

/-- Writing `mem[i] = v` with an `int` index: `none` outside the allocation. -/
def storeAt {α : Type} (mem : List α) (i : Int) (v : α) : Option (List α) :=
  if 0 ≤ i ∧ i < (mem.length : Int) then some (mem.set i.toNat v) else none

/-- The loop `for (int i = 0; i < n; ++i) body(i)` over a state; an iteration that
fails aborts the loop. -/
def forUp {σ : Type} (n : Nat) (body : Int → σ → Option σ) (s : σ) : Option σ :=
  (List.range n).foldlM (fun acc (i : Nat) => body (i : Int) acc) s

/-- The loop `for (int i = start; i >= 0; --i) body(i)` over a state. -/
def forDown {σ : Type} (start : Int) (body : Int → σ → Option σ) (s : σ) : Option σ :=
  (List.range (start + 1).toNat).reverse.foldlM (fun acc (i : Nat) => body (i : Int) acc) s

/-- The state of a chunk after `Chunk::Chunk()` (lines 47-86) once its position is
set: every block is air, the height map is empty, both passes are empty with
`mCurrentIndex = 0`. -/
def Chunk.fresh (d : Dims) (pos : Vec3) : Chunk :=
  { mPosition := pos
    mBlocks := List.replicate (d.CHUNK_LENGTH * d.CHUNK_WIDTH * d.CHUNK_HEIGHT) BlockType.eAIR
    mHeightMap := []
    mRenderData0 := ⟨[], [], 0⟩
    mRenderData1 := ⟨[], [], 0⟩ }

/-- The block stored at local coordinates `(x, y, z)`: `mBlocks[getCubeIndex(x, y, z)]`. -/
def Chunk.blockAt (d : Dims) (c : Chunk) (x y z : Int) : Option BlockType :=
  loadAt c.mBlocks (getCubeIndex d x y z)

/-! ## Terrain generation -/

/-- The C++ conversion `int(q)` of a `double`: truncation toward zero. -/
def truncToInt (q : ℚ) : Int := q.num.tdiv (q.den : Int)

/-- The noise coordinate of line 112 (and, with the width, line 113):
`double((p / n) + double(i) / n) * 0.25`. -/
def noiseOffset (p : ℚ) (n : Nat) (i : Int) : ℚ :=
  ((p / (n : ℚ)) + (i : ℚ) / (n : ℚ)) * (1 / 4)

/-- Line 117: the integer height computed from a noise sample. -/
def heightFromNoise (height : ℚ) : Int :=
  truncToInt (((height + 1) / 2) * (MAX_LAND_HEIGHT_FROM_WATER_SURFACE : ℚ))
    + WATER_HEIGHT - LAND_HEIGHT_BELOW_WATER

/-- Lines 112-117: the integer height of column `(x, z)` of the chunk at `pos`;
`noise2` is `Noise::get()->noise2`. -/
def columnHeight (noise2 : ℚ → ℚ → ℚ) (d : Dims) (pos : Vec3) (x z : Int) : Int :=
  let xOffset := noiseOffset pos.x d.CHUNK_LENGTH x
  let zOffset := noiseOffset pos.z d.CHUNK_WIDTH z
  heightFromNoise (noise2 xOffset zOffset)

/-- The heights that lines 108-120 push, in push order (row `z` after row `z - 1`,
`x` ascending inside a row). -/
def columnHeights (noise2 : ℚ → ℚ → ℚ) (d : Dims) (pos : Vec3) : List Int :=
  (List.range d.CHUNK_WIDTH).flatMap (fun (z : Nat) =>
    (List.range d.CHUNK_LENGTH).map (fun (x : Nat) => columnHeight noise2 d pos (x : Int) (z : Int)))

/-- Lines 108-120: the height-map loop, pushing one height per column. -/
def genHeightMap (noise2 : ℚ → ℚ → ℚ) (d : Dims) (pos : Vec3) (hm : List Int) :
    Option (List Int) :=
  forUp d.CHUNK_WIDTH (fun z hm =>
    forUp d.CHUNK_LENGTH (fun x hm =>
      some (hm ++ [columnHeight noise2 d pos x z])) hm) hm

/-- Lines 124-130: water is written at `WATER_HEIGHT` in every column. -/
def fillWater (d : Dims) (bs : List BlockType) : Option (List BlockType) :=
  forUp d.CHUNK_WIDTH (fun z bs =>
    forUp d.CHUNK_LENGTH (fun x bs =>
      storeAt bs (getCubeIndex d x WATER_HEIGHT z) BlockType.eWATER) bs) bs

/-- Lines 136-148: the body of the land loop for column `(x, z)`. -/
def fillColumn (d : Dims) (hm : List Int) (x z : Int) (bs : List BlockType) :
    Option (List BlockType) := do
  let height ← loadAt hm (x + (z * (d.CHUNK_WIDTH : Int)))
  let cubeIndex := getCubeIndex d x height z
  let bs ← storeAt bs cubeIndex BlockType.eDIRT
  forDown (height - 1) (fun y bs =>
    storeAt bs (getCubeIndex d x y z) BlockType.eCOBBLESTONE) bs

/-- Lines 132-150: the land loop over all columns. -/
def fillLand (d : Dims) (hm : List Int) (bs : List BlockType) : Option (List BlockType) :=
  forUp d.CHUNK_WIDTH (fun z bs =>
    forUp d.CHUNK_LENGTH (fun x bs => fillColumn d hm x z bs) bs) bs

/-- The method `Chunk::genTerrain` (lines 105-151). -/
def genTerrain (noise2 : ℚ → ℚ → ℚ) (d : Dims) (c : Chunk) : Option Chunk := do
  let hm ← genHeightMap noise2 d c.mPosition c.mHeightMap
  let bs ← fillWater d c.mBlocks
  let bs ← fillLand d hm bs
  some { c with mHeightMap := hm, mBlocks := bs }

/-! ## Visible geometry -/

/-- Modelled from the spec: the index template `sCubeFaceIndices` of chunk.hpp, the
"fixed 0-1-2-2-3-0-style index template". -/
def sCubeFaceIndices : List Nat := [0, 1, 2, 2, 3, 0]

/-- The method `Chunk::_isTranslucent` (lines 288-296). -/
def _isTranslucent (d : Dims) (c : Chunk) (x y z : Int) : Option Bool := do
  let blockType ← loadAt c.mBlocks (getCubeIndex d x y z)
  if blockType = BlockType.eAIR then
    some true
  else if blockType = BlockType.eWATER then
    some true
  else
    some false

/-- The method `Chunk::_addFace` (lines 298-314) on the render data of the selected
pass.  `tbl` is the quad table `sCubeFaceVertices[cubeSide][i]`; the index list holds
`uint16_t` values (line 321), the running counter is not truncated. -/
def _addFace (tbl : CubeSides → Nat → CubeVert) (rd : RenderData) (block : BlockType)
    (pos : Vec3) (cubeSide : CubeSides) : RenderData :=
  let mesh := (List.range 4).foldl (fun mesh i =>
    mesh ++ [{ pos := pos.add (tbl cubeSide i).pos
               normal := (tbl cubeSide i).normal
               textureID := block }]) rd.mVisibleMesh
  let indexData := (List.range 6).foldl (fun idx i =>
    idx ++ [(sCubeFaceIndices.getD i 0 + rd.mCurrentIndex) % 65536]) rd.mIndexData
  { mVisibleMesh := mesh, mIndexData := indexData, mCurrentIndex := rd.mCurrentIndex + 4 }

/-- Lines 176-178: the UP test of voxel `(x, y, z)`. -/
def faceUp (tbl : CubeSides → Nat → CubeVert) (d : Dims) (c : Chunk) (block : BlockType)
    (x y z : Int) (rd : RenderData) : Option RenderData := do
  let free ← if y + 1 = (d.CHUNK_HEIGHT : Int) then some true else _isTranslucent d c x (y + 1) z
  if free then some (_addFace tbl rd block (Vec3.ofInts x y z) CubeSides.eUP) else some rd

/-- Lines 180-182: the DOWN test. -/
def faceDown (tbl : CubeSides → Nat → CubeVert) (d : Dims) (c : Chunk) (block : BlockType)
    (x y z : Int) (rd : RenderData) : Option RenderData := do
  let free ← if y - 1 = -1 then some true else _isTranslucent d c x (y - 1) z
  if free then some (_addFace tbl rd block (Vec3.ofInts x y z) CubeSides.eDOWN) else some rd

/-- Lines 184-202: the LEFT test; `reg` is `chunkManager->getChunkAtPos`. -/
def faceLeft (tbl : CubeSides → Nat → CubeVert) (reg : Vec3 → Option Chunk) (d : Dims)
    (c : Chunk) (block : BlockType) (x y z : Int) (rd : RenderData) : Option RenderData :=
  if x - 1 = -1 then
    let searchPos := c.mPosition.sub ⟨(d.CHUNK_LENGTH : ℚ), 0, 0⟩
    match reg searchPos with
    | some chunk => do
      let t ← _isTranslucent d chunk ((d.CHUNK_LENGTH : Int) - 1) y z
      if t then some (_addFace tbl rd block (Vec3.ofInts x y z) CubeSides.eLEFT) else some rd
    | none => some rd
  else do
    let t ← _isTranslucent d c (x - 1) y z
    if t then some (_addFace tbl rd block (Vec3.ofInts x y z) CubeSides.eLEFT) else some rd

/-- Lines 204-221: the RIGHT test. -/
def faceRight (tbl : CubeSides → Nat → CubeVert) (reg : Vec3 → Option Chunk) (d : Dims)
    (c : Chunk) (block : BlockType) (x y z : Int) (rd : RenderData) : Option RenderData :=
  if x + 1 = (d.CHUNK_LENGTH : Int) then
    let searchPos := c.mPosition.add ⟨(d.CHUNK_LENGTH : ℚ), 0, 0⟩
    match reg searchPos with
    | some chunk => do
      let t ← _isTranslucent d chunk 0 y z
      if t then some (_addFace tbl rd block (Vec3.ofInts x y z) CubeSides.eRIGHT) else some rd
    | none => some rd
  else do
    let t ← _isTranslucent d c (x + 1) y z
    if t then some (_addFace tbl rd block (Vec3.ofInts x y z) CubeSides.eRIGHT) else some rd

/-- Lines 223-240: the FRONT test. -/
def faceFront (tbl : CubeSides → Nat → CubeVert) (reg : Vec3 → Option Chunk) (d : Dims)
    (c : Chunk) (block : BlockType) (x y z : Int) (rd : RenderData) : Option RenderData :=
  if z + 1 = (d.CHUNK_WIDTH : Int) then
    let searchPos := c.mPosition.add ⟨0, 0, (d.CHUNK_WIDTH : ℚ)⟩
    match reg searchPos with
    | some chunk => do
      let t ← _isTranslucent d chunk x y 0
      if t then some (_addFace tbl rd block (Vec3.ofInts x y z) CubeSides.eFRONT) else some rd
    | none => some rd
  else do
    let t ← _isTranslucent d c x y (z + 1)
    if t then some (_addFace tbl rd block (Vec3.ofInts x y z) CubeSides.eFRONT) else some rd

/-- Lines 242-259: the BACK test. -/
def faceBack (tbl : CubeSides → Nat → CubeVert) (reg : Vec3 → Option Chunk) (d : Dims)
    (c : Chunk) (block : BlockType) (x y z : Int) (rd : RenderData) : Option RenderData :=
  if z - 1 = -1 then
    let searchPos := c.mPosition.sub ⟨0, 0, (d.CHUNK_WIDTH : ℚ)⟩
    match reg searchPos with
    | some chunk => do
      let t ← _isTranslucent d chunk x y ((d.CHUNK_WIDTH : Int) - 1)
      if t then some (_addFace tbl rd block (Vec3.ofInts x y z) CubeSides.eBACK) else some rd
    | none => some rd
  else do
    let t ← _isTranslucent d c x y (z - 1)
    if t then some (_addFace tbl rd block (Vec3.ofInts x y z) CubeSides.eBACK) else some rd

/-- Lines 170-259: the body of the innermost loop for voxel `(x, y, z)`. -/
def meshVoxel (tbl : CubeSides → Nat → CubeVert) (reg : Vec3 → Option Chunk) (d : Dims)
    (c : Chunk) (x y z : Int) (rd : RenderData) : Option RenderData := do
  let block ← loadAt c.mBlocks (getCubeIndex d x y z)
  let t ← _isTranslucent d c x y z
  if t then
    some rd
  else do
    let rd ← faceUp tbl d c block x y z rd
    let rd ← faceDown tbl d c block x y z rd
    let rd ← faceLeft tbl reg d c block x y z rd
    let rd ← faceRight tbl reg d c block x y z rd
    let rd ← faceFront tbl reg d c block x y z rd
    faceBack tbl reg d c block x y z rd

/-- Lines 164-262: the three nested loops of pass 0. -/
def meshGeometry (tbl : CubeSides → Nat → CubeVert) (reg : Vec3 → Option Chunk) (d : Dims)
    (c : Chunk) (rd : RenderData) : Option RenderData :=
  forUp d.CHUNK_WIDTH (fun z rd =>
    forUp d.CHUNK_LENGTH (fun x rd =>
      forUp d.CHUNK_HEIGHT (fun y rd => meshVoxel tbl reg d c x y z rd) rd) rd) rd

/-- Lines 276-283: the body of the water loop for column `(x, z)`. -/
def meshWaterColumn (tbl : CubeSides → Nat → CubeVert) (d : Dims) (c : Chunk) (x z : Int)
    (rd : RenderData) : Option RenderData := do
  let block ← loadAt c.mBlocks (getCubeIndex d x WATER_HEIGHT z)
  if block ≠ BlockType.eWATER then
    some rd
  else
    some (_addFace tbl rd block (Vec3.ofInts x WATER_HEIGHT z) CubeSides.eUP)

/-- Lines 272-285: the two nested loops of pass 1. -/
def meshWater (tbl : CubeSides → Nat → CubeVert) (d : Dims) (c : Chunk) (rd : RenderData) :
    Option RenderData :=
  forUp d.CHUNK_WIDTH (fun z rd =>
    forUp d.CHUNK_LENGTH (fun x rd => meshWaterColumn tbl d c x z rd) rd) rd

/-- Lines 156-160 and 266-270: `clear()` on both vectors and `mCurrentIndex = 0`
(`reserve` does not change the contents). -/
def RenderData.cleared (_rd : RenderData) : RenderData :=
  { mVisibleMesh := [], mIndexData := [], mCurrentIndex := 0 }

/-- The method `Chunk::genVisibleGeometry` (lines 153-286). -/
def genVisibleGeometry (tbl : CubeSides → Nat → CubeVert) (reg : Vec3 → Option Chunk)
    (d : Dims) (c : Chunk) : Option Chunk := do
  let rd0 ← meshGeometry tbl reg d c c.mRenderData0.cleared
  let rd1 ← meshWater tbl d c c.mRenderData1.cleared
  some { c with mRenderData0 := rd0, mRenderData1 := rd1 }


/-! ## Faces -/

/-- Every chunk that the registry hands out owns a block array of the chunk size. -/
def RegistryWellFormed (d : Dims) (reg : Vec3 → Option Chunk) : Prop :=
  ∀ p ch, reg p = some ch → ch.WellFormed d

/-- One call `_addFace(pass, block, pos, cubeSide)`: an emitted face. -/
structure Face where
  block : BlockType
  pos : Vec3
  side : CubeSides
deriving DecidableEq

/-- The render data after the calls `_addFace` for the faces `fs`, in order. -/
def addFaces (tbl : CubeSides → Nat → CubeVert) (rd : RenderData) (fs : List Face) :
    RenderData :=
  fs.foldl (fun rd f => _addFace tbl rd f.block f.pos f.side) rd

/-- The number of faces of `fs` that belong to voxel `(x, y, z)` and direction `side`. -/
def faceCount (fs : List Face) (x y z : Int) (side : CubeSides) : Nat :=
  fs.countP (fun f => decide (f.pos = Vec3.ofInts x y z ∧ f.side = side))

/-- The outcome of the test that lines 176-259 make for direction `side` of voxel
`(x, y, z)`: is a face added. -/
def sideFree (reg : Vec3 → Option Chunk) (d : Dims) (c : Chunk) (x y z : Int) :
    CubeSides → Bool
  | CubeSides.eUP =>
    decide (y + 1 = (d.CHUNK_HEIGHT : Int)) || (_isTranslucent d c x (y + 1) z == some true)
  | CubeSides.eDOWN =>
    decide (y - 1 = -1) || (_isTranslucent d c x (y - 1) z == some true)
  | CubeSides.eLEFT =>
    if x - 1 = -1 then
      match reg (c.mPosition.sub ⟨(d.CHUNK_LENGTH : ℚ), 0, 0⟩) with
      | some chunk => _isTranslucent d chunk ((d.CHUNK_LENGTH : Int) - 1) y z == some true
      | none => false
    else _isTranslucent d c (x - 1) y z == some true
  | CubeSides.eRIGHT =>
    if x + 1 = (d.CHUNK_LENGTH : Int) then
      match reg (c.mPosition.add ⟨(d.CHUNK_LENGTH : ℚ), 0, 0⟩) with
      | some chunk => _isTranslucent d chunk 0 y z == some true
      | none => false
    else _isTranslucent d c (x + 1) y z == some true
  | CubeSides.eFRONT =>
    if z + 1 = (d.CHUNK_WIDTH : Int) then
      match reg (c.mPosition.add ⟨0, 0, (d.CHUNK_WIDTH : ℚ)⟩) with
      | some chunk => _isTranslucent d chunk x y 0 == some true
      | none => false
    else _isTranslucent d c x y (z + 1) == some true
  | CubeSides.eBACK =>
    if z - 1 = -1 then
      match reg (c.mPosition.sub ⟨0, 0, (d.CHUNK_WIDTH : ℚ)⟩) with
      | some chunk => _isTranslucent d chunk x y ((d.CHUNK_WIDTH : Int) - 1) == some true
      | none => false
    else _isTranslucent d c x y (z - 1) == some true

/-- The faces that the loop body (lines 170-259) adds for voxel `(x, y, z)`, in order. -/
def voxelFaces (reg : Vec3 → Option Chunk) (d : Dims) (c : Chunk) (x y z : Int) : List Face :=
  match c.blockAt d x y z with
  | none => []
  | some block =>
    if block = BlockType.eAIR ∨ block = BlockType.eWATER then []
    else
      ([CubeSides.eUP, CubeSides.eDOWN, CubeSides.eLEFT, CubeSides.eRIGHT, CubeSides.eFRONT,
        CubeSides.eBACK].filter (sideFree reg d c x y z)).map
        (fun side => ⟨block, Vec3.ofInts x y z, side⟩)

/-- The faces that the loops of lines 164-262 add to pass 0, in order. -/
def geometryFaces (reg : Vec3 → Option Chunk) (d : Dims) (c : Chunk) : List Face :=
  (List.range d.CHUNK_WIDTH).flatMap (fun (z : Nat) =>
    (List.range d.CHUNK_LENGTH).flatMap (fun (x : Nat) =>
      (List.range d.CHUNK_HEIGHT).flatMap (fun (y : Nat) =>
        voxelFaces reg d c (x : Int) (y : Int) (z : Int))))

/-- The faces that the loop body of lines 276-283 adds for column `(x, z)`. -/
def waterColumnFaces (d : Dims) (c : Chunk) (x z : Int) : List Face :=
  if c.blockAt d x WATER_HEIGHT z = some BlockType.eWATER then
    [⟨BlockType.eWATER, Vec3.ofInts x WATER_HEIGHT z, CubeSides.eUP⟩]
  else []

/-- The faces that the loops of lines 272-285 add to pass 1, in order. -/
def waterFaces (d : Dims) (c : Chunk) : List Face :=
  (List.range d.CHUNK_WIDTH).flatMap (fun (z : Nat) =>
    (List.range d.CHUNK_LENGTH).flatMap (fun (x : Nat) =>
      waterColumnFaces d c (x : Int) (z : Int)))

/-- The local coordinates of the neighbour that the test for `side` looks at
(lines 177, 181, 198, 218, 237 and 256). -/
def neighbour (x y z : Int) : CubeSides → Int × Int × Int
  | CubeSides.eUP => (x, y + 1, z)
  | CubeSides.eDOWN => (x, y - 1, z)
  | CubeSides.eLEFT => (x - 1, y, z)
  | CubeSides.eRIGHT => (x + 1, y, z)
  | CubeSides.eFRONT => (x, y, z + 1)
  | CubeSides.eBACK => (x, y, z - 1)

/-- Voxel `(x, y, z)` lies on the outer shell of the grid: one of its six neighbours
falls outside. -/
def Dims.onShell (d : Dims) (x y z : Int) : Prop :=
  x = 0 ∨ x = (d.CHUNK_LENGTH : Int) - 1 ∨ y = 0 ∨ y = (d.CHUNK_HEIGHT : Int) - 1 ∨
    z = 0 ∨ z = (d.CHUNK_WIDTH : Int) - 1

instance (d : Dims) (x y z : Int) : Decidable (d.onShell x y z) := by
  unfold Dims.onShell
  infer_instance

/-- The number of voxels of the grid that lie on its outer shell. -/
def Dims.exposedCount (d : Dims) : Nat :=
  ((List.range d.CHUNK_WIDTH).flatMap (fun (z : Nat) =>
    (List.range d.CHUNK_LENGTH).flatMap (fun (x : Nat) =>
      (List.range d.CHUNK_HEIGHT).filter (fun (y : Nat) =>
        decide (d.onShell (x : Int) (y : Int) (z : Int)))))).length

/-- The number of columns `(x, z)` of the grid that satisfy `p`. -/
def Dims.countColumns (d : Dims) (p : Int → Int → Bool) : Nat :=
  ((List.range d.CHUNK_WIDTH).flatMap (fun (z : Nat) =>
    (List.range d.CHUNK_LENGTH).filter (fun (x : Nat) => p (x : Int) (z : Int)))).length

/-- The height that line 137 reads for column `(x, z)`:
`mHeightMap[x + (z * CHUNK_WIDTH)]`. -/
def Chunk.heightAt (d : Dims) (c : Chunk) (x z : Int) : Option Int :=
  loadAt c.mHeightMap (x + (z * (d.CHUNK_WIDTH : Int)))

/-! ## Concrete inputs -/

/-- A square test footprint of two by two columns, 75 voxels high. -/
def demoDims : Dims := ⟨2, 2, 75⟩

/-- A test noise function: `-1` on the line `xOffset = 0`, `0` elsewhere, which gives
height 50 (under water) to the columns `x = 0` and height 74 to the columns `x = 1` of
the chunk at the origin. -/
def demoNoise : ℚ → ℚ → ℚ := fun a _ => if a = 0 then -1 else 0

/-- The origin. -/
def origin : Vec3 := ⟨0, 0, 0⟩

/-- A footprint of a single column, 61 voxels high: the least height that holds the
water layer. -/
def towerDims : Dims := ⟨1, 1, 61⟩

/-- The chunk at the origin whose 61 voxels are all cobblestone. -/
def solidTower : Chunk :=
  { Chunk.fresh towerDims origin with mBlocks := List.replicate 61 BlockType.eCOBBLESTONE }

/-- A registry that holds no chunk. -/
def emptyRegistry : Vec3 → Option Chunk := fun _ => none

/-- A quad table for tests: the corners of each face of the unit cube, with the outward
normal of the face. -/
def unitCubeTable : CubeSides → Nat → CubeVert := fun side i =>
  let a : ℚ := if i = 1 ∨ i = 2 then 1 else 0
  let b : ℚ := if i = 2 ∨ i = 3 then 1 else 0
  match side with
  | CubeSides.eUP => ⟨⟨a, 1, b⟩, ⟨0, 1, 0⟩, BlockType.eAIR⟩
  | CubeSides.eDOWN => ⟨⟨a, 0, b⟩, ⟨0, -1, 0⟩, BlockType.eAIR⟩
  | CubeSides.eLEFT => ⟨⟨0, a, b⟩, ⟨-1, 0, 0⟩, BlockType.eAIR⟩
  | CubeSides.eRIGHT => ⟨⟨1, a, b⟩, ⟨1, 0, 0⟩, BlockType.eAIR⟩
  | CubeSides.eFRONT => ⟨⟨a, b, 1⟩, ⟨0, 0, 1⟩, BlockType.eAIR⟩
  | CubeSides.eBACK => ⟨⟨a, b, 0⟩, ⟨0, 0, -1⟩, BlockType.eAIR⟩

/-- The fresh, all-air tower at the origin. -/
def airTower : Chunk := Chunk.fresh towerDims origin

/-- The cobblestone tower one chunk length to the right of the origin. -/
def rightTower : Chunk :=
  { Chunk.fresh towerDims ⟨1, 0, 0⟩ with mBlocks := List.replicate 61 BlockType.eCOBBLESTONE }

/-- A registry that holds `airTower` at the origin and `rightTower` next to it. -/
def pairRegistry : Vec3 → Option Chunk := fun p =>
  if p = origin then some airTower
  else if p = ⟨1, 0, 0⟩ then some rightTower
  else none

/-- The tower at the origin whose lower 30 voxels are cobblestone and upper 31 are air. -/
def halfTower : Chunk :=
  { Chunk.fresh towerDims origin with
    mBlocks := List.replicate 30 BlockType.eCOBBLESTONE ++ List.replicate 31 BlockType.eAIR }

/-! ## Height mapping as the specification words it -/

/-- The height formula in the words of the specification:
`round((noise+1)/2 × MAX_LAND_HEIGHT) + WATER_HEIGHT - LAND_BELOW_WATER`. It is compared
with `heightFromNoise`, the formula of line 117. -/
def specHeight (noise : ℚ) : Int :=
  round (((noise + 1) / 2) * (MAX_LAND_HEIGHT_FROM_WATER_SURFACE : ℚ))
    + WATER_HEIGHT - LAND_HEIGHT_BELOW_WATER

/-! ## Draw decisions -/

/-- Modelled from the spec: the `RenderPass` enumeration of chunk.hpp. The code names
`eGEOMETRY` only; `eOTHER` stands for every other value (the water pass). -/
inductive RenderPass where
  | eGEOMETRY
  | eOTHER (tag : Nat)
deriving DecidableEq, Repr

/-- The method `Chunk::needRender` (lines 345-352). -/
def needRender (c : Chunk) (pass : RenderPass) : Bool :=
  let renderData := if pass = RenderPass.eGEOMETRY then c.mRenderData0 else c.mRenderData1
  if renderData.mIndexData.length = 0 ∨ renderData.mVisibleMesh.length = 0 then false
  else true

/-- The render data that `needRender` and `render` select for `pass`
(`renderPass = (pass == eGEOMETRY) ? 0 : 1`). -/
def Chunk.passData (c : Chunk) (pass : RenderPass) : RenderData :=
  if pass = RenderPass.eGEOMETRY then c.mRenderData0 else c.mRenderData1

/-! ## Stored indices -/

/-- The index list of `rd` holds, for each of its first `F` faces, the index template
shifted by four times the face number and reduced modulo `2^16`, as line 312 stores it
in a `uint16_t`. -/
def IndicesStored (rd : RenderData) (F : Nat) : Prop :=
  ∀ k j, k < F → j < 6 →
    rd.mIndexData[k * 6 + j]? = some ((sCubeFaceIndices.getD j 0 + 4 * k) % 65536)

/-- The index list of `rd` holds, for each of its first `F` faces, the unwrapped value
`template + 4k`, which lies in `[4k, 4k + 3]`. -/
def IndicesExact (rd : RenderData) (F : Nat) : Prop :=
  ∀ k j, k < F → j < 6 →
    ∃ v, rd.mIndexData[k * 6 + j]? = some v ∧ v = sCubeFaceIndices.getD j 0 + 4 * k ∧
      4 * k ≤ v ∧ v ≤ 4 * k + 3

/-! ## Camera -/

/-- The `glm::vec2` type, over exact rationals. -/
structure Vec2 where
  x : ℚ
  y : ℚ
deriving DecidableEq

/-- The mouse position that `onMouseMoveEvent` receives. -/
structure MousePositionData where
  x : ℚ
  y : ℚ
deriving DecidableEq

/-- The fields of `Camera` that the constructor sets (camera.cpp lines 34-49). -/
structure Camera where
  mFrontVector : Vec3
  mWorldUpVector : Vec3
  mRightVector : Vec3
  mUpVector : Vec3
  mLastMousePos : Vec2
  mFirstMouseMove : Bool
  mYaw : ℚ
  mPitch : ℚ
  mMoveAxisHorizontal : ℚ
  mMoveAxisVertical : ℚ
deriving DecidableEq

/-- The constant `MOUSE_SENSITIVITY` (camera.cpp line 30), `0.1f` read as one tenth. -/
def MOUSE_SENSITIVITY : ℚ := 1 / 10

/-- The function `glm::clamp(x, minVal, maxVal)`: `min(max(x, minVal), maxVal)`. -/
def glmClamp (x minVal maxVal : ℚ) : ℚ := min (max x minVal) maxVal

/-- The constructor `Camera::Camera` (camera.cpp lines 34-49). -/
def Camera.create : Camera :=
  { mFrontVector := ⟨0, 0, -1⟩
    mWorldUpVector := ⟨0, 1, 0⟩
    mRightVector := ⟨0, 0, 0⟩
    mUpVector := ⟨0, 0, 0⟩
    mLastMousePos := ⟨0, 0⟩
    mFirstMouseMove := true
    mYaw := -90
    mPitch := 0
    mMoveAxisHorizontal := 0
    mMoveAxisVertical := 0 }

/-- The method `Camera::onMouseMoveEvent` (camera.cpp lines 80-97). -/
def Camera.onMouseMoveEvent (cam : Camera) (data : MousePositionData) : Camera :=
  if cam.mFirstMouseMove then
    { cam with mLastMousePos := ⟨data.x, data.y⟩, mFirstMouseMove := false }
  else
    let yaw := cam.mYaw + (data.x - cam.mLastMousePos.x) * MOUSE_SENSITIVITY
    let pitch := cam.mPitch + (cam.mLastMousePos.y - data.y) * MOUSE_SENSITIVITY
    { cam with
      mYaw := yaw
      mLastMousePos := ⟨data.x, data.y⟩
      mPitch := glmClamp pitch (-90) 90 }

/-- The camera after a sequence of `onMouseMoveEvent` calls on a new camera. -/
def Camera.afterMoves (events : List MousePositionData) : Camera :=
  events.foldl Camera.onMouseMoveEvent Camera.create

/-! ## Further concrete inputs -/

/-- A footprint that is not square: three columns long, two wide, 75 high. -/
def slabDims : Dims := ⟨3, 2, 75⟩

/-- A test noise function: `-1` on the line `xOffset = 1/6` (the columns `x = 2` of the
chunk at the origin with `slabDims`), `0` elsewhere. -/
def slabNoise : ℚ → ℚ → ℚ := fun a _ => if a = 1 / 6 then -1 else 0

/-- A footprint of 128 by 128 columns, 61 voxels high. -/
def wideDims : Dims := ⟨128, 128, 61⟩

/-- The chunk at the origin with `wideDims` all of whose voxels are cobblestone. -/
def wideSolid : Chunk :=
  { Chunk.fresh wideDims origin with
    mBlocks := List.replicate
      (wideDims.CHUNK_LENGTH * wideDims.CHUNK_WIDTH * wideDims.CHUNK_HEIGHT)
      BlockType.eCOBBLESTONE }

/-- A test noise function: `-1` at the sample `(1/6, 0)` only (column `(2, 0)` of the chunk
at the origin with `slabDims`), `0` elsewhere. -/
def cornerNoise : ℚ → ℚ → ℚ := fun a b => if a = 1 / 6 ∧ b = 0 then -1 else 0

/-- A footprint one column long and two wide, 99 voxels high. -/
def narrowDims : Dims := ⟨1, 2, 99⟩

/-- The noise function that is `0` everywhere. -/
def zeroNoise : ℚ → ℚ → ℚ := fun _ _ => 0
/-! ## Memory lemmas -/

theorem storeAt_eq_some {α : Type} (mem : List α) (i : Int) (v : α) (h0 : 0 ≤ i)
    (h1 : i < (mem.length : Int)) : storeAt mem i v = some (mem.set i.toNat v) := by
  simp [storeAt, h0, h1]

theorem storeAt_eq_none {α : Type} (mem : List α) (i : Int) (v : α)
    (h : ¬ (0 ≤ i ∧ i < (mem.length : Int))) : storeAt mem i v = none := by
  simp only [storeAt, if_neg h]

theorem storeAt_some_iff {α : Type} {mem mem' : List α} {i : Int} {v : α} :
    storeAt mem i v = some mem' ↔
      (0 ≤ i ∧ i < (mem.length : Int)) ∧ mem' = mem.set i.toNat v := by
  unfold storeAt
  split_ifs with h
  · simp [h, eq_comm]
  · simp [h]

theorem storeAt_length {α : Type} {mem mem' : List α} {i : Int} {v : α}
    (h : storeAt mem i v = some mem') : mem'.length = mem.length := by
  rw [storeAt_some_iff] at h
  rw [h.2, List.length_set]

theorem loadAt_storeAt {α : Type} {mem mem' : List α} {i : Int} {v : α}
    (h : storeAt mem i v = some mem') (j : Int) :
    loadAt mem' j = if j = i then some v else loadAt mem j := by
  rw [storeAt_some_iff] at h
  obtain ⟨⟨h0, h1⟩, rfl⟩ := h
  unfold loadAt
  by_cases hj : 0 ≤ j
  · simp only [hj, if_true, List.getElem?_set]
    by_cases hji : j = i
    · subst hji
      have : j.toNat < mem.length := by omega
      simp [this]
    · have : i.toNat ≠ j.toNat := by omega
      simp [this, hji]
  · have : j ≠ i := by omega
    simp [hj, this]

theorem loadAt_eq_some_getD {α : Type} (mem : List α) (i : Int) (dflt : α) (h0 : 0 ≤ i)
    (h1 : i < (mem.length : Int)) : loadAt mem i = some (mem.getD i.toNat dflt) := by
  have : i.toNat < mem.length := by omega
  simp [loadAt, h0, List.getD, List.getElem?_eq_getElem this]

theorem loadAt_isSome_iff {α : Type} (mem : List α) (i : Int) :
    (∃ v, loadAt mem i = some v) ↔ (0 ≤ i ∧ i < (mem.length : Int)) := by
  unfold loadAt
  constructor
  · rintro ⟨v, hv⟩
    split_ifs at hv with h
    have := (List.getElem?_eq_some_iff.mp hv).1
    omega
  · rintro ⟨h0, h1⟩
    have : i.toNat < mem.length := by omega
    exact ⟨mem[i.toNat], by simp [h0, List.getElem?_eq_getElem this]⟩

/-! ## Loop rules -/

theorem forUp_zero {σ : Type} (body : Int → σ → Option σ) (s : σ) :
    forUp 0 body s = some s := by
  simp [forUp]

theorem forUp_succ {σ : Type} (n : Nat) (body : Int → σ → Option σ) (s : σ) :
    forUp (n + 1) body s = (forUp n body s).bind (body (n : Int)) := by
  simp [forUp, List.range_succ, List.foldlM_append]

/-- Total-correctness rule for `forUp`. -/
theorem forUp_induct {σ : Type} (n : Nat) (body : Int → σ → Option σ) (Inv : Nat → σ → Prop)
    (s0 : σ) (h0 : Inv 0 s0)
    (hstep : ∀ i, i < n → ∀ s, Inv i s → ∃ s', body (i : Int) s = some s' ∧ Inv (i + 1) s') :
    ∃ s', forUp n body s0 = some s' ∧ Inv n s' := by
  induction n with
  | zero => exact ⟨s0, forUp_zero body s0, h0⟩
  | succ n ih =>
    obtain ⟨s1, h1, hI⟩ := ih (fun i hi s hs => hstep i (Nat.lt_succ_of_lt hi) s hs)
    obtain ⟨s2, h2, hI2⟩ := hstep n (Nat.lt_succ_self n) s1 hI
    exact ⟨s2, by rw [forUp_succ, h1]; exact h2, hI2⟩

/-- Partial-correctness rule for `forUp`: the invariant may record what the success
of each iteration implies. -/
theorem forUp_ifReturns {σ : Type} (n : Nat) (body : Int → σ → Option σ) (Inv : Nat → σ → Prop)
    (s0 : σ) (h0 : Inv 0 s0)
    (hstep : ∀ i, i < n → ∀ s s', Inv i s → body (i : Int) s = some s' → Inv (i + 1) s')
    (s' : σ) (h : forUp n body s0 = some s') : Inv n s' := by
  induction n generalizing s' with
  | zero =>
    rw [forUp_zero] at h
    cases h
    exact h0
  | succ n ih =>
    rw [forUp_succ] at h
    cases h1 : forUp n body s0 with
    | none => rw [h1] at h; cases h
    | some s1 =>
      rw [h1] at h
      exact hstep n (Nat.lt_succ_self n) s1 s'
        (ih (fun i hi s t hs hb => hstep i (Nat.lt_succ_of_lt hi) s t hs hb) s1 h1) h

/-- Total-correctness rule for the column loops
`for z < W: for x < L: body(x, z)`; `Inv z x` holds before iteration `(z, x)`. -/
theorem forCols_induct {σ : Type} (W L : Nat) (body : Int → Int → σ → Option σ)
    (Inv : Nat → Nat → σ → Prop) (s0 : σ) (h0 : Inv 0 0 s0)
    (hstep : ∀ z, z < W → ∀ x, x < L → ∀ s, Inv z x s →
      ∃ s', body (x : Int) (z : Int) s = some s' ∧ Inv z (x + 1) s')
    (hrow : ∀ z, z < W → ∀ s, Inv z L s → Inv (z + 1) 0 s) :
    ∃ s', forUp W (fun z s => forUp L (fun x s => body x z s) s) s0 = some s' ∧ Inv W 0 s' := by
  apply forUp_induct W _ (fun z s => Inv z 0 s) s0 h0
  intro z hz s hs
  obtain ⟨s', h1, h2⟩ := forUp_induct L (fun x s => body x z s) (fun x s => Inv z x s) s hs
    (fun x hx t ht => hstep z hz x hx t ht)
  exact ⟨s', h1, hrow z hz s' h2⟩

/-- Partial-correctness rule for the column loops. -/
theorem forCols_ifReturns {σ : Type} (W L : Nat) (body : Int → Int → σ → Option σ)
    (Inv : Nat → Nat → σ → Prop) (s0 : σ) (h0 : Inv 0 0 s0)
    (hstep : ∀ z, z < W → ∀ x, x < L → ∀ s s', Inv z x s →
      body (x : Int) (z : Int) s = some s' → Inv z (x + 1) s')
    (hrow : ∀ z, z < W → ∀ s, Inv z L s → Inv (z + 1) 0 s)
    (s' : σ) (h : forUp W (fun z s => forUp L (fun x s => body x z s) s) s0 = some s') :
    Inv W 0 s' := by
  refine forUp_ifReturns W _ (fun z s => Inv z 0 s) s0 h0 ?_ s' h
  intro z hz s t hs ht
  exact hrow z hz t (forUp_ifReturns L (fun x s => body x z s) (fun x s => Inv z x s) s hs
    (fun x hx u v hu hv => hstep z hz x hx u v hu hv) t ht)

/-- Columns already visited when the column loops stand before iteration `(z, x)`. -/
theorem colDone_row (L : Nat) (z : Nat) (x' z' : Int) (hx0 : 0 ≤ x') (hx : x' < (L : Int)) :
    (z' < (z : Int) ∨ (z' = (z : Int) ∧ x' < (L : Int))) ↔
      (z' < ((z + 1 : Nat) : Int) ∨ (z' = ((z + 1 : Nat) : Int) ∧ x' < ((0 : Nat) : Int))) := by
  push_cast
  omega

/-! ## Index arithmetic -/

theorem getCubeIndex_eq (d : Dims) (x y z : Int) :
    getCubeIndex d x y z = x + (d.CHUNK_LENGTH : Int) * (z + (d.CHUNK_WIDTH : Int) * y) := by
  unfold getCubeIndex
  ring

theorem mixed_radix_bounds (n : Int) (a b m : Int) (ha0 : 0 ≤ a) (han : a < n) (hb0 : 0 ≤ b)
    (hbm : b < m) : 0 ≤ a + n * b ∧ a + n * b < n * m := by
  have hn : 0 < n := by omega
  constructor
  · have : 0 ≤ n * b := mul_nonneg hn.le hb0
    omega
  · have h1 : n * (b + 1) ≤ n * m := mul_le_mul_of_nonneg_left (by omega) hn.le
    have h2 : n * (b + 1) = n * b + n := by ring
    omega

theorem mixed_radix_inj (n : Int) (a b a' b' : Int) (ha0 : 0 ≤ a) (han : a < n) (ha0' : 0 ≤ a')
    (han' : a' < n) (h : a + n * b = a' + n * b') : a = a' ∧ b = b' := by
  have hb : b = b' := by
    rcases lt_trichotomy b b' with hlt | heq | hgt
    · have h1 : n * (b + 1) ≤ n * b' := mul_le_mul_of_nonneg_left (by omega) (by omega)
      have h2 : n * (b + 1) = n * b + n := by ring
      omega
    · exact heq
    · have h1 : n * (b' + 1) ≤ n * b := mul_le_mul_of_nonneg_left (by omega) (by omega)
      have h2 : n * (b' + 1) = n * b' + n := by ring
      omega
  subst hb
  exact ⟨by omega, rfl⟩

/-- Inside the grid the linear index is inside the allocation. -/
theorem getCubeIndex_bounds (d : Dims) (x y z : Int) (hx0 : 0 ≤ x)
    (hx : x < (d.CHUNK_LENGTH : Int)) (hy0 : 0 ≤ y) (hy : y < (d.CHUNK_HEIGHT : Int))
    (hz0 : 0 ≤ z) (hz : z < (d.CHUNK_WIDTH : Int)) :
    0 ≤ getCubeIndex d x y z ∧
      getCubeIndex d x y z < ((d.CHUNK_LENGTH * d.CHUNK_WIDTH * d.CHUNK_HEIGHT : Nat) : Int) := by
  rw [getCubeIndex_eq]
  have h1 := mixed_radix_bounds (d.CHUNK_WIDTH : Int) z y (d.CHUNK_HEIGHT : Int) hz0 hz hy0 hy
  have h2 := mixed_radix_bounds (d.CHUNK_LENGTH : Int) x (z + (d.CHUNK_WIDTH : Int) * y)
    ((d.CHUNK_WIDTH : Int) * (d.CHUNK_HEIGHT : Int)) hx0 hx h1.1 h1.2
  refine ⟨h2.1, ?_⟩
  push_cast
  rw [mul_assoc]
  exact h2.2

/-- Inside the footprint the linear index determines the coordinates. -/
theorem getCubeIndex_inj (d : Dims) (x y z x' y' z' : Int) (hx0 : 0 ≤ x)
    (hx : x < (d.CHUNK_LENGTH : Int)) (hz0 : 0 ≤ z) (hz : z < (d.CHUNK_WIDTH : Int))
    (hx0' : 0 ≤ x') (hx' : x' < (d.CHUNK_LENGTH : Int)) (hz0' : 0 ≤ z')
    (hz' : z' < (d.CHUNK_WIDTH : Int))
    (h : getCubeIndex d x y z = getCubeIndex d x' y' z') : x = x' ∧ y = y' ∧ z = z' := by
  rw [getCubeIndex_eq, getCubeIndex_eq] at h
  obtain ⟨h1, h2⟩ := mixed_radix_inj _ _ _ _ _ hx0 hx hx0' hx' h
  obtain ⟨h3, h4⟩ := mixed_radix_inj _ _ _ _ _ hz0 hz hz0' hz' h2
  exact ⟨h1, h4, h3⟩

/-- With `x` and `z` inside the footprint, the linear index is inside the allocation
only if `y` is inside the height range. -/
theorem getCubeIndex_bounds_inv (d : Dims) (x y z : Int) (hx0 : 0 ≤ x)
    (hx : x < (d.CHUNK_LENGTH : Int)) (hz0 : 0 ≤ z) (hz : z < (d.CHUNK_WIDTH : Int))
    (h0 : 0 ≤ getCubeIndex d x y z)
    (h1 : getCubeIndex d x y z < ((d.CHUNK_LENGTH * d.CHUNK_WIDTH * d.CHUNK_HEIGHT : Nat) : Int)) :
    0 ≤ y ∧ y < (d.CHUNK_HEIGHT : Int) := by
  rw [getCubeIndex_eq] at h0 h1
  push_cast at h1
  have hL : (0 : Int) < d.CHUNK_LENGTH := by omega
  have hW : (0 : Int) < d.CHUNK_WIDTH := by omega
  constructor
  · by_contra hneg
    have hy : y + 1 ≤ 0 := by omega
    have h3 : (d.CHUNK_WIDTH : Int) * (y + 1) ≤ 0 := mul_nonpos_of_nonneg_of_nonpos hW.le hy
    have h3' : (d.CHUNK_WIDTH : Int) * (y + 1) = (d.CHUNK_WIDTH : Int) * y + d.CHUNK_WIDTH := by
      ring
    have h4 : z + (d.CHUNK_WIDTH : Int) * y + 1 ≤ 0 := by omega
    have h5 : (d.CHUNK_LENGTH : Int) * (z + (d.CHUNK_WIDTH : Int) * y + 1) ≤ 0 :=
      mul_nonpos_of_nonneg_of_nonpos hL.le h4
    have h5' : (d.CHUNK_LENGTH : Int) * (z + (d.CHUNK_WIDTH : Int) * y + 1) =
        (d.CHUNK_LENGTH : Int) * (z + (d.CHUNK_WIDTH : Int) * y) + d.CHUNK_LENGTH := by ring
    omega
  · by_contra hge
    have hy : (d.CHUNK_HEIGHT : Int) ≤ y := by omega
    have h3 : (d.CHUNK_WIDTH : Int) * (d.CHUNK_HEIGHT : Int) ≤ (d.CHUNK_WIDTH : Int) * y :=
      mul_le_mul_of_nonneg_left hy hW.le
    have h4 : (d.CHUNK_LENGTH : Int) * ((d.CHUNK_WIDTH : Int) * (d.CHUNK_HEIGHT : Int)) ≤
        (d.CHUNK_LENGTH : Int) * (z + (d.CHUNK_WIDTH : Int) * y) :=
      mul_le_mul_of_nonneg_left (by omega) hL.le
    have h6 : (d.CHUNK_LENGTH : Int) * (d.CHUNK_WIDTH : Int) * (d.CHUNK_HEIGHT : Int) =
        (d.CHUNK_LENGTH : Int) * ((d.CHUNK_WIDTH : Int) * (d.CHUNK_HEIGHT : Int)) := by ring
    omega

/-! ## Height map -/

theorem forUp_push {σ : Type} (n : Nat) (g : Int → σ) (s : List σ) :
    forUp n (fun i acc => some (acc ++ [g i])) s =
      some (s ++ (List.range n).map (fun (i : Nat) => g (i : Int))) := by
  induction n with
  | zero => simp [forUp_zero]
  | succ n ih =>
    rw [forUp_succ, ih]
    simp [List.range_succ]

theorem forUp_append_rows {σ : Type} (n : Nat) (F : Nat → List σ)
    (body : Int → List σ → Option (List σ))
    (hbody : ∀ i : Nat, ∀ s, body (i : Int) s = some (s ++ F i)) (s : List σ) :
    forUp n body s = some (s ++ (List.range n).flatMap F) := by
  induction n with
  | zero => simp [forUp_zero]
  | succ n ih =>
    rw [forUp_succ, ih]
    simp [List.range_succ, hbody]

theorem genHeightMap_eq (noise2 : ℚ → ℚ → ℚ) (d : Dims) (pos : Vec3) (hm : List Int) :
    genHeightMap noise2 d pos hm = some (hm ++ columnHeights noise2 d pos) := by
  unfold genHeightMap columnHeights
  apply forUp_append_rows
  intro z s
  exact forUp_push d.CHUNK_LENGTH (fun x => columnHeight noise2 d pos x (z : Int)) s

theorem rows_length {α : Type} (W L : Nat) (f : Nat → Nat → α) :
    ((List.range W).flatMap (fun z => (List.range L).map (f z))).length = W * L := by
  induction W with
  | zero => simp
  | succ W ih =>
    rw [List.range_succ, List.flatMap_append, List.length_append, ih]
    simp
    ring

theorem rows_getElem {α : Type} (W L : Nat) (f : Nat → Nat → α) (z x : Nat) (hz : z < W)
    (hx : x < L) :
    ((List.range W).flatMap (fun z => (List.range L).map (f z)))[z * L + x]? = some (f z x) := by
  induction W with
  | zero => omega
  | succ W ih =>
    rw [List.range_succ, List.flatMap_append]
    rcases Nat.lt_succ_iff_lt_or_eq.mp hz with hlt | heq
    · have hlen : z * L + x < ((List.range W).flatMap (fun z => (List.range L).map (f z))).length := by
        rw [rows_length]
        have : (z + 1) * L ≤ W * L := Nat.mul_le_mul_right L hlt
        have : (z + 1) * L = z * L + L := by ring
        omega
      rw [List.getElem?_append_left hlen]
      exact ih hlt
    · subst heq
      have hlen : ((List.range z).flatMap (fun z => (List.range L).map (f z))).length ≤ z * L + x := by
        rw [rows_length]
        omega
      rw [List.getElem?_append_right hlen, rows_length]
      simp [hx]

theorem columnHeights_length (noise2 : ℚ → ℚ → ℚ) (d : Dims) (pos : Vec3) :
    (columnHeights noise2 d pos).length = d.CHUNK_WIDTH * d.CHUNK_LENGTH :=
  rows_length d.CHUNK_WIDTH d.CHUNK_LENGTH
    (fun (z x : Nat) => columnHeight noise2 d pos (x : Int) (z : Int))

/-- Entry `x + z * CHUNK_LENGTH` of the pushed heights is the height of column `(x, z)`. -/
theorem columnHeights_loadAt (noise2 : ℚ → ℚ → ℚ) (d : Dims) (pos : Vec3) (x z : Int)
    (hx0 : 0 ≤ x) (hx : x < (d.CHUNK_LENGTH : Int)) (hz0 : 0 ≤ z)
    (hz : z < (d.CHUNK_WIDTH : Int)) :
    loadAt (columnHeights noise2 d pos) (x + z * (d.CHUNK_LENGTH : Int)) =
      some (columnHeight noise2 d pos x z) := by
  have h := rows_getElem d.CHUNK_WIDTH d.CHUNK_LENGTH
    (fun (z x : Nat) => columnHeight noise2 d pos (x : Int) (z : Int)) z.toNat x.toNat
    (by omega) (by omega)
  have hnn : 0 ≤ x + z * (d.CHUNK_LENGTH : Int) := by positivity
  have hidx : (x + z * (d.CHUNK_LENGTH : Int)).toNat = z.toNat * d.CHUNK_LENGTH + x.toNat := by
    have h1 : ((z.toNat : Nat) : Int) = z := Int.toNat_of_nonneg hz0
    have h2 : ((x.toNat : Nat) : Int) = x := Int.toNat_of_nonneg hx0
    zify
    rw [Int.toNat_of_nonneg hnn, h1, h2]
    ring
  unfold loadAt columnHeights
  rw [if_pos hnn, hidx, h]
  simp [Int.toNat_of_nonneg hx0, Int.toNat_of_nonneg hz0]

theorem loadAt_append_left {α : Type} (m m' : List α) (i : Int) (v : α)
    (h : loadAt m i = some v) : loadAt (m ++ m') i = some v := by
  unfold loadAt at h ⊢
  split_ifs at h ⊢ with h0
  have hlt := (List.getElem?_eq_some_iff.mp h).1
  rw [List.getElem?_append_left hlt]
  exact h

/-! ## Water and land fill -/

theorem loadAt_store_cell (d : Dims) {bs bs' : List BlockType} {x y z : Int} {v : BlockType}
    (hf : d.inFootprint x z) (h : storeAt bs (getCubeIndex d x y z) v = some bs')
    (x' y' z' : Int) (hg : d.inFootprint x' z') :
    loadAt bs' (getCubeIndex d x' y' z') =
      if x' = x ∧ y' = y ∧ z' = z then some v else loadAt bs (getCubeIndex d x' y' z') := by
  rw [loadAt_storeAt h]
  by_cases hc : x' = x ∧ y' = y ∧ z' = z
  · obtain ⟨rfl, rfl, rfl⟩ := hc
    simp
  · have : getCubeIndex d x' y' z' ≠ getCubeIndex d x y z := by
      intro heq
      exact hc (getCubeIndex_inj d x' y' z' x y z hg.1.1 hg.1.2 hg.2.1 hg.2.2
        hf.1.1 hf.1.2 hf.2.1 hf.2.2 heq)
    rw [if_neg this, if_neg hc]

theorem store_cell_some (d : Dims) (bs : List BlockType) (x y z : Int) (v : BlockType)
    (hlen : bs.length = d.CHUNK_LENGTH * d.CHUNK_WIDTH * d.CHUNK_HEIGHT)
    (hg : d.inGrid x y z) :
    ∃ bs', storeAt bs (getCubeIndex d x y z) v = some bs' ∧
      bs'.length = d.CHUNK_LENGTH * d.CHUNK_WIDTH * d.CHUNK_HEIGHT := by
  have hb := getCubeIndex_bounds d x y z hg.1.1 hg.1.2 hg.2.1.1 hg.2.1.2 hg.2.2.1 hg.2.2.2
  refine ⟨_, storeAt_eq_some bs _ v hb.1 (by rw [hlen]; exact hb.2), ?_⟩
  rw [List.length_set, hlen]

theorem store_cell_guard (d : Dims) {bs bs' : List BlockType} {x y z : Int} {v : BlockType}
    (hlen : bs.length = d.CHUNK_LENGTH * d.CHUNK_WIDTH * d.CHUNK_HEIGHT)
    (hf : d.inFootprint x z) (h : storeAt bs (getCubeIndex d x y z) v = some bs') :
    0 ≤ y ∧ y < (d.CHUNK_HEIGHT : Int) := by
  rw [storeAt_some_iff] at h
  rw [hlen] at h
  exact getCubeIndex_bounds_inv d x y z hf.1.1 hf.1.2 hf.2.1 hf.2.2 h.1.1 h.1.2

/-- Lines 124-130 succeed when the water layer lies inside the grid, and then change
exactly the voxels of that layer. -/
theorem fillWater_total (d : Dims) (bs : List BlockType)
    (hlen : bs.length = d.CHUNK_LENGTH * d.CHUNK_WIDTH * d.CHUNK_HEIGHT)
    (hH : WATER_HEIGHT < (d.CHUNK_HEIGHT : Int)) :
    ∃ bs', fillWater d bs = some bs' ∧
      bs'.length = d.CHUNK_LENGTH * d.CHUNK_WIDTH * d.CHUNK_HEIGHT ∧
      ∀ x y z, d.inGrid x y z → loadAt bs' (getCubeIndex d x y z) =
        if y = WATER_HEIGHT then some BlockType.eWATER else loadAt bs (getCubeIndex d x y z) := by
  have key := forCols_induct d.CHUNK_WIDTH d.CHUNK_LENGTH
    (fun x z s => storeAt s (getCubeIndex d x WATER_HEIGHT z) BlockType.eWATER)
    (fun z x s => s.length = d.CHUNK_LENGTH * d.CHUNK_WIDTH * d.CHUNK_HEIGHT ∧
      ∀ x' y' z', d.inGrid x' y' z' → loadAt s (getCubeIndex d x' y' z') =
        if y' = WATER_HEIGHT ∧ (z' < (z : Int) ∨ (z' = (z : Int) ∧ x' < (x : Int)))
        then some BlockType.eWATER else loadAt bs (getCubeIndex d x' y' z'))
    bs ?_ ?_ ?_
  · obtain ⟨bs', h1, h2, h3⟩ := key
    refine ⟨bs', h1, h2, ?_⟩
    intro x y z hg
    rw [h3 x y z hg]
    have : z < (d.CHUNK_WIDTH : Int) := hg.2.2.2
    simp [this]
  · refine ⟨hlen, ?_⟩
    intro x' y' z' hg
    have h1 := hg.1.1
    have h2 := hg.2.2.1
    have : ¬ (y' = WATER_HEIGHT ∧ (z' < ((0 : Nat) : Int) ∨ (z' = ((0 : Nat) : Int) ∧
        x' < ((0 : Nat) : Int)))) := by
      push_cast
      omega
    rw [if_neg this]
  · intro z hz x hx s ⟨hs, hI⟩
    have hf : d.inFootprint (x : Int) (z : Int) := ⟨⟨by omega, by omega⟩, ⟨by omega, by omega⟩⟩
    have hg : d.inGrid (x : Int) WATER_HEIGHT (z : Int) :=
      ⟨hf.1, ⟨by unfold WATER_HEIGHT; omega, hH⟩, hf.2⟩
    obtain ⟨s', hs', hlen'⟩ := store_cell_some d s x WATER_HEIGHT z BlockType.eWATER hs hg
    refine ⟨s', hs', hlen', ?_⟩
    intro x' y' z' hg'
    rw [loadAt_store_cell d hf hs' x' y' z' ⟨hg'.1, hg'.2.2⟩, hI x' y' z' hg']
    by_cases hy : y' = WATER_HEIGHT
    · by_cases h1 : x' = (x : Int) ∧ z' = (z : Int)
      · have : (z' < (z : Int) ∨ (z' = (z : Int) ∧ x' < ((x + 1 : Nat) : Int))) := by
          push_cast
          omega
        simp [hy, h1, this]
      · have : (z' < (z : Int) ∨ (z' = (z : Int) ∧ x' < ((x + 1 : Nat) : Int))) ↔
            (z' < (z : Int) ∨ (z' = (z : Int) ∧ x' < (x : Int))) := by
          push_cast
          omega
        have h2 : ¬ (x' = (x : Int) ∧ y' = WATER_HEIGHT ∧ z' = (z : Int)) := by tauto
        rw [if_neg h2]
        simp only [hy, true_and, this]
    · have h2 : ¬ (x' = (x : Int) ∧ y' = WATER_HEIGHT ∧ z' = (z : Int)) := by tauto
      simp [hy, h2]
  · intro z hz s ⟨hs, hI⟩
    refine ⟨hs, ?_⟩
    intro x' y' z' hg
    rw [hI x' y' z' hg]
    have := colDone_row d.CHUNK_LENGTH z x' z' hg.1.1 hg.1.2
    simp only [this]

/-- Lines 124-130 succeed on a chunk with at least one column only if the water layer
lies inside the grid. -/
theorem fillWater_guard (d : Dims) (bs bs' : List BlockType)
    (hlen : bs.length = d.CHUNK_LENGTH * d.CHUNK_WIDTH * d.CHUNK_HEIGHT)
    (h : fillWater d bs = some bs') (hL : 0 < d.CHUNK_LENGTH) (hW : 0 < d.CHUNK_WIDTH) :
    WATER_HEIGHT < (d.CHUNK_HEIGHT : Int) := by
  have key := forCols_ifReturns d.CHUNK_WIDTH d.CHUNK_LENGTH
    (fun x z s => storeAt s (getCubeIndex d x WATER_HEIGHT z) BlockType.eWATER)
    (fun z x s => s.length = d.CHUNK_LENGTH * d.CHUNK_WIDTH * d.CHUNK_HEIGHT ∧
      ((0 < z ∨ 0 < x) → WATER_HEIGHT < (d.CHUNK_HEIGHT : Int)))
    bs ⟨hlen, by omega⟩ ?_ ?_ bs' h
  · exact key.2 (Or.inl hW)
  · intro z hz x hx s s' ⟨hs, _⟩ hst
    have hf : d.inFootprint (x : Int) (z : Int) := ⟨⟨by omega, by omega⟩, ⟨by omega, by omega⟩⟩
    refine ⟨by rw [storeAt_length hst, hs], fun _ => (store_cell_guard d hs hf hst).2⟩
  · intro z hz s ⟨hs, hI⟩
    exact ⟨hs, fun _ => hI (Or.inr hL)⟩

theorem cobble_loop (d : Dims) (x z : Int) (hf : d.inFootprint x z) (n : Nat)
    (hn : n ≤ d.CHUNK_HEIGHT) (bs : List BlockType)
    (hlen : bs.length = d.CHUNK_LENGTH * d.CHUNK_WIDTH * d.CHUNK_HEIGHT) :
    ∃ bs', (List.range n).reverse.foldlM (fun acc (i : Nat) =>
        storeAt acc (getCubeIndex d x (i : Int) z) BlockType.eCOBBLESTONE) bs = some bs' ∧
      bs'.length = d.CHUNK_LENGTH * d.CHUNK_WIDTH * d.CHUNK_HEIGHT ∧
      ∀ x' y' z', d.inGrid x' y' z' → loadAt bs' (getCubeIndex d x' y' z') =
        if x' = x ∧ z' = z ∧ y' < (n : Int) then some BlockType.eCOBBLESTONE
        else loadAt bs (getCubeIndex d x' y' z') := by
  induction n generalizing bs with
  | zero =>
    refine ⟨bs, by simp, hlen, ?_⟩
    intro x' y' z' hg
    have h1 := hg.2.1.1
    have : ¬ (x' = x ∧ z' = z ∧ y' < ((0 : Nat) : Int)) := by
      push_cast
      omega
    rw [if_neg this]
  | succ n ih =>
    have hg : d.inGrid x (n : Int) z := ⟨hf.1, ⟨by omega, by omega⟩, hf.2⟩
    obtain ⟨bs1, hs1, hlen1⟩ := store_cell_some d bs x n z BlockType.eCOBBLESTONE hlen hg
    obtain ⟨bs', hs', hlen', hI⟩ := ih (by omega) bs1 hlen1
    refine ⟨bs', ?_, hlen', ?_⟩
    · rw [List.range_succ, List.reverse_append, List.reverse_singleton, List.singleton_append,
        List.foldlM_cons, hs1]
      exact hs'
    · intro x' y' z' hg'
      rw [hI x' y' z' hg', loadAt_store_cell d hf hs1 x' y' z' ⟨hg'.1, hg'.2.2⟩]
      have hc : ((n + 1 : Nat) : Int) = (n : Int) + 1 := by push_cast; rfl
      rw [hc]
      by_cases h1 : x' = x ∧ z' = z
      · by_cases h2 : y' < (n : Int)
        · have h3 : y' < (n : Int) + 1 := by omega
          simp [h1, h2, h3]
        · by_cases h3 : y' = (n : Int)
          · simp [h1, h3]
          · have h4 : ¬ y' < (n : Int) + 1 := by omega
            simp [h1, h2, h3, h4]
      · have h2 : ¬ (x' = x ∧ z' = z ∧ y' < (n : Int)) := by tauto
        have h3 : ¬ (x' = x ∧ z' = z ∧ y' < (n : Int) + 1) := by tauto
        have h4 : ¬ (x' = x ∧ y' = (n : Int) ∧ z' = z) := by tauto
        rw [if_neg h2, if_neg h3, if_neg h4]

/-- Lines 136-148 succeed when the stored height of the column lies inside the grid,
and then rewrite exactly the column up to that height. -/
theorem fillColumn_total (d : Dims) (hm : List Int) (x z : Int) (bs : List BlockType)
    (hlen : bs.length = d.CHUNK_LENGTH * d.CHUNK_WIDTH * d.CHUNK_HEIGHT)
    (hf : d.inFootprint x z) (h : Int)
    (hload : loadAt hm (x + (z * (d.CHUNK_WIDTH : Int))) = some h)
    (h0 : 0 ≤ h) (h1 : h < (d.CHUNK_HEIGHT : Int)) :
    ∃ bs', fillColumn d hm x z bs = some bs' ∧
      bs'.length = d.CHUNK_LENGTH * d.CHUNK_WIDTH * d.CHUNK_HEIGHT ∧
      ∀ x' y' z', d.inGrid x' y' z' → loadAt bs' (getCubeIndex d x' y' z') =
        if x' = x ∧ z' = z ∧ y' ≤ h then
          some (if y' = h then BlockType.eDIRT else BlockType.eCOBBLESTONE)
        else loadAt bs (getCubeIndex d x' y' z') := by
  have hg : d.inGrid x h z := ⟨hf.1, ⟨h0, h1⟩, hf.2⟩
  obtain ⟨bs1, hs1, hlen1⟩ := store_cell_some d bs x h z BlockType.eDIRT hlen hg
  obtain ⟨bs', hs', hlen', hI⟩ := cobble_loop d x z hf h.toNat (by omega) bs1 hlen1
  refine ⟨bs', ?_, hlen', ?_⟩
  · unfold fillColumn forDown
    simp only [hload, Option.bind_eq_bind, Option.some_bind, hs1]
    have : (h - 1 + 1).toNat = h.toNat := by congr 1; omega
    rw [this]
    exact hs'
  · intro x' y' z' hg'
    rw [hI x' y' z' hg', loadAt_store_cell d hf hs1 x' y' z' ⟨hg'.1, hg'.2.2⟩]
    have hcast : ((h.toNat : Nat) : Int) = h := Int.toNat_of_nonneg h0
    rw [hcast]
    by_cases hxz : x' = x ∧ z' = z
    · by_cases hlt : y' < h
      · have hne : y' ≠ h := by omega
        have hle : y' ≤ h := by omega
        simp [hxz, hlt, hne, hle]
      · by_cases heq : y' = h
        · simp [hxz, heq]
        · have hle : ¬ y' ≤ h := by omega
          simp [hxz, hlt, heq, hle]
    · have h2 : ¬ (x' = x ∧ z' = z ∧ y' < h) := by tauto
      have h3 : ¬ (x' = x ∧ z' = z ∧ y' ≤ h) := by tauto
      have h4 : ¬ (x' = x ∧ y' = h ∧ z' = z) := by tauto
      rw [if_neg h2, if_neg h3, if_neg h4]

/-- Lines 136-148 succeed only if the height read for the column lies inside the grid. -/
theorem fillColumn_guard (d : Dims) (hm : List Int) (x z : Int) (bs bs' : List BlockType)
    (hlen : bs.length = d.CHUNK_LENGTH * d.CHUNK_WIDTH * d.CHUNK_HEIGHT)
    (hf : d.inFootprint x z) (h : fillColumn d hm x z bs = some bs') :
    ∃ ht, loadAt hm (x + (z * (d.CHUNK_WIDTH : Int))) = some ht ∧ 0 ≤ ht ∧
      ht < (d.CHUNK_HEIGHT : Int) := by
  unfold fillColumn at h
  cases hl : loadAt hm (x + (z * (d.CHUNK_WIDTH : Int))) with
  | none => simp [hl] at h
  | some ht =>
    simp only [hl, Option.bind_eq_bind, Option.some_bind] at h
    cases hs : storeAt bs (getCubeIndex d x ht z) BlockType.eDIRT with
    | none => simp [hs] at h
    | some bs1 => exact ⟨ht, rfl, store_cell_guard d hlen hf hs⟩

theorem fillColumn_length (d : Dims) (hm : List Int) (x z : Int) (bs bs' : List BlockType)
    (hlen : bs.length = d.CHUNK_LENGTH * d.CHUNK_WIDTH * d.CHUNK_HEIGHT)
    (hf : d.inFootprint x z) (h : fillColumn d hm x z bs = some bs') :
    bs'.length = d.CHUNK_LENGTH * d.CHUNK_WIDTH * d.CHUNK_HEIGHT := by
  obtain ⟨ht, hl, h0, h1⟩ := fillColumn_guard d hm x z bs bs' hlen hf h
  obtain ⟨bs2, hs2, hlen2, _⟩ := fillColumn_total d hm x z bs hlen hf ht hl h0 h1
  rw [h] at hs2
  cases hs2
  exact hlen2

/-- Lines 132-150 succeed when every column's stored height lies inside the grid, and
then every column is cobblestone below its height and dirt at it. -/
theorem fillLand_total (d : Dims) (hm : List Int) (bs : List BlockType) (hfun : Int → Int → Int)
    (hlen : bs.length = d.CHUNK_LENGTH * d.CHUNK_WIDTH * d.CHUNK_HEIGHT)
    (hload : ∀ x z, d.inFootprint x z →
      loadAt hm (x + (z * (d.CHUNK_WIDTH : Int))) = some (hfun x z) ∧ 0 ≤ hfun x z ∧
        hfun x z < (d.CHUNK_HEIGHT : Int)) :
    ∃ bs', fillLand d hm bs = some bs' ∧
      bs'.length = d.CHUNK_LENGTH * d.CHUNK_WIDTH * d.CHUNK_HEIGHT ∧
      ∀ x y z, d.inGrid x y z → loadAt bs' (getCubeIndex d x y z) =
        if y ≤ hfun x z then
          some (if y = hfun x z then BlockType.eDIRT else BlockType.eCOBBLESTONE)
        else loadAt bs (getCubeIndex d x y z) := by
  have key := forCols_induct d.CHUNK_WIDTH d.CHUNK_LENGTH
    (fun x z s => fillColumn d hm x z s)
    (fun z x s => s.length = d.CHUNK_LENGTH * d.CHUNK_WIDTH * d.CHUNK_HEIGHT ∧
      ∀ x' y' z', d.inGrid x' y' z' → loadAt s (getCubeIndex d x' y' z') =
        if (z' < (z : Int) ∨ (z' = (z : Int) ∧ x' < (x : Int))) ∧ y' ≤ hfun x' z' then
          some (if y' = hfun x' z' then BlockType.eDIRT else BlockType.eCOBBLESTONE)
        else loadAt bs (getCubeIndex d x' y' z'))
    bs ?_ ?_ ?_
  · obtain ⟨bs', h1, h2, h3⟩ := key
    refine ⟨bs', h1, h2, ?_⟩
    intro x y z hg
    rw [h3 x y z hg]
    have : z < (d.CHUNK_WIDTH : Int) := hg.2.2.2
    simp [this]
  · refine ⟨hlen, ?_⟩
    intro x' y' z' hg
    have h1 := hg.1.1
    have h2 := hg.2.2.1
    have : ¬ ((z' < ((0 : Nat) : Int) ∨ (z' = ((0 : Nat) : Int) ∧ x' < ((0 : Nat) : Int))) ∧
        y' ≤ hfun x' z') := by
      push_cast
      omega
    rw [if_neg this]
  · intro z hz x hx s ⟨hs, hI⟩
    have hf : d.inFootprint (x : Int) (z : Int) := ⟨⟨by omega, by omega⟩, ⟨by omega, by omega⟩⟩
    obtain ⟨hl, h0, h1⟩ := hload x z hf
    obtain ⟨s', hs', hlen', hI'⟩ := fillColumn_total d hm x z s hs hf (hfun x z) hl h0 h1
    refine ⟨s', hs', hlen', ?_⟩
    intro x' y' z' hg'
    rw [hI' x' y' z' hg', hI x' y' z' hg']
    by_cases h1 : x' = (x : Int) ∧ z' = (z : Int)
    · obtain ⟨rfl, rfl⟩ := h1
      have : ((z : Int) < (z : Int) ∨ ((z : Int) = (z : Int) ∧ (x : Int) < ((x + 1 : Nat) : Int))) := by
        push_cast
        omega
      by_cases hy : y' ≤ hfun x z
      · simp [hy, this]
      · have h5 : ¬ (((z : Int) < (z : Int) ∨ ((z : Int) = (z : Int) ∧ (x : Int) < (x : Int))) ∧
            y' ≤ hfun x z) := by tauto
        simp [hy, h5]
    · have : (z' < (z : Int) ∨ (z' = (z : Int) ∧ x' < ((x + 1 : Nat) : Int))) ↔
          (z' < (z : Int) ∨ (z' = (z : Int) ∧ x' < (x : Int))) := by
        push_cast
        omega
      have h2 : ¬ (x' = (x : Int) ∧ z' = (z : Int) ∧ y' ≤ hfun x z) := by tauto
      rw [if_neg h2]
      simp only [this]
  · intro z hz s ⟨hs, hI⟩
    refine ⟨hs, ?_⟩
    intro x' y' z' hg
    rw [hI x' y' z' hg]
    have := colDone_row d.CHUNK_LENGTH z x' z' hg.1.1 hg.1.2
    simp only [this]

/-- Lines 132-150 succeed only if every column's stored height lies inside the grid. -/
theorem fillLand_guard (d : Dims) (hm : List Int) (bs bs' : List BlockType)
    (hlen : bs.length = d.CHUNK_LENGTH * d.CHUNK_WIDTH * d.CHUNK_HEIGHT)
    (h : fillLand d hm bs = some bs') (x z : Int) (hf : d.inFootprint x z) :
    ∃ ht, loadAt hm (x + (z * (d.CHUNK_WIDTH : Int))) = some ht ∧ 0 ≤ ht ∧
      ht < (d.CHUNK_HEIGHT : Int) := by
  have key := forCols_ifReturns d.CHUNK_WIDTH d.CHUNK_LENGTH
    (fun x z s => fillColumn d hm x z s)
    (fun zz xx s => s.length = d.CHUNK_LENGTH * d.CHUNK_WIDTH * d.CHUNK_HEIGHT ∧
      ∀ x' z', d.inFootprint x' z' → (z' < (zz : Int) ∨ (z' = (zz : Int) ∧ x' < (xx : Int))) →
        ∃ ht, loadAt hm (x' + (z' * (d.CHUNK_WIDTH : Int))) = some ht ∧ 0 ≤ ht ∧
          ht < (d.CHUNK_HEIGHT : Int))
    bs ?_ ?_ ?_ bs' h
  · exact key.2 x z hf (Or.inl hf.2.2)
  · refine ⟨hlen, ?_⟩
    intro x' z' hf' hd
    have h1 := hf'.1.1
    have h2 := hf'.2.1
    push_cast at hd
    omega
  · intro zz hz xx hx s s' ⟨hs, hI⟩ hst
    have hf' : d.inFootprint (xx : Int) (zz : Int) :=
      ⟨⟨by omega, by omega⟩, ⟨by omega, by omega⟩⟩
    refine ⟨fillColumn_length d hm xx zz s s' hs hf' hst, ?_⟩
    intro x' z' hf2 hd
    by_cases h1 : x' = (xx : Int) ∧ z' = (zz : Int)
    · obtain ⟨rfl, rfl⟩ := h1
      exact fillColumn_guard d hm xx zz s s' hs hf' hst
    · apply hI x' z' hf2
      push_cast at hd
      omega
  · intro zz hz s ⟨hs, hI⟩
    refine ⟨hs, ?_⟩
    intro x' z' hf' hd
    apply hI x' z' hf'
    exact (colDone_row d.CHUNK_LENGTH zz x' z' hf'.1.1 hf'.1.2).mpr hd

theorem foldlM_storeAt_length {α : Type} (l : List Nat) (f : Nat → Int) (v : α)
    (bs bs' : List α)
    (h : l.foldlM (fun acc (i : Nat) => storeAt acc (f i) v) bs = some bs') :
    bs'.length = bs.length := by
  induction l generalizing bs with
  | nil =>
    simp at h
    rw [h]
  | cons a l ih =>
    rw [List.foldlM_cons] at h
    cases hs : storeAt bs (f a) v with
    | none => simp [hs] at h
    | some bs1 =>
      simp only [hs, Option.bind_eq_bind, Option.some_bind] at h
      rw [ih bs1 h, storeAt_length hs]

theorem fillColumn_preserves_length (d : Dims) (hm : List Int) (x z : Int)
    (bs bs' : List BlockType) (h : fillColumn d hm x z bs = some bs') :
    bs'.length = bs.length := by
  unfold fillColumn forDown at h
  cases hl : loadAt hm (x + (z * (d.CHUNK_WIDTH : Int))) with
  | none => simp [hl] at h
  | some ht =>
    simp only [hl, Option.bind_eq_bind, Option.some_bind] at h
    cases hs : storeAt bs (getCubeIndex d x ht z) BlockType.eDIRT with
    | none => simp [hs] at h
    | some bs1 =>
      simp only [hs, Option.some_bind] at h
      rw [foldlM_storeAt_length _ (fun i => getCubeIndex d x (i : Int) z) _ bs1 bs' h,
        storeAt_length hs]

theorem fillLand_preserves_length (d : Dims) (hm : List Int) (bs bs' : List BlockType)
    (h : fillLand d hm bs = some bs') : bs'.length = bs.length :=
  forCols_ifReturns d.CHUNK_WIDTH d.CHUNK_LENGTH (fun x z s => fillColumn d hm x z s)
    (fun _ _ s => s.length = bs.length) bs rfl
    (fun _ _ _ _ s s' hs hst => (fillColumn_preserves_length d hm _ _ s s' hst).trans hs)
    (fun _ _ _ hs => hs) bs' h

theorem fillWater_preserves_length (d : Dims) (bs bs' : List BlockType)
    (h : fillWater d bs = some bs') : bs'.length = bs.length :=
  forCols_ifReturns d.CHUNK_WIDTH d.CHUNK_LENGTH
    (fun x z s => storeAt s (getCubeIndex d x WATER_HEIGHT z) BlockType.eWATER)
    (fun _ _ s => s.length = bs.length) bs rfl
    (fun _ _ _ _ _ _ hs hst => (storeAt_length hst).trans hs)
    (fun _ _ _ hs => hs) bs' h

/-- The method `genTerrain` keeps the position, the render data and the size of the
block array, and appends the pushed heights to the height map. -/
theorem genTerrain_frame (noise2 : ℚ → ℚ → ℚ) (d : Dims) (c c' : Chunk)
    (h : genTerrain noise2 d c = some c') :
    c'.mHeightMap = c.mHeightMap ++ columnHeights noise2 d c.mPosition ∧
      c'.mPosition = c.mPosition ∧ c'.mRenderData0 = c.mRenderData0 ∧
      c'.mRenderData1 = c.mRenderData1 ∧ c'.mBlocks.length = c.mBlocks.length := by
  unfold genTerrain at h
  simp only [genHeightMap_eq, Option.bind_eq_bind, Option.some_bind] at h
  cases hw : fillWater d c.mBlocks with
  | none => simp [hw] at h
  | some bs1 =>
    simp only [hw, Option.some_bind] at h
    cases hl : fillLand d (c.mHeightMap ++ columnHeights noise2 d c.mPosition) bs1 with
    | none => simp [hl] at h
    | some bs2 =>
      simp only [hl, Option.some_bind, Option.some.injEq] at h
      subst h
      refine ⟨rfl, rfl, rfl, rfl, ?_⟩
      simp only
      rw [fillLand_preserves_length d _ bs1 bs2 hl, fillWater_preserves_length d _ bs1 hw]

/-! ## Terrain generation as a whole -/

theorem Chunk.fresh_wellFormed (d : Dims) (pos : Vec3) : (Chunk.fresh d pos).WellFormed d := by
  simp [Chunk.WellFormed, Chunk.fresh]

theorem blockAt_replicate (d : Dims) (c : Chunk) (b : BlockType)
    (h : c.mBlocks = List.replicate (d.CHUNK_LENGTH * d.CHUNK_WIDTH * d.CHUNK_HEIGHT) b)
    (x y z : Int) (hg : d.inGrid x y z) : c.blockAt d x y z = some b := by
  have hb := getCubeIndex_bounds d x y z hg.1.1 hg.1.2 hg.2.1.1 hg.2.1.2 hg.2.2.1 hg.2.2.2
  unfold Chunk.blockAt loadAt
  simp only [hb.1, if_true]
  rw [h, List.getElem?_replicate]
  have : (getCubeIndex d x y z).toNat < d.CHUNK_LENGTH * d.CHUNK_WIDTH * d.CHUNK_HEIGHT := by
    omega
  simp [this]

theorem Chunk.fresh_blockAt (d : Dims) (pos : Vec3) (x y z : Int) (hg : d.inGrid x y z) :
    (Chunk.fresh d pos).blockAt d x y z = some BlockType.eAIR :=
  blockAt_replicate d (Chunk.fresh d pos) BlockType.eAIR rfl x y z hg

/-- The method `genTerrain` succeeds when the water layer and every height that line 137
reads lie inside the grid; `hfun x z` names the height read for column `(x, z)`. -/
theorem genTerrain_total (noise2 : ℚ → ℚ → ℚ) (d : Dims) (c : Chunk) (hfun : Int → Int → Int)
    (hwf : c.WellFormed d) (hH : WATER_HEIGHT < (d.CHUNK_HEIGHT : Int))
    (hload : ∀ x z, d.inFootprint x z →
      loadAt (c.mHeightMap ++ columnHeights noise2 d c.mPosition)
        (x + (z * (d.CHUNK_WIDTH : Int))) = some (hfun x z) ∧ 0 ≤ hfun x z ∧
        hfun x z < (d.CHUNK_HEIGHT : Int)) :
    ∃ c', genTerrain noise2 d c = some c' ∧
      c'.mHeightMap = c.mHeightMap ++ columnHeights noise2 d c.mPosition ∧
      c'.mPosition = c.mPosition ∧ c'.mRenderData0 = c.mRenderData0 ∧
      c'.mRenderData1 = c.mRenderData1 ∧ c'.WellFormed d ∧
      ∀ x y z, d.inGrid x y z → c'.blockAt d x y z =
        if y ≤ hfun x z then
          some (if y = hfun x z then BlockType.eDIRT else BlockType.eCOBBLESTONE)
        else if y = WATER_HEIGHT then some BlockType.eWATER
        else c.blockAt d x y z := by
  obtain ⟨bs1, hw, hlen1, hI1⟩ := fillWater_total d c.mBlocks hwf hH
  obtain ⟨bs2, hl, hlen2, hI2⟩ := fillLand_total d
    (c.mHeightMap ++ columnHeights noise2 d c.mPosition) bs1 hfun hlen1 hload
  refine ⟨{ c with mHeightMap := c.mHeightMap ++ columnHeights noise2 d c.mPosition,
                   mBlocks := bs2 }, ?_, rfl, rfl, rfl, rfl, hlen2, ?_⟩
  · unfold genTerrain
    simp [genHeightMap_eq, hw, hl]
  · intro x y z hg
    unfold Chunk.blockAt
    simp only
    rw [hI2 x y z hg, hI1 x y z hg]

/-- The method `genTerrain` succeeds on a chunk with the column `(x, z)` only if the water
layer and the height read for that column lie inside the grid. -/
theorem genTerrain_guard (noise2 : ℚ → ℚ → ℚ) (d : Dims) (c c' : Chunk)
    (hwf : c.WellFormed d) (h : genTerrain noise2 d c = some c') (x z : Int)
    (hf : d.inFootprint x z) :
    WATER_HEIGHT < (d.CHUNK_HEIGHT : Int) ∧
      ∃ ht, loadAt (c.mHeightMap ++ columnHeights noise2 d c.mPosition)
        (x + (z * (d.CHUNK_WIDTH : Int))) = some ht ∧ 0 ≤ ht ∧ ht < (d.CHUNK_HEIGHT : Int) := by
  unfold genTerrain at h
  simp only [genHeightMap_eq, Option.bind_eq_bind, Option.some_bind] at h
  cases hw : fillWater d c.mBlocks with
  | none => simp [hw] at h
  | some bs1 =>
    simp only [hw, Option.some_bind] at h
    have hL : 0 < d.CHUNK_LENGTH := by have := hf.1.1; have := hf.1.2; omega
    have hW : 0 < d.CHUNK_WIDTH := by have := hf.2.1; have := hf.2.2; omega
    have hH := fillWater_guard d c.mBlocks bs1 hwf hw hL hW
    obtain ⟨bs1', hw', hlen1, _⟩ := fillWater_total d c.mBlocks hwf hH
    rw [hw] at hw'
    cases hw'
    cases hl : fillLand d (c.mHeightMap ++ columnHeights noise2 d c.mPosition) bs1 with
    | none => simp [hl] at h
    | some bs2 =>
      exact ⟨hH, fillLand_guard d _ bs1 bs2 hlen1 hl x z hf⟩

/-- On a fresh chunk with a square footprint line 137 reads, for column `(x, z)`, the
height computed from the noise sample of that column. -/
theorem fresh_height_read (noise2 : ℚ → ℚ → ℚ) (d : Dims) (pos : Vec3)
    (hsq : d.CHUNK_LENGTH = d.CHUNK_WIDTH) (x z : Int) (hf : d.inFootprint x z) :
    loadAt ((Chunk.fresh d pos).mHeightMap ++ columnHeights noise2 d (Chunk.fresh d pos).mPosition)
      (x + (z * (d.CHUNK_WIDTH : Int))) = some (columnHeight noise2 d pos x z) := by
  have h := columnHeights_loadAt noise2 d pos x z hf.1.1 hf.1.2 hf.2.1 hf.2.2
  rw [hsq] at h
  simpa [Chunk.fresh] using h

/-- What `genTerrain` leaves in a fresh chunk, whenever it succeeds: for each column a
height `h` inside the grid, read by line 137, with cobblestone below it, dirt at it, and
above it air except for water at `WATER_HEIGHT`. -/
theorem genTerrain_fresh_columns (noise2 : ℚ → ℚ → ℚ) (d : Dims) (pos : Vec3) (c' : Chunk)
    (h : genTerrain noise2 d (Chunk.fresh d pos) = some c') :
    c'.mHeightMap = columnHeights noise2 d pos ∧ c'.WellFormed d ∧
    ∀ x z, d.inFootprint x z →
      WATER_HEIGHT < (d.CHUNK_HEIGHT : Int) ∧
      ∃ ht, loadAt c'.mHeightMap (x + (z * (d.CHUNK_WIDTH : Int))) = some ht ∧
        (0 ≤ ht ∧ ht < (d.CHUNK_HEIGHT : Int)) ∧
        ∀ y, 0 ≤ y → y < (d.CHUNK_HEIGHT : Int) → c'.blockAt d x y z =
          if y ≤ ht then some (if y = ht then BlockType.eDIRT else BlockType.eCOBBLESTONE)
          else if y = WATER_HEIGHT then some BlockType.eWATER
          else some BlockType.eAIR := by
  have hwf := Chunk.fresh_wellFormed d pos
  by_cases hne : ∃ x z, d.inFootprint x z
  · obtain ⟨x0, z0, hf0⟩ := hne
    have hH := (genTerrain_guard noise2 d _ c' hwf h x0 z0 hf0).1
    have hex : ∀ x z, ∃ ht, d.inFootprint x z →
        loadAt ((Chunk.fresh d pos).mHeightMap ++
          columnHeights noise2 d (Chunk.fresh d pos).mPosition)
          (x + (z * (d.CHUNK_WIDTH : Int))) = some ht ∧ 0 ≤ ht ∧ ht < (d.CHUNK_HEIGHT : Int) := by
      intro x z
      by_cases hf : d.inFootprint x z
      · obtain ⟨ht, h1⟩ := (genTerrain_guard noise2 d _ c' hwf h x z hf).2
        exact ⟨ht, fun _ => h1⟩
      · exact ⟨0, fun hf' => absurd hf' hf⟩
    choose hfun hfun_spec using hex
    obtain ⟨c2, hc2, hm2, _, _, _, hwf2, hI⟩ :=
      genTerrain_total noise2 d (Chunk.fresh d pos) hfun hwf hH hfun_spec
    rw [h] at hc2
    cases hc2
    have hm : c'.mHeightMap = columnHeights noise2 d pos := by
      rw [hm2]
      simp [Chunk.fresh]
    refine ⟨hm, hwf2, ?_⟩
    intro x z hf
    refine ⟨hH, hfun x z, ?_, (hfun_spec x z hf).2, ?_⟩
    · rw [hm2]
      exact (hfun_spec x z hf).1
    · intro y hy0 hy1
      have hg : d.inGrid x y z := ⟨hf.1, ⟨hy0, hy1⟩, hf.2⟩
      rw [hI x y z hg, Chunk.fresh_blockAt d pos x y z hg]
  · obtain ⟨hm, _, _, _, hlen⟩ := genTerrain_frame noise2 d _ c' h
    refine ⟨by rw [hm]; simp [Chunk.fresh], ?_, fun x z hf => absurd ⟨x, z, hf⟩ hne⟩
    unfold Chunk.WellFormed
    rw [hlen]
    exact hwf

/-! ## Meshing: the calls made -/

theorem isTranslucent_of_blockAt (d : Dims) (c : Chunk) (x y z : Int) (b : BlockType)
    (h : c.blockAt d x y z = some b) :
    _isTranslucent d c x y z =
      some (decide (b = BlockType.eAIR ∨ b = BlockType.eWATER)) := by
  unfold Chunk.blockAt at h
  unfold _isTranslucent
  rw [h]
  simp only [Option.bind_eq_bind, Option.some_bind]
  by_cases h1 : b = BlockType.eAIR
  · simp [h1]
  · by_cases h2 : b = BlockType.eWATER
    · simp [h2]
    · simp [h1, h2]

theorem blockAt_some (d : Dims) (c : Chunk) (hwf : c.WellFormed d) (x y z : Int)
    (hg : d.inGrid x y z) : ∃ b, c.blockAt d x y z = some b := by
  have hb := getCubeIndex_bounds d x y z hg.1.1 hg.1.2 hg.2.1.1 hg.2.1.2 hg.2.2.1 hg.2.2.2
  exact (loadAt_isSome_iff c.mBlocks _).mpr ⟨hb.1, by rw [hwf]; exact hb.2⟩

theorem isTranslucent_some (d : Dims) (c : Chunk) (hwf : c.WellFormed d) (x y z : Int)
    (hg : d.inGrid x y z) : ∃ t, _isTranslucent d c x y z = some t := by
  obtain ⟨b, hb⟩ := blockAt_some d c hwf x y z hg
  exact ⟨_, isTranslucent_of_blockAt d c x y z b hb⟩

theorem some_beq_some_true (t : Bool) : (some t == some true) = t := by
  cases t <;> rfl

theorem faceUp_eq (tbl : CubeSides → Nat → CubeVert) (reg : Vec3 → Option Chunk) (d : Dims)
    (c : Chunk) (hwf : c.WellFormed d) (block : BlockType) (x y z : Int)
    (hg : d.inGrid x y z) (rd : RenderData) :
    faceUp tbl d c block x y z rd =
      some (if sideFree reg d c x y z CubeSides.eUP
        then _addFace tbl rd block (Vec3.ofInts x y z) CubeSides.eUP else rd) := by
  unfold faceUp sideFree
  by_cases h : y + 1 = (d.CHUNK_HEIGHT : Int)
  · simp [h]
  · have hg' : d.inGrid x (y + 1) z := ⟨hg.1, ⟨by have := hg.2.1.1; omega,
      by have := hg.2.1.2; omega⟩, hg.2.2⟩
    obtain ⟨t, ht⟩ := isTranslucent_some d c hwf x (y + 1) z hg'
    simp only [h, if_false, ht, Option.bind_eq_bind, Option.some_bind, decide_False,
      Bool.false_or, some_beq_some_true]
    cases t <;> rfl

theorem faceDown_eq (tbl : CubeSides → Nat → CubeVert) (reg : Vec3 → Option Chunk) (d : Dims)
    (c : Chunk) (hwf : c.WellFormed d) (block : BlockType) (x y z : Int)
    (hg : d.inGrid x y z) (rd : RenderData) :
    faceDown tbl d c block x y z rd =
      some (if sideFree reg d c x y z CubeSides.eDOWN
        then _addFace tbl rd block (Vec3.ofInts x y z) CubeSides.eDOWN else rd) := by
  unfold faceDown sideFree
  by_cases h : y - 1 = -1
  · simp [h]
  · have hg' : d.inGrid x (y - 1) z := ⟨hg.1, ⟨by have := hg.2.1.1; omega,
      by have := hg.2.1.2; omega⟩, hg.2.2⟩
    obtain ⟨t, ht⟩ := isTranslucent_some d c hwf x (y - 1) z hg'
    simp only [h, if_false, ht, Option.bind_eq_bind, Option.some_bind, decide_False,
      Bool.false_or, some_beq_some_true]
    cases t <;> rfl

theorem faceLeft_eq (tbl : CubeSides → Nat → CubeVert) (reg : Vec3 → Option Chunk) (d : Dims)
    (c : Chunk) (hwf : c.WellFormed d) (hreg : RegistryWellFormed d reg) (block : BlockType)
    (x y z : Int) (hg : d.inGrid x y z) (rd : RenderData) :
    faceLeft tbl reg d c block x y z rd =
      some (if sideFree reg d c x y z CubeSides.eLEFT
        then _addFace tbl rd block (Vec3.ofInts x y z) CubeSides.eLEFT else rd) := by
  unfold faceLeft sideFree
  by_cases h : x - 1 = -1
  · simp only [h, if_true]
    cases hr : reg (c.mPosition.sub ⟨(d.CHUNK_LENGTH : ℚ), 0, 0⟩) with
    | none => simp
    | some chunk =>
      have hg' : d.inGrid ((d.CHUNK_LENGTH : Int) - 1) y z :=
        ⟨⟨by have := hg.1.1; have := hg.1.2; omega, by omega⟩, hg.2⟩
      obtain ⟨t, ht⟩ := isTranslucent_some d chunk (hreg _ _ hr) _ y z hg'
      simp only [ht, Option.bind_eq_bind, Option.some_bind, some_beq_some_true]
      cases t <;> rfl
  · have hg' : d.inGrid (x - 1) y z := ⟨⟨by have := hg.1.1; omega, by have := hg.1.2; omega⟩,
      hg.2⟩
    obtain ⟨t, ht⟩ := isTranslucent_some d c hwf (x - 1) y z hg'
    simp only [h, if_false, ht, Option.bind_eq_bind, Option.some_bind, some_beq_some_true]
    cases t <;> rfl

theorem faceRight_eq (tbl : CubeSides → Nat → CubeVert) (reg : Vec3 → Option Chunk) (d : Dims)
    (c : Chunk) (hwf : c.WellFormed d) (hreg : RegistryWellFormed d reg) (block : BlockType)
    (x y z : Int) (hg : d.inGrid x y z) (rd : RenderData) :
    faceRight tbl reg d c block x y z rd =
      some (if sideFree reg d c x y z CubeSides.eRIGHT
        then _addFace tbl rd block (Vec3.ofInts x y z) CubeSides.eRIGHT else rd) := by
  unfold faceRight sideFree
  by_cases h : x + 1 = (d.CHUNK_LENGTH : Int)
  · simp only [h, if_true]
    cases hr : reg (c.mPosition.add ⟨(d.CHUNK_LENGTH : ℚ), 0, 0⟩) with
    | none => simp
    | some chunk =>
      have hg' : d.inGrid 0 y z :=
        ⟨⟨le_refl 0, by have := hg.1.1; have := hg.1.2; omega⟩, hg.2⟩
      obtain ⟨t, ht⟩ := isTranslucent_some d chunk (hreg _ _ hr) _ y z hg'
      simp only [ht, Option.bind_eq_bind, Option.some_bind, some_beq_some_true]
      cases t <;> rfl
  · have hg' : d.inGrid (x + 1) y z := ⟨⟨by have := hg.1.1; omega, by have := hg.1.2; omega⟩,
      hg.2⟩
    obtain ⟨t, ht⟩ := isTranslucent_some d c hwf (x + 1) y z hg'
    simp only [h, if_false, ht, Option.bind_eq_bind, Option.some_bind, some_beq_some_true]
    cases t <;> rfl

theorem faceFront_eq (tbl : CubeSides → Nat → CubeVert) (reg : Vec3 → Option Chunk) (d : Dims)
    (c : Chunk) (hwf : c.WellFormed d) (hreg : RegistryWellFormed d reg) (block : BlockType)
    (x y z : Int) (hg : d.inGrid x y z) (rd : RenderData) :
    faceFront tbl reg d c block x y z rd =
      some (if sideFree reg d c x y z CubeSides.eFRONT
        then _addFace tbl rd block (Vec3.ofInts x y z) CubeSides.eFRONT else rd) := by
  unfold faceFront sideFree
  by_cases h : z + 1 = (d.CHUNK_WIDTH : Int)
  · simp only [h, if_true]
    cases hr : reg (c.mPosition.add ⟨0, 0, (d.CHUNK_WIDTH : ℚ)⟩) with
    | none => simp
    | some chunk =>
      have hg' : d.inGrid x y 0 :=
        ⟨hg.1, hg.2.1, ⟨le_refl 0, by have := hg.2.2.1; have := hg.2.2.2; omega⟩⟩
      obtain ⟨t, ht⟩ := isTranslucent_some d chunk (hreg _ _ hr) x y _ hg'
      simp only [ht, Option.bind_eq_bind, Option.some_bind, some_beq_some_true]
      cases t <;> rfl
  · have hg' : d.inGrid x y (z + 1) := ⟨hg.1, hg.2.1,
      ⟨by have := hg.2.2.1; omega, by have := hg.2.2.2; omega⟩⟩
    obtain ⟨t, ht⟩ := isTranslucent_some d c hwf x y (z + 1) hg'
    simp only [h, if_false, ht, Option.bind_eq_bind, Option.some_bind, some_beq_some_true]
    cases t <;> rfl

theorem faceBack_eq (tbl : CubeSides → Nat → CubeVert) (reg : Vec3 → Option Chunk) (d : Dims)
    (c : Chunk) (hwf : c.WellFormed d) (hreg : RegistryWellFormed d reg) (block : BlockType)
    (x y z : Int) (hg : d.inGrid x y z) (rd : RenderData) :
    faceBack tbl reg d c block x y z rd =
      some (if sideFree reg d c x y z CubeSides.eBACK
        then _addFace tbl rd block (Vec3.ofInts x y z) CubeSides.eBACK else rd) := by
  unfold faceBack sideFree
  by_cases h : z - 1 = -1
  · simp only [h, if_true]
    cases hr : reg (c.mPosition.sub ⟨0, 0, (d.CHUNK_WIDTH : ℚ)⟩) with
    | none => simp
    | some chunk =>
      have hg' : d.inGrid x y ((d.CHUNK_WIDTH : Int) - 1) :=
        ⟨hg.1, hg.2.1, ⟨by have := hg.2.2.1; have := hg.2.2.2; omega, by omega⟩⟩
      obtain ⟨t, ht⟩ := isTranslucent_some d chunk (hreg _ _ hr) x y _ hg'
      simp only [ht, Option.bind_eq_bind, Option.some_bind, some_beq_some_true]
      cases t <;> rfl
  · have hg' : d.inGrid x y (z - 1) := ⟨hg.1, hg.2.1,
      ⟨by have := hg.2.2.1; omega, by have := hg.2.2.2; omega⟩⟩
    obtain ⟨t, ht⟩ := isTranslucent_some d c hwf x y (z - 1) hg'
    simp only [h, if_false, ht, Option.bind_eq_bind, Option.some_bind, some_beq_some_true]
    cases t <;> rfl

theorem addFaces_nil (tbl : CubeSides → Nat → CubeVert) (rd : RenderData) :
    addFaces tbl rd [] = rd := rfl

theorem addFaces_append (tbl : CubeSides → Nat → CubeVert) (rd : RenderData)
    (fs gs : List Face) :
    addFaces tbl rd (fs ++ gs) = addFaces tbl (addFaces tbl rd fs) gs := by
  simp [addFaces, List.foldl_append]

theorem addFaces_six (tbl : CubeSides → Nat → CubeVert) (rd : RenderData) (block : BlockType)
    (pos : Vec3) (b1 b2 b3 b4 b5 b6 : Bool) (free : CubeSides → Bool)
    (h1 : free CubeSides.eUP = b1) (h2 : free CubeSides.eDOWN = b2)
    (h3 : free CubeSides.eLEFT = b3) (h4 : free CubeSides.eRIGHT = b4)
    (h5 : free CubeSides.eFRONT = b5) (h6 : free CubeSides.eBACK = b6) :
    (let rd1 := if b1 then _addFace tbl rd block pos CubeSides.eUP else rd
     let rd2 := if b2 then _addFace tbl rd1 block pos CubeSides.eDOWN else rd1
     let rd3 := if b3 then _addFace tbl rd2 block pos CubeSides.eLEFT else rd2
     let rd4 := if b4 then _addFace tbl rd3 block pos CubeSides.eRIGHT else rd3
     let rd5 := if b5 then _addFace tbl rd4 block pos CubeSides.eFRONT else rd4
     if b6 then _addFace tbl rd5 block pos CubeSides.eBACK else rd5) =
    addFaces tbl rd
      (([CubeSides.eUP, CubeSides.eDOWN, CubeSides.eLEFT, CubeSides.eRIGHT, CubeSides.eFRONT,
        CubeSides.eBACK].filter free).map (fun side => (⟨block, pos, side⟩ : Face))) := by
  simp only [List.filter, h1, h2, h3, h4, h5, h6]
  cases b1 <;> cases b2 <;> cases b3 <;> cases b4 <;> cases b5 <;> cases b6 <;> rfl

/-- The loop body of lines 170-259 makes exactly the calls `voxelFaces`. -/
theorem meshVoxel_eq (tbl : CubeSides → Nat → CubeVert) (reg : Vec3 → Option Chunk) (d : Dims)
    (c : Chunk) (hwf : c.WellFormed d) (hreg : RegistryWellFormed d reg) (x y z : Int)
    (hg : d.inGrid x y z) (rd : RenderData) :
    meshVoxel tbl reg d c x y z rd = some (addFaces tbl rd (voxelFaces reg d c x y z)) := by
  obtain ⟨b, hb⟩ := blockAt_some d c hwf x y z hg
  have ht := isTranslucent_of_blockAt d c x y z b hb
  unfold meshVoxel voxelFaces
  have hb' : loadAt c.mBlocks (getCubeIndex d x y z) = some b := hb
  rw [hb', ht, hb]
  simp only [Option.bind_eq_bind, Option.some_bind]
  by_cases htr : b = BlockType.eAIR ∨ b = BlockType.eWATER
  · simp [htr, addFaces_nil]
  · simp only [htr, decide_False, if_false, Bool.false_eq_true]
    rw [faceUp_eq tbl reg d c hwf b x y z hg rd]
    simp only [Option.some_bind]
    rw [faceDown_eq tbl reg d c hwf b x y z hg]
    simp only [Option.some_bind]
    rw [faceLeft_eq tbl reg d c hwf hreg b x y z hg]
    simp only [Option.some_bind]
    rw [faceRight_eq tbl reg d c hwf hreg b x y z hg]
    simp only [Option.some_bind]
    rw [faceFront_eq tbl reg d c hwf hreg b x y z hg]
    simp only [Option.some_bind]
    rw [faceBack_eq tbl reg d c hwf hreg b x y z hg]
    congr 1
    exact addFaces_six tbl rd b (Vec3.ofInts x y z) _ _ _ _ _ _ (sideFree reg d c x y z)
      rfl rfl rfl rfl rfl rfl

theorem forUp_addFaces (tbl : CubeSides → Nat → CubeVert) (n : Nat)
    (body : Int → RenderData → Option RenderData) (F : Nat → List Face)
    (hbody : ∀ i : Nat, i < n → ∀ rd, body (i : Int) rd = some (addFaces tbl rd (F i)))
    (rd : RenderData) :
    forUp n body rd = some (addFaces tbl rd ((List.range n).flatMap F)) := by
  induction n with
  | zero => simp [forUp_zero, addFaces_nil]
  | succ n ih =>
    rw [forUp_succ, ih (fun i hi rd => hbody i (Nat.lt_succ_of_lt hi) rd)]
    simp only [Option.some_bind, List.range_succ, List.flatMap_append, addFaces_append]
    rw [hbody n (Nat.lt_succ_self n)]
    simp

/-- Lines 164-262 make exactly the calls `geometryFaces`. -/
theorem meshGeometry_eq (tbl : CubeSides → Nat → CubeVert) (reg : Vec3 → Option Chunk)
    (d : Dims) (c : Chunk) (hwf : c.WellFormed d) (hreg : RegistryWellFormed d reg)
    (rd : RenderData) :
    meshGeometry tbl reg d c rd = some (addFaces tbl rd (geometryFaces reg d c)) := by
  unfold meshGeometry geometryFaces
  apply forUp_addFaces
  intro z hz rd1
  apply forUp_addFaces
  intro x hx rd2
  apply forUp_addFaces
  intro y hy rd3
  exact meshVoxel_eq tbl reg d c hwf hreg x y z
    ⟨⟨by omega, by omega⟩, ⟨by omega, by omega⟩, ⟨by omega, by omega⟩⟩ rd3

theorem meshWaterColumn_eq (tbl : CubeSides → Nat → CubeVert) (d : Dims) (c : Chunk)
    (hwf : c.WellFormed d) (hH : WATER_HEIGHT < (d.CHUNK_HEIGHT : Int)) (x z : Int)
    (hf : d.inFootprint x z) (rd : RenderData) :
    meshWaterColumn tbl d c x z rd = some (addFaces tbl rd (waterColumnFaces d c x z)) := by
  have hg : d.inGrid x WATER_HEIGHT z := ⟨hf.1, ⟨by decide, hH⟩, hf.2⟩
  obtain ⟨b, hb⟩ := blockAt_some d c hwf x WATER_HEIGHT z hg
  have hb' : loadAt c.mBlocks (getCubeIndex d x WATER_HEIGHT z) = some b := hb
  unfold meshWaterColumn waterColumnFaces
  rw [hb', hb]
  simp only [Option.bind_eq_bind, Option.some_bind]
  by_cases hw : b = BlockType.eWATER
  · subst hw
    simp [addFaces]
  · simp [hw, addFaces_nil]

/-- Lines 272-285 make exactly the calls `waterFaces`. -/
theorem meshWater_eq (tbl : CubeSides → Nat → CubeVert) (d : Dims) (c : Chunk)
    (hwf : c.WellFormed d)
    (hH : ∀ x z, d.inFootprint x z → WATER_HEIGHT < (d.CHUNK_HEIGHT : Int)) (rd : RenderData) :
    meshWater tbl d c rd = some (addFaces tbl rd (waterFaces d c)) := by
  unfold meshWater waterFaces
  apply forUp_addFaces
  intro z hz rd1
  apply forUp_addFaces
  intro x hx rd2
  have hf : d.inFootprint (x : Int) (z : Int) := ⟨⟨by omega, by omega⟩, ⟨by omega, by omega⟩⟩
  exact meshWaterColumn_eq tbl d c hwf (hH x z hf) x z hf rd2

/-- The method `genVisibleGeometry` returns whenever the water layer of every column lies
inside the grid, and both passes then hold exactly the faces of the calls made, replayed
on empty render data. -/
theorem genVisibleGeometry_eq_of_columns (tbl : CubeSides → Nat → CubeVert)
    (reg : Vec3 → Option Chunk) (d : Dims) (c : Chunk) (hwf : c.WellFormed d)
    (hreg : RegistryWellFormed d reg)
    (hH : ∀ x z, d.inFootprint x z → WATER_HEIGHT < (d.CHUNK_HEIGHT : Int)) :
    genVisibleGeometry tbl reg d c =
      some { c with
        mRenderData0 := addFaces tbl ⟨[], [], 0⟩ (geometryFaces reg d c)
        mRenderData1 := addFaces tbl ⟨[], [], 0⟩ (waterFaces d c) } := by
  unfold genVisibleGeometry
  rw [meshGeometry_eq tbl reg d c hwf hreg, meshWater_eq tbl d c hwf hH]
  rfl

/-- The method `genVisibleGeometry` returns, and both passes hold exactly the faces of
the calls made, replayed on empty render data. -/
theorem genVisibleGeometry_eq (tbl : CubeSides → Nat → CubeVert) (reg : Vec3 → Option Chunk)
    (d : Dims) (c : Chunk) (hwf : c.WellFormed d) (hreg : RegistryWellFormed d reg)
    (hH : WATER_HEIGHT < (d.CHUNK_HEIGHT : Int)) :
    genVisibleGeometry tbl reg d c =
      some { c with
        mRenderData0 := addFaces tbl ⟨[], [], 0⟩ (geometryFaces reg d c)
        mRenderData1 := addFaces tbl ⟨[], [], 0⟩ (waterFaces d c) } :=
  genVisibleGeometry_eq_of_columns tbl reg d c hwf hreg (fun _ _ _ => hH)

/-! ## Sizes of the render data -/

theorem addFace_sizes (tbl : CubeSides → Nat → CubeVert) (rd : RenderData) (block : BlockType)
    (pos : Vec3) (side : CubeSides) :
    (_addFace tbl rd block pos side).mVisibleMesh.length = rd.mVisibleMesh.length + 4 ∧
      (_addFace tbl rd block pos side).mIndexData.length = rd.mIndexData.length + 6 ∧
      (_addFace tbl rd block pos side).mCurrentIndex = rd.mCurrentIndex + 4 := by
  simp [_addFace, List.range_succ]

/-- After the calls for `fs`, a pass has grown by four vertices and six indices per face,
and its counter by four per face. -/
theorem addFaces_sizes (tbl : CubeSides → Nat → CubeVert) (fs : List Face) (rd : RenderData) :
    (addFaces tbl rd fs).mVisibleMesh.length = rd.mVisibleMesh.length + 4 * fs.length ∧
      (addFaces tbl rd fs).mIndexData.length = rd.mIndexData.length + 6 * fs.length ∧
      (addFaces tbl rd fs).mCurrentIndex = rd.mCurrentIndex + 4 * fs.length := by
  induction fs generalizing rd with
  | nil => simp [addFaces]
  | cons f fs ih =>
    have h := ih (_addFace tbl rd f.block f.pos f.side)
    have h1 := addFace_sizes tbl rd f.block f.pos f.side
    simp only [addFaces, List.foldl_cons, List.length_cons] at h ⊢
    rw [h.1, h.2.1, h.2.2, h1.1, h1.2.1, h1.2.2]
    refine ⟨by ring, by ring, by ring⟩

/-! ## Counting faces -/

theorem Vec3.ofInts_inj (x y z x' y' z' : Int) (h : Vec3.ofInts x y z = Vec3.ofInts x' y' z') :
    x = x' ∧ y = y' ∧ z = z' := by
  unfold Vec3.ofInts at h
  simp only [Vec3.mk.injEq, Int.cast_inj] at h
  exact h

theorem faceCount_nil (x y z : Int) (side : CubeSides) : faceCount [] x y z side = 0 := rfl

theorem faceCount_append (fs gs : List Face) (x y z : Int) (side : CubeSides) :
    faceCount (fs ++ gs) x y z side = faceCount fs x y z side + faceCount gs x y z side := by
  simp [faceCount, List.countP_append]

/-- In a concatenation of rows of which only row `i0` can hold the face, the count is the
count in that row. -/
theorem faceCount_flatMap_range (F : Nat → List Face) (n i0 : Nat) (x y z : Int)
    (side : CubeSides) (h0 : ∀ i, i < n → i ≠ i0 → faceCount (F i) x y z side = 0) :
    faceCount ((List.range n).flatMap F) x y z side =
      if i0 < n then faceCount (F i0) x y z side else 0 := by
  induction n with
  | zero => simp [faceCount_nil]
  | succ n ih =>
    rw [List.range_succ, List.flatMap_append, faceCount_append,
      ih (fun i hi hne => h0 i (Nat.lt_succ_of_lt hi) hne)]
    simp only [List.flatMap_cons, List.flatMap_nil, List.append_nil]
    by_cases h1 : i0 < n
    · have h2 : i0 < n + 1 := by omega
      have h3 : n ≠ i0 := by omega
      rw [if_pos h1, if_pos h2, h0 n (Nat.lt_succ_self n) h3, Nat.add_zero]
    · by_cases h2 : i0 = n
      · subst h2
        simp
      · have h3 : ¬ i0 < n + 1 := by omega
        rw [if_neg h1, if_neg h3, h0 n (Nat.lt_succ_self n) (fun h => h2 h.symm)]

theorem faceCount_flatMap_range_zero (F : Nat → List Face) (n : Nat) (x y z : Int)
    (side : CubeSides) (h0 : ∀ i, i < n → faceCount (F i) x y z side = 0) :
    faceCount ((List.range n).flatMap F) x y z side = 0 := by
  induction n with
  | zero => simp [faceCount_nil]
  | succ n ih =>
    rw [List.range_succ, List.flatMap_append, faceCount_append,
      ih (fun i hi => h0 i (Nat.lt_succ_of_lt hi))]
    simp only [List.flatMap_cons, List.flatMap_nil, List.append_nil]
    rw [h0 n (Nat.lt_succ_self n)]

theorem voxelFaces_pos (reg : Vec3 → Option Chunk) (d : Dims) (c : Chunk) (x y z : Int)
    (f : Face) (hf : f ∈ voxelFaces reg d c x y z) :
    f.pos = Vec3.ofInts x y z ∧ c.blockAt d x y z = some f.block ∧
      _isTranslucent d c x y z = some false ∧ sideFree reg d c x y z f.side = true := by
  unfold voxelFaces at hf
  cases hb : c.blockAt d x y z with
  | none => simp [hb] at hf
  | some b =>
    simp only [hb] at hf
    by_cases htr : b = BlockType.eAIR ∨ b = BlockType.eWATER
    · simp [htr] at hf
    · rw [if_neg htr, List.mem_map] at hf
      obtain ⟨s, hs, rfl⟩ := hf
      refine ⟨rfl, rfl, ?_, (List.mem_filter.mp hs).2⟩
      rw [isTranslucent_of_blockAt d c x y z b hb]
      simp [htr]

theorem faceCount_voxelFaces_other (reg : Vec3 → Option Chunk) (d : Dims) (c : Chunk)
    (x y z x' y' z' : Int) (side : CubeSides) (hne : ¬ (x' = x ∧ y' = y ∧ z' = z)) :
    faceCount (voxelFaces reg d c x' y' z') x y z side = 0 := by
  unfold faceCount
  rw [List.countP_eq_zero]
  intro f hf
  have hp := (voxelFaces_pos reg d c x' y' z' f hf).1
  simp only [decide_eq_true_eq, not_and]
  intro h
  rw [hp] at h
  exact absurd (Vec3.ofInts_inj _ _ _ _ _ _ h) hne

theorem faceCount_sides (block : BlockType) (x y z : Int) (free : CubeSides → Bool)
    (side : CubeSides) :
    faceCount (([CubeSides.eUP, CubeSides.eDOWN, CubeSides.eLEFT, CubeSides.eRIGHT,
      CubeSides.eFRONT, CubeSides.eBACK].filter free).map
        (fun s => (⟨block, Vec3.ofInts x y z, s⟩ : Face))) x y z side =
      if free side = true then 1 else 0 := by
  unfold faceCount
  rw [List.countP_map, List.countP_filter]
  cases side <;>
    simp [List.countP_cons, Function.comp]

theorem faceCount_voxelFaces_self (reg : Vec3 → Option Chunk) (d : Dims) (c : Chunk)
    (x y z : Int) (side : CubeSides) :
    faceCount (voxelFaces reg d c x y z) x y z side =
      if _isTranslucent d c x y z = some false ∧ sideFree reg d c x y z side = true
      then 1 else 0 := by
  unfold voxelFaces
  cases hb : c.blockAt d x y z with
  | none =>
    have : _isTranslucent d c x y z = none := by
      unfold Chunk.blockAt at hb
      unfold _isTranslucent
      rw [hb]
      rfl
    simp [this, faceCount_nil]
  | some b =>
    have ht := isTranslucent_of_blockAt d c x y z b hb
    simp only
    by_cases htr : b = BlockType.eAIR ∨ b = BlockType.eWATER
    · rw [if_pos htr, ht]
      simp [htr, faceCount_nil]
    · rw [if_neg htr, ht, faceCount_sides]
      simp [htr]

/-- The number of faces that pass 0 receives for voxel `(x, y, z)` of the grid and
direction `side`: one when the voxel is not translucent and the test for that direction
passes, none otherwise. -/
theorem faceCount_geometry (reg : Vec3 → Option Chunk) (d : Dims) (c : Chunk) (x y z : Int)
    (hg : d.inGrid x y z) (side : CubeSides) :
    faceCount (geometryFaces reg d c) x y z side =
      if _isTranslucent d c x y z = some false ∧ sideFree reg d c x y z side = true
      then 1 else 0 := by
  obtain ⟨⟨hx0, hx1⟩, ⟨hy0, hy1⟩, hz0, hz1⟩ := hg
  have hx : ((x.toNat : Nat) : Int) = x := Int.toNat_of_nonneg hx0
  have hy : ((y.toNat : Nat) : Int) = y := Int.toNat_of_nonneg hy0
  have hz : ((z.toNat : Nat) : Int) = z := Int.toNat_of_nonneg hz0
  unfold geometryFaces
  rw [faceCount_flatMap_range _ d.CHUNK_WIDTH z.toNat, if_pos (by omega),
    faceCount_flatMap_range _ d.CHUNK_LENGTH x.toNat, if_pos (by omega),
    faceCount_flatMap_range _ d.CHUNK_HEIGHT y.toNat, if_pos (by omega), hx, hy, hz,
    faceCount_voxelFaces_self]
  · intro i _ hne
    apply faceCount_voxelFaces_other
    rw [hx, hz]
    omega
  · intro i _ hne
    apply faceCount_flatMap_range_zero
    intro j _
    apply faceCount_voxelFaces_other
    rw [hz]
    omega
  · intro i _ hne
    apply faceCount_flatMap_range_zero
    intro j _
    apply faceCount_flatMap_range_zero
    intro k _
    apply faceCount_voxelFaces_other
    omega

/-! ## Terrain claims -/

theorem genTerrain_fresh_square (noise2 : ℚ → ℚ → ℚ) (d : Dims) (pos : Vec3) (c' : Chunk)
    (hsq : d.CHUNK_LENGTH = d.CHUNK_WIDTH)
    (h : genTerrain noise2 d (Chunk.fresh d pos) = some c') (x z : Int)
    (hf : d.inFootprint x z) :
    WATER_HEIGHT < (d.CHUNK_HEIGHT : Int) ∧
      loadAt c'.mHeightMap (x + (z * (d.CHUNK_WIDTH : Int))) =
        some (columnHeight noise2 d pos x z) ∧
      (0 ≤ columnHeight noise2 d pos x z ∧
        columnHeight noise2 d pos x z < (d.CHUNK_HEIGHT : Int)) ∧
      ∀ y, 0 ≤ y → y < (d.CHUNK_HEIGHT : Int) → c'.blockAt d x y z =
        if y ≤ columnHeight noise2 d pos x z then
          some (if y = columnHeight noise2 d pos x z then BlockType.eDIRT
            else BlockType.eCOBBLESTONE)
        else if y = WATER_HEIGHT then some BlockType.eWATER
        else some BlockType.eAIR := by
  obtain ⟨hm, _, hcols⟩ := genTerrain_fresh_columns noise2 d pos c' h
  obtain ⟨hH, ht, hl, hr, hI⟩ := hcols x z hf
  have hl2 := fresh_height_read noise2 d pos hsq x z hf
  rw [hm] at hl
  simp only [Chunk.fresh, List.nil_append] at hl2
  rw [hl2] at hl
  cases hl
  refine ⟨hH, ?_, hr, hI⟩
  rw [hm]
  exact hl2

theorem genTerrain_fresh_succeeds (noise2 : ℚ → ℚ → ℚ) (d : Dims) (pos : Vec3)
    (hsq : d.CHUNK_LENGTH = d.CHUNK_WIDTH) (hH : WATER_HEIGHT < (d.CHUNK_HEIGHT : Int))
    (hcols : ∀ x z, d.inFootprint x z → 0 ≤ columnHeight noise2 d pos x z ∧
      columnHeight noise2 d pos x z < (d.CHUNK_HEIGHT : Int)) :
    ∃ c', genTerrain noise2 d (Chunk.fresh d pos) = some c' := by
  obtain ⟨c', hc, _⟩ := genTerrain_total noise2 d (Chunk.fresh d pos)
    (fun x z => columnHeight noise2 d pos x z) (Chunk.fresh_wellFormed d pos) hH
    (fun x z hf => ⟨fresh_height_read noise2 d pos hsq x z hf, hcols x z hf⟩)
  exact ⟨c', hc⟩

theorem demo_heights (x z : Int) (hf : demoDims.inFootprint x z) :
    columnHeight demoNoise demoDims origin x z = if x = 0 then 50 else 74 := by
  obtain ⟨⟨hx0, hx1⟩, hz0, hz1⟩ := hf
  simp only [demoDims] at hx1 hz1
  have hx : x = 0 ∨ x = 1 := by omega
  rcases hx with rfl | rfl
  · norm_num [columnHeight, noiseOffset, demoNoise, origin, heightFromNoise, truncToInt,
      MAX_LAND_HEIGHT_FROM_WATER_SURFACE, WATER_HEIGHT, LAND_HEIGHT_BELOW_WATER, demoDims]
  · norm_num [columnHeight, noiseOffset, demoNoise, origin, heightFromNoise, truncToInt,
      MAX_LAND_HEIGHT_FROM_WATER_SURFACE, WATER_HEIGHT, LAND_HEIGHT_BELOW_WATER, demoDims]

theorem demo_heights_inside (x z : Int) (hf : demoDims.inFootprint x z) :
    0 ≤ columnHeight demoNoise demoDims origin x z ∧
      columnHeight demoNoise demoDims origin x z < (demoDims.CHUNK_HEIGHT : Int) := by
  rw [demo_heights x z hf]
  simp only [demoDims]
  split_ifs <;> omega

/-- C1. Column invariant of `genTerrain` on a fresh chunk with a square footprint: in every
column whose computed height `h` lies in `[0, CHUNK_HEIGHT)` the voxel at `h` is dirt, the
voxels below are cobblestone, the voxels above are air except for water at `WATER_HEIGHT`
when `h < WATER_HEIGHT`, and dirt occurs exactly once; and `genTerrain` does return a chunk
when the water layer and all computed heights lie inside the grid. -/
theorem genTerrain_column_invariant (noise2 : ℚ → ℚ → ℚ) (d : Dims) (pos : Vec3)
    (hsq : d.CHUNK_LENGTH = d.CHUNK_WIDTH) :
    (∀ c', genTerrain noise2 d (Chunk.fresh d pos) = some c' →
      ∀ x z, d.inFootprint x z →
        0 ≤ columnHeight noise2 d pos x z →
        columnHeight noise2 d pos x z < (d.CHUNK_HEIGHT : Int) →
        c'.blockAt d x (columnHeight noise2 d pos x z) z = some BlockType.eDIRT ∧
        (∀ y, 0 ≤ y → y < columnHeight noise2 d pos x z →
          c'.blockAt d x y z = some BlockType.eCOBBLESTONE) ∧
        (∀ y, columnHeight noise2 d pos x z < y → y < (d.CHUNK_HEIGHT : Int) →
          c'.blockAt d x y z =
            some (if y = WATER_HEIGHT ∧ columnHeight noise2 d pos x z < WATER_HEIGHT
              then BlockType.eWATER else BlockType.eAIR)) ∧
        (∀ y, 0 ≤ y → y < (d.CHUNK_HEIGHT : Int) →
          (c'.blockAt d x y z = some BlockType.eDIRT ↔ y = columnHeight noise2 d pos x z))) ∧
    (WATER_HEIGHT < (d.CHUNK_HEIGHT : Int) →
      (∀ x z, d.inFootprint x z → 0 ≤ columnHeight noise2 d pos x z ∧
        columnHeight noise2 d pos x z < (d.CHUNK_HEIGHT : Int)) →
      ∃ c', genTerrain noise2 d (Chunk.fresh d pos) = some c') := by
  refine ⟨?_, genTerrain_fresh_succeeds noise2 d pos hsq⟩
  intro c' hc x z hf h0 h1
  obtain ⟨_, _, _, hI⟩ := genTerrain_fresh_square noise2 d pos c' hsq hc x z hf
  refine ⟨?_, ?_, ?_, ?_⟩
  · rw [hI _ h0 h1]
    simp
  · intro y hy0 hy1
    rw [hI y hy0 (by omega)]
    have h2 : y ≤ columnHeight noise2 d pos x z := by omega
    have h3 : y ≠ columnHeight noise2 d pos x z := by omega
    simp [h2, h3]
  · intro y hy0 hy1
    rw [hI y (by omega) hy1]
    have h2 : ¬ y ≤ columnHeight noise2 d pos x z := by omega
    rw [if_neg h2]
    by_cases h3 : y = WATER_HEIGHT
    · have h4 : columnHeight noise2 d pos x z < WATER_HEIGHT := by omega
      simp [h3, h4]
    · simp [h3]
  · intro y hy0 hy1
    rw [hI y hy0 hy1]
    by_cases h2 : y ≤ columnHeight noise2 d pos x z
    · by_cases h3 : y = columnHeight noise2 d pos x z
      · simp [h3]
      · simp [h2, h3]
    · have h3 : y ≠ columnHeight noise2 d pos x z := by omega
      rw [if_neg h2]
      by_cases h4 : y = WATER_HEIGHT
      · rw [if_pos h4]
        simp [h3]
      · rw [if_neg h4]
        simp [h3]

/-- Witness for C1 on the two-by-two test chunk: `genTerrain` returns a chunk whose column
`(0, 0)`, of computed height 50, has dirt at 50, cobblestone at 49, water at 60 and air
at 61. -/
theorem genTerrain_column_invariant_witness :
    ∃ c', genTerrain demoNoise demoDims (Chunk.fresh demoDims origin) = some c' ∧
      c'.blockAt demoDims 0 50 0 = some BlockType.eDIRT ∧
      c'.blockAt demoDims 0 49 0 = some BlockType.eCOBBLESTONE ∧
      c'.blockAt demoDims 0 60 0 = some BlockType.eWATER ∧
      c'.blockAt demoDims 0 61 0 = some BlockType.eAIR := by
  have key := genTerrain_column_invariant demoNoise demoDims origin rfl
  obtain ⟨c', hc⟩ := key.2 (by decide) demo_heights_inside
  have hf : demoDims.inFootprint 0 0 := by decide
  have hh : columnHeight demoNoise demoDims origin 0 0 = 50 := by
    rw [demo_heights 0 0 hf]
    rfl
  obtain ⟨h1, h2, h3, _⟩ := key.1 c' hc 0 0 hf (by rw [hh]; decide) (by rw [hh]; decide)
  rw [hh] at h1 h2 h3
  refine ⟨c', hc, h1, h2 49 (by decide) (by decide), ?_, ?_⟩
  · have := h3 60 (by decide) (by decide)
    simpa [WATER_HEIGHT] using this
  · have := h3 61 (by decide) (by decide)
    simpa [WATER_HEIGHT] using this

/-- Water fill on a fresh chunk, by the height read: with `h` the height that the land loop
reads for the column (on a square footprint: the height computed from that column's noise
sample), the
voxel at `WATER_HEIGHT` is water when `h < WATER_HEIGHT`, dirt when `h = WATER_HEIGHT` and
cobblestone when `h > WATER_HEIGHT`; and `genTerrain` does return a chunk when the water
layer and all computed heights lie inside a square grid. -/
theorem genTerrain_water_fill (noise2 : ℚ → ℚ → ℚ) (d : Dims) (pos : Vec3) :
    (∀ c', genTerrain noise2 d (Chunk.fresh d pos) = some c' →
      ∀ x z, d.inFootprint x z →
        ∃ h, loadAt c'.mHeightMap (x + (z * (d.CHUNK_WIDTH : Int))) = some h ∧
          (d.CHUNK_LENGTH = d.CHUNK_WIDTH → h = columnHeight noise2 d pos x z) ∧
          (h < WATER_HEIGHT → c'.blockAt d x WATER_HEIGHT z = some BlockType.eWATER) ∧
          (WATER_HEIGHT ≤ h → h < (d.CHUNK_HEIGHT : Int) →
            c'.blockAt d x WATER_HEIGHT z ≠ some BlockType.eWATER ∧
            c'.blockAt d x WATER_HEIGHT z =
              some (if h = WATER_HEIGHT then BlockType.eDIRT else BlockType.eCOBBLESTONE))) ∧
    (d.CHUNK_LENGTH = d.CHUNK_WIDTH → WATER_HEIGHT < (d.CHUNK_HEIGHT : Int) →
      (∀ x z, d.inFootprint x z → 0 ≤ columnHeight noise2 d pos x z ∧
        columnHeight noise2 d pos x z < (d.CHUNK_HEIGHT : Int)) →
      ∃ c', genTerrain noise2 d (Chunk.fresh d pos) = some c') := by
  refine ⟨?_, genTerrain_fresh_succeeds noise2 d pos⟩
  intro c' hc x z hf
  obtain ⟨hm, _, hcols⟩ := genTerrain_fresh_columns noise2 d pos c' hc
  obtain ⟨hH, ht, hl, hr, hI⟩ := hcols x z hf
  have hw := hI WATER_HEIGHT (by decide) hH
  refine ⟨ht, hl, ?_, ?_, ?_⟩
  · intro hsq
    have h2 := (genTerrain_fresh_square noise2 d pos c' hsq hc x z hf).2.1
    rw [hl] at h2
    exact Option.some.inj h2
  · intro hlt
    rw [hw]
    have : ¬ WATER_HEIGHT ≤ ht := by omega
    simp [this]
  · intro hge _
    rw [hw, if_pos hge]
    constructor
    · split_ifs <;> simp
    · have : (WATER_HEIGHT = ht) ↔ (ht = WATER_HEIGHT) := eq_comm
      simp only [this]

/-- Example of `genTerrain_water_fill` on the two-by-two test chunk: column `(0, 0)` (height 50) keeps its
water, column `(1, 0)` (height 74) has cobblestone at `WATER_HEIGHT`. -/
theorem genTerrain_water_fill_witness :
    ∃ c', genTerrain demoNoise demoDims (Chunk.fresh demoDims origin) = some c' ∧
      c'.blockAt demoDims 0 WATER_HEIGHT 0 = some BlockType.eWATER ∧
      c'.blockAt demoDims 1 WATER_HEIGHT 0 = some BlockType.eCOBBLESTONE := by
  have key := genTerrain_water_fill demoNoise demoDims origin
  obtain ⟨c', hc⟩ := key.2 rfl (by decide) demo_heights_inside
  have hf0 : demoDims.inFootprint 0 0 := by decide
  have hf1 : demoDims.inFootprint 1 0 := by decide
  obtain ⟨h0, _, e0, w0, _⟩ := key.1 c' hc 0 0 hf0
  obtain ⟨h1, _, e1, _, l1⟩ := key.1 c' hc 1 0 hf1
  have e0' := e0 rfl
  have e1' := e1 rfl
  rw [demo_heights 0 0 hf0] at e0'
  rw [demo_heights 1 0 hf1] at e1'
  simp only [if_true] at e0'
  norm_num at e1'
  subst e0' e1'
  refine ⟨c', hc, w0 (by decide), ?_⟩
  have := (l1 (by decide) (by decide)).2
  simpa [WATER_HEIGHT] using this

/-! ## Meshing claims -/

theorem sideFree_interior (reg : Vec3 → Option Chunk) (d : Dims) (c : Chunk) (x y z : Int)
    (side : CubeSides) (hg : d.inGrid x y z)
    (hn : d.inGrid (neighbour x y z side).1 (neighbour x y z side).2.1
      (neighbour x y z side).2.2) :
    sideFree reg d c x y z side =
      (_isTranslucent d c (neighbour x y z side).1 (neighbour x y z side).2.1
        (neighbour x y z side).2.2 == some true) := by
  obtain ⟨⟨hx0, hx1⟩, ⟨hy0, hy1⟩, hz0, hz1⟩ := hg
  obtain ⟨⟨nx0, nx1⟩, ⟨ny0, ny1⟩, nz0, nz1⟩ := hn
  cases side <;> simp only [neighbour] at nx0 nx1 ny0 ny1 nz0 nz1 ⊢ <;> unfold sideFree
  · have : ¬ (y + 1 = (d.CHUNK_HEIGHT : Int)) := by omega
    simp [this]
  · have : ¬ (y - 1 = -1) := by omega
    simp [this]
  · have : ¬ (x - 1 = -1) := by omega
    simp [this]
  · have : ¬ (x + 1 = (d.CHUNK_LENGTH : Int)) := by omega
    simp [this]
  · have : ¬ (z + 1 = (d.CHUNK_WIDTH : Int)) := by omega
    simp [this]
  · have : ¬ (z - 1 = -1) := by omega
    simp [this]

theorem isTranslucent_true_iff (d : Dims) (c : Chunk) (x y z : Int) :
    _isTranslucent d c x y z = some true ↔
      (c.blockAt d x y z = some BlockType.eAIR ∨ c.blockAt d x y z = some BlockType.eWATER) := by
  cases hb : c.blockAt d x y z with
  | none =>
    have : _isTranslucent d c x y z = none := by
      unfold Chunk.blockAt at hb
      unfold _isTranslucent
      rw [hb]
      rfl
    simp [this]
  | some b =>
    rw [isTranslucent_of_blockAt d c x y z b hb]
    simp

/-- C3. Interior culling is exact: `genVisibleGeometry` returns, pass 0 holds the faces
`geometryFaces`, and for a voxel and a direction whose neighbour lies inside the chunk
pass 0 holds exactly one face when the voxel is not translucent and the neighbour is
translucent, and none otherwise; a translucent voxel has no face in any direction;
translucent means air or water. -/
theorem genVisibleGeometry_interior_culling (tbl : CubeSides → Nat → CubeVert)
    (reg : Vec3 → Option Chunk) (d : Dims) (c : Chunk) (hwf : c.WellFormed d)
    (hreg : RegistryWellFormed d reg) (hH : WATER_HEIGHT < (d.CHUNK_HEIGHT : Int)) :
    ∃ c', genVisibleGeometry tbl reg d c = some c' ∧
      c'.mRenderData0 = addFaces tbl ⟨[], [], 0⟩ (geometryFaces reg d c) ∧
      (∀ x y z side, d.inGrid x y z →
        d.inGrid (neighbour x y z side).1 (neighbour x y z side).2.1
          (neighbour x y z side).2.2 →
        faceCount (geometryFaces reg d c) x y z side =
          if _isTranslucent d c x y z = some false ∧
              _isTranslucent d c (neighbour x y z side).1 (neighbour x y z side).2.1
                (neighbour x y z side).2.2 = some true
          then 1 else 0) ∧
      (∀ x y z side, d.inGrid x y z → _isTranslucent d c x y z = some true →
        faceCount (geometryFaces reg d c) x y z side = 0) ∧
      (∀ x y z, _isTranslucent d c x y z = some true ↔
        (c.blockAt d x y z = some BlockType.eAIR ∨
          c.blockAt d x y z = some BlockType.eWATER)) := by
  refine ⟨_, genVisibleGeometry_eq tbl reg d c hwf hreg hH, rfl, ?_, ?_,
    isTranslucent_true_iff d c⟩
  · intro x y z side hg hn
    rw [faceCount_geometry reg d c x y z hg side, sideFree_interior reg d c x y z side hg hn]
    simp only [beq_iff_eq]
  · intro x y z side hg ht
    rw [faceCount_geometry reg d c x y z hg side, ht]
    simp

/-- Witness for C3 on the half-filled tower with an empty registry: the top cobblestone voxel
`(0, 29, 0)` has one UP face toward the air above it, the cobblestone voxel `(0, 5, 0)`
has no UP face toward its cobblestone neighbour, and the air voxel `(0, 40, 0)` has no
DOWN face. -/
theorem genVisibleGeometry_interior_culling_witness :
    ∃ c', genVisibleGeometry unitCubeTable emptyRegistry towerDims halfTower = some c' ∧
      faceCount (geometryFaces emptyRegistry towerDims halfTower) 0 29 0 CubeSides.eUP = 1 ∧
      faceCount (geometryFaces emptyRegistry towerDims halfTower) 0 5 0 CubeSides.eUP = 0 ∧
      faceCount (geometryFaces emptyRegistry towerDims halfTower) 0 40 0 CubeSides.eDOWN = 0 := by
  obtain ⟨c', h1, _, h3, h4, _⟩ := genVisibleGeometry_interior_culling unitCubeTable
    emptyRegistry towerDims halfTower (by decide)
    (fun p ch h => by simp [emptyRegistry] at h) (by decide)
  refine ⟨c', h1, ?_, ?_, h4 0 40 0 CubeSides.eDOWN (by decide) (by decide!)⟩
  · rw [h3 0 29 0 CubeSides.eUP (by decide) (by decide)]
    decide!
  · rw [h3 0 5 0 CubeSides.eUP (by decide) (by decide)]
    decide!

/-- C4. Horizontal boundary rule: for a voxel on a chunk edge that is not translucent, the
face that crosses the edge is in pass 0 exactly when the registry returns a chunk at the
position one chunk length (width) further in that direction and the mirrored boundary
voxel of that chunk is translucent; without a neighbour chunk there is no face. -/
theorem genVisibleGeometry_boundary_rule (tbl : CubeSides → Nat → CubeVert)
    (reg : Vec3 → Option Chunk) (d : Dims) (c : Chunk) (hwf : c.WellFormed d)
    (hreg : RegistryWellFormed d reg) (hH : WATER_HEIGHT < (d.CHUNK_HEIGHT : Int)) :
    ∃ c', genVisibleGeometry tbl reg d c = some c' ∧
      c'.mRenderData0 = addFaces tbl ⟨[], [], 0⟩ (geometryFaces reg d c) ∧
      (∀ y z, d.inGrid 0 y z → _isTranslucent d c 0 y z = some false →
        faceCount (geometryFaces reg d c) 0 y z CubeSides.eLEFT =
          match reg (c.mPosition.sub ⟨(d.CHUNK_LENGTH : ℚ), 0, 0⟩) with
          | some chunk =>
            if _isTranslucent d chunk ((d.CHUNK_LENGTH : Int) - 1) y z = some true then 1 else 0
          | none => 0) ∧
      (∀ y z, d.inGrid ((d.CHUNK_LENGTH : Int) - 1) y z →
        _isTranslucent d c ((d.CHUNK_LENGTH : Int) - 1) y z = some false →
        faceCount (geometryFaces reg d c) ((d.CHUNK_LENGTH : Int) - 1) y z CubeSides.eRIGHT =
          match reg (c.mPosition.add ⟨(d.CHUNK_LENGTH : ℚ), 0, 0⟩) with
          | some chunk => if _isTranslucent d chunk 0 y z = some true then 1 else 0
          | none => 0) ∧
      (∀ x y, d.inGrid x y ((d.CHUNK_WIDTH : Int) - 1) →
        _isTranslucent d c x y ((d.CHUNK_WIDTH : Int) - 1) = some false →
        faceCount (geometryFaces reg d c) x y ((d.CHUNK_WIDTH : Int) - 1) CubeSides.eFRONT =
          match reg (c.mPosition.add ⟨0, 0, (d.CHUNK_WIDTH : ℚ)⟩) with
          | some chunk => if _isTranslucent d chunk x y 0 = some true then 1 else 0
          | none => 0) ∧
      (∀ x y, d.inGrid x y 0 → _isTranslucent d c x y 0 = some false →
        faceCount (geometryFaces reg d c) x y 0 CubeSides.eBACK =
          match reg (c.mPosition.sub ⟨0, 0, (d.CHUNK_WIDTH : ℚ)⟩) with
          | some chunk =>
            if _isTranslucent d chunk x y ((d.CHUNK_WIDTH : Int) - 1) = some true then 1 else 0
          | none => 0) := by
  refine ⟨_, genVisibleGeometry_eq tbl reg d c hwf hreg hH, rfl, ?_, ?_, ?_, ?_⟩
  · intro y z hg ht
    rw [faceCount_geometry reg d c 0 y z hg, ht]
    unfold sideFree
    cases reg (c.mPosition.sub ⟨(d.CHUNK_LENGTH : ℚ), 0, 0⟩) <;> simp
  · intro y z hg ht
    rw [faceCount_geometry reg d c _ y z hg, ht]
    unfold sideFree
    cases reg (c.mPosition.add ⟨(d.CHUNK_LENGTH : ℚ), 0, 0⟩) <;> simp
  · intro x y hg ht
    rw [faceCount_geometry reg d c x y _ hg, ht]
    unfold sideFree
    cases reg (c.mPosition.add ⟨0, 0, (d.CHUNK_WIDTH : ℚ)⟩) <;> simp
  · intro x y hg ht
    rw [faceCount_geometry reg d c x y 0 hg, ht]
    unfold sideFree
    cases reg (c.mPosition.sub ⟨0, 0, (d.CHUNK_WIDTH : ℚ)⟩) <;> simp

theorem pairRegistry_wellFormed : RegistryWellFormed towerDims pairRegistry := by
  intro p ch h
  unfold pairRegistry at h
  split_ifs at h <;> cases h <;> decide

/-- Witness for C4: the cobblestone tower right of the all-air tower has its LEFT face at
the edge voxel `(0, 5, 0)` when the registry holds the air tower, and the cobblestone
tower at the origin has none when the registry is empty. -/
theorem genVisibleGeometry_boundary_rule_witness :
    (∃ c', genVisibleGeometry unitCubeTable pairRegistry towerDims rightTower = some c' ∧
      faceCount (geometryFaces pairRegistry towerDims rightTower) 0 5 0 CubeSides.eLEFT = 1) ∧
    (∃ c', genVisibleGeometry unitCubeTable emptyRegistry towerDims solidTower = some c' ∧
      faceCount (geometryFaces emptyRegistry towerDims solidTower) 0 0 0 CubeSides.eLEFT = 0) := by
  constructor
  · obtain ⟨c', h1, _, h3, _⟩ := genVisibleGeometry_boundary_rule unitCubeTable pairRegistry
      towerDims rightTower (by decide) pairRegistry_wellFormed (by decide)
    refine ⟨c', h1, ?_⟩
    rw [h3 5 0 (by decide) (by decide!)]
    decide!
  · obtain ⟨c', h1, _, h3, _⟩ := genVisibleGeometry_boundary_rule unitCubeTable emptyRegistry
      towerDims solidTower (by decide) (fun p ch h => by simp [emptyRegistry] at h) (by decide)
    exact ⟨c', h1, h3 0 0 (by decide) (by decide!)⟩

/-- C2, counterexample. The cobblestone tower with an empty registry: voxel `(0, 0, 0)` is not
translucent and its left neighbour falls outside the chunk, yet pass 0 holds only the
DOWN face of the bottom voxel and the UP face of the top voxel, and no LEFT face. -/
theorem face_rule_counterexample :
    genVisibleGeometry unitCubeTable emptyRegistry towerDims solidTower =
      some { solidTower with
        mRenderData0 := addFaces unitCubeTable ⟨[], [], 0⟩
          [⟨BlockType.eCOBBLESTONE, Vec3.ofInts 0 0 0, CubeSides.eDOWN⟩,
           ⟨BlockType.eCOBBLESTONE, Vec3.ofInts 0 60 0, CubeSides.eUP⟩]
        mRenderData1 := ⟨[], [], 0⟩ } ∧
    geometryFaces emptyRegistry towerDims solidTower =
      [⟨BlockType.eCOBBLESTONE, Vec3.ofInts 0 0 0, CubeSides.eDOWN⟩,
       ⟨BlockType.eCOBBLESTONE, Vec3.ofInts 0 60 0, CubeSides.eUP⟩] ∧
    _isTranslucent towerDims solidTower 0 0 0 = some false ∧
    ¬ towerDims.inGrid (neighbour 0 0 0 CubeSides.eLEFT).1 (neighbour 0 0 0 CubeSides.eLEFT).2.1
      (neighbour 0 0 0 CubeSides.eLEFT).2.2 ∧
    faceCount (geometryFaces emptyRegistry towerDims solidTower) 0 0 0 CubeSides.eLEFT = 0 := by
  decide!

/-- C2, amended. Face rule of pass 0: `genVisibleGeometry` returns, pass 0 holds the faces
`geometryFaces`, and for a voxel that is not translucent pass 0 holds the face of a
direction if the neighbour in that direction lies inside the chunk and is translucent, or
if the direction is up or down and the neighbour falls outside the chunk. -/
theorem genVisibleGeometry_face_rule (tbl : CubeSides → Nat → CubeVert)
    (reg : Vec3 → Option Chunk) (d : Dims) (c : Chunk) (hwf : c.WellFormed d)
    (hreg : RegistryWellFormed d reg) (hH : WATER_HEIGHT < (d.CHUNK_HEIGHT : Int)) :
    ∃ c', genVisibleGeometry tbl reg d c = some c' ∧
      c'.mRenderData0 = addFaces tbl ⟨[], [], 0⟩ (geometryFaces reg d c) ∧
      ∀ x y z side, d.inGrid x y z → _isTranslucent d c x y z = some false →
        ((d.inGrid (neighbour x y z side).1 (neighbour x y z side).2.1
            (neighbour x y z side).2.2 ∧
          _isTranslucent d c (neighbour x y z side).1 (neighbour x y z side).2.1
            (neighbour x y z side).2.2 = some true) ∨
         ((side = CubeSides.eUP ∨ side = CubeSides.eDOWN) ∧
          ¬ d.inGrid (neighbour x y z side).1 (neighbour x y z side).2.1
            (neighbour x y z side).2.2)) →
        faceCount (geometryFaces reg d c) x y z side = 1 := by
  refine ⟨_, genVisibleGeometry_eq tbl reg d c hwf hreg hH, rfl, ?_⟩
  intro x y z side hg ht hcase
  rw [faceCount_geometry reg d c x y z hg side, ht]
  rcases hcase with ⟨hn, hnt⟩ | ⟨hside, hout⟩
  · rw [sideFree_interior reg d c x y z side hg hn, hnt]
    simp
  · have hfree : sideFree reg d c x y z side = true := by
      obtain ⟨hx, ⟨hy0, hy1⟩, hz⟩ := hg
      rcases hside with rfl | rfl
      · have : y + 1 = (d.CHUNK_HEIGHT : Int) := by
          by_contra hne
          apply hout
          simp only [neighbour]
          exact ⟨hx, ⟨by omega, by omega⟩, hz⟩
        simp [sideFree, this]
      · have : y - 1 = -1 := by
          by_contra hne
          apply hout
          simp only [neighbour]
          exact ⟨hx, ⟨by omega, by omega⟩, hz⟩
        simp [sideFree, this]
    simp [hfree]

/-- Witness for C2 (amended): the top voxel of the cobblestone tower has its UP face. -/
theorem genVisibleGeometry_face_rule_witness :
    ∃ c', genVisibleGeometry unitCubeTable emptyRegistry towerDims solidTower = some c' ∧
      faceCount (geometryFaces emptyRegistry towerDims solidTower) 0 60 0 CubeSides.eUP = 1 := by
  obtain ⟨c', h1, _, h3⟩ := genVisibleGeometry_face_rule unitCubeTable emptyRegistry
    towerDims solidTower (by decide) (fun p ch h => by simp [emptyRegistry] at h) (by decide)
  exact ⟨c', h1, h3 0 60 0 CubeSides.eUP (by decide) (by decide!)
    (Or.inr ⟨Or.inl rfl, by decide⟩)⟩

theorem isTranslucent_congr (d : Dims) (c c' : Chunk) (h : c'.mBlocks = c.mBlocks)
    (x y z : Int) : _isTranslucent d c' x y z = _isTranslucent d c x y z := by
  unfold _isTranslucent
  rw [h]

theorem Vec3.add_sub_cancel (p q : Vec3) : (p.add q).sub q = p := by
  cases p
  cases q
  simp [Vec3.add, Vec3.sub]

theorem inGrid_of_isTranslucent (d : Dims) (c : Chunk) (hwf : c.WellFormed d) (y z : Int)
    (t : Bool) (hy0 : 0 ≤ y) (hy : y < (d.CHUNK_HEIGHT : Int)) (hz0 : 0 ≤ z)
    (hz : z < (d.CHUNK_WIDTH : Int)) (x : Int) (hx : x = 0 ∨ x = (d.CHUNK_LENGTH : Int) - 1)
    (h : _isTranslucent d c x y z = some t) : d.inGrid x y z := by
  have hL : 0 < d.CHUNK_LENGTH := by
    rcases Nat.eq_zero_or_pos d.CHUNK_LENGTH with h0 | hpos
    · exfalso
      have hlen : c.mBlocks.length = 0 := by
        rw [hwf, h0]
        simp
      have hnil : c.mBlocks = [] := List.length_eq_zero.mp hlen
      unfold _isTranslucent loadAt at h
      rw [hnil] at h
      split_ifs at h <;> simp at h
    · exact hpos
  rcases hx with rfl | rfl
  · exact ⟨⟨le_refl 0, by omega⟩, ⟨hy0, hy⟩, hz0, hz⟩
  · exact ⟨⟨by omega, by omega⟩, ⟨hy0, hy⟩, hz0, hz⟩

/-- C5. Cross-boundary symmetry: chunk `A` sits one chunk length to the right of chunk `B`,
the registry hands out `B` (its blocks) when `A` is meshed and `A` when `B` is meshed.
Both calls of `genVisibleGeometry` return, and where exactly one of `A`'s voxel `(0, y, z)`
and `B`'s voxel `(CHUNK_LENGTH - 1, y, z)` is not translucent and the other is air, the
two pass-0 face lists together hold exactly one face at the shared boundary cell, in the
chunk of the solid voxel. -/
theorem cross_boundary_symmetry (tbl : CubeSides → Nat → CubeVert)
    (regA regB : Vec3 → Option Chunk) (d : Dims) (A B Av Bv : Chunk)
    (hA : A.WellFormed d) (hB : B.WellFormed d)
    (hregA : RegistryWellFormed d regA) (hregB : RegistryWellFormed d regB)
    (hH : WATER_HEIGHT < (d.CHUNK_HEIGHT : Int))
    (hpos : A.mPosition = B.mPosition.add ⟨(d.CHUNK_LENGTH : ℚ), 0, 0⟩)
    (hlookB : regA B.mPosition = some Bv) (hBv : Bv.mBlocks = B.mBlocks)
    (hlookA : regB A.mPosition = some Av) (hAv : Av.mBlocks = A.mBlocks) :
    ∃ A' B', genVisibleGeometry tbl regA d A = some A' ∧
      genVisibleGeometry tbl regB d B = some B' ∧
      A'.mRenderData0 = addFaces tbl ⟨[], [], 0⟩ (geometryFaces regA d A) ∧
      B'.mRenderData0 = addFaces tbl ⟨[], [], 0⟩ (geometryFaces regB d B) ∧
      ∀ y z, 0 ≤ y → y < (d.CHUNK_HEIGHT : Int) → 0 ≤ z → z < (d.CHUNK_WIDTH : Int) →
        ((_isTranslucent d A 0 y z = some false ∧
            B.blockAt d ((d.CHUNK_LENGTH : Int) - 1) y z = some BlockType.eAIR) →
          faceCount (geometryFaces regA d A) 0 y z CubeSides.eLEFT = 1 ∧
          faceCount (geometryFaces regB d B) ((d.CHUNK_LENGTH : Int) - 1) y z
            CubeSides.eRIGHT = 0) ∧
        ((_isTranslucent d B ((d.CHUNK_LENGTH : Int) - 1) y z = some false ∧
            A.blockAt d 0 y z = some BlockType.eAIR) →
          faceCount (geometryFaces regA d A) 0 y z CubeSides.eLEFT = 0 ∧
          faceCount (geometryFaces regB d B) ((d.CHUNK_LENGTH : Int) - 1) y z
            CubeSides.eRIGHT = 1) := by
  refine ⟨_, _, genVisibleGeometry_eq tbl regA d A hA hregA hH,
    genVisibleGeometry_eq tbl regB d B hB hregB hH, rfl, rfl, ?_⟩
  have hleft : regA (A.mPosition.sub ⟨(d.CHUNK_LENGTH : ℚ), 0, 0⟩) = some Bv := by
    rw [hpos, Vec3.add_sub_cancel]
    exact hlookB
  have hright : regB (B.mPosition.add ⟨(d.CHUNK_LENGTH : ℚ), 0, 0⟩) = some Av := by
    rw [← hpos]
    exact hlookA
  intro y z hy0 hy hz0 hz
  constructor
  · rintro ⟨hAs, hBair⟩
    have hBt : _isTranslucent d B ((d.CHUNK_LENGTH : Int) - 1) y z = some true :=
      (isTranslucent_true_iff d B _ y z).mpr (Or.inl hBair)
    have hgA := inGrid_of_isTranslucent d A hA y z false hy0 hy hz0 hz 0 (Or.inl rfl) hAs
    have hgB := inGrid_of_isTranslucent d B hB y z true hy0 hy hz0 hz _ (Or.inr rfl) hBt
    rw [faceCount_geometry regA d A 0 y z hgA, faceCount_geometry regB d B _ y z hgB, hAs, hBt]
    constructor
    · have : sideFree regA d A 0 y z CubeSides.eLEFT = true := by
        simp [sideFree, hleft, isTranslucent_congr d B Bv hBv, hBt]
      simp [this]
    · simp
  · rintro ⟨hBs, hAair⟩
    have hAt : _isTranslucent d A 0 y z = some true :=
      (isTranslucent_true_iff d A 0 y z).mpr (Or.inl hAair)
    have hgA := inGrid_of_isTranslucent d A hA y z true hy0 hy hz0 hz 0 (Or.inl rfl) hAt
    have hgB := inGrid_of_isTranslucent d B hB y z false hy0 hy hz0 hz _ (Or.inr rfl) hBs
    rw [faceCount_geometry regA d A 0 y z hgA, faceCount_geometry regB d B _ y z hgB, hAt, hBs]
    constructor
    · simp
    · have : sideFree regB d B ((d.CHUNK_LENGTH : Int) - 1) y z CubeSides.eRIGHT = true := by
        simp [sideFree, hright, isTranslucent_congr d A Av hAv, hAt]
      simp [this]

/-- C7. Index/vertex consistency: for every grid, registry and prior render data,
`genVisibleGeometry` returns, each pass holds the faces emitted into it, and with `F` the
number of those faces the pass has `4 * F` vertices, `6 * F` indices and counter `4 * F`;
so the index count is six times a quarter of the vertex count, a multiple of four. -/
theorem index_vertex_consistency (tbl : CubeSides → Nat → CubeVert)
    (reg : Vec3 → Option Chunk) (d : Dims) (c : Chunk) (hwf : c.WellFormed d)
    (hreg : RegistryWellFormed d reg) (hH : WATER_HEIGHT < (d.CHUNK_HEIGHT : Int)) :
    ∃ c', genVisibleGeometry tbl reg d c = some c' ∧
      c'.mRenderData0 = addFaces tbl ⟨[], [], 0⟩ (geometryFaces reg d c) ∧
      c'.mRenderData1 = addFaces tbl ⟨[], [], 0⟩ (waterFaces d c) ∧
      (c'.mRenderData0.mVisibleMesh.length = 4 * (geometryFaces reg d c).length ∧
        c'.mRenderData0.mIndexData.length = 6 * (geometryFaces reg d c).length ∧
        c'.mRenderData0.mCurrentIndex = 4 * (geometryFaces reg d c).length) ∧
      (c'.mRenderData1.mVisibleMesh.length = 4 * (waterFaces d c).length ∧
        c'.mRenderData1.mIndexData.length = 6 * (waterFaces d c).length ∧
        c'.mRenderData1.mCurrentIndex = 4 * (waterFaces d c).length) ∧
      (c'.mRenderData0.mIndexData.length = 6 * (c'.mRenderData0.mVisibleMesh.length / 4) ∧
        4 ∣ c'.mRenderData0.mVisibleMesh.length) ∧
      (c'.mRenderData1.mIndexData.length = 6 * (c'.mRenderData1.mVisibleMesh.length / 4) ∧
        4 ∣ c'.mRenderData1.mVisibleMesh.length) := by
  have h0 := addFaces_sizes tbl (geometryFaces reg d c) ⟨[], [], 0⟩
  have h1 := addFaces_sizes tbl (waterFaces d c) ⟨[], [], 0⟩
  simp only [List.length_nil, Nat.zero_add] at h0 h1
  refine ⟨_, genVisibleGeometry_eq tbl reg d c hwf hreg hH, rfl, rfl, h0, h1, ?_, ?_⟩
  · simp only
    rw [h0.1, h0.2.1]
    exact ⟨by rw [Nat.mul_div_cancel_left _ (by decide : 0 < 4)], Dvd.intro _ rfl⟩
  · simp only
    rw [h1.1, h1.2.1]
    exact ⟨by rw [Nat.mul_div_cancel_left _ (by decide : 0 < 4)], Dvd.intro _ rfl⟩

/-- Witness for C7: the cobblestone tower with stale render data and an empty registry. -/
theorem index_vertex_consistency_witness :
    ∃ c', genVisibleGeometry unitCubeTable emptyRegistry towerDims
        { solidTower with mRenderData0 := ⟨[], [7, 7], 12⟩ } = some c' ∧
      c'.mRenderData0.mVisibleMesh.length = 8 ∧ c'.mRenderData0.mIndexData.length = 12 ∧
      c'.mRenderData0.mCurrentIndex = 8 := by
  obtain ⟨c', h1, _, _, h4, _⟩ := index_vertex_consistency unitCubeTable emptyRegistry
    towerDims { solidTower with mRenderData0 := ⟨[], [7, 7], 12⟩ } (by decide)
    (fun p ch h => by simp [emptyRegistry] at h) (by decide)
  have hlen : (geometryFaces emptyRegistry towerDims
      { solidTower with mRenderData0 := ⟨[], [7, 7], 12⟩ }).length = 2 := by decide!
  rw [hlen] at h4
  exact ⟨c', h1, h4⟩

/-- Witness for C5: the cobblestone tower right of the all-air tower has one LEFT face at
`(0, 5, 0)`; the air tower has no RIGHT face there. -/
theorem cross_boundary_symmetry_witness :
    faceCount (geometryFaces pairRegistry towerDims rightTower) 0 5 0 CubeSides.eLEFT = 1 ∧
      faceCount (geometryFaces pairRegistry towerDims airTower) 0 5 0 CubeSides.eRIGHT = 0 := by
  obtain ⟨_, _, _, _, _, _, h⟩ := cross_boundary_symmetry unitCubeTable pairRegistry pairRegistry
    towerDims rightTower airTower rightTower airTower (by decide) (by decide)
    pairRegistry_wellFormed pairRegistry_wellFormed
    (by decide) (by decide!) (by decide!) rfl (by decide!) rfl
  exact (h 5 0 (by decide) (by decide) (by decide) (by decide)).1 ⟨by decide!, by decide!⟩

/-! ## The solid chunk without neighbours -/

theorem sum_map_indicator (n k : Nat) :
    ((List.range n).map (fun i => if i = k then 1 else 0)).sum = if k < n then 1 else 0 := by
  induction n with
  | zero => simp
  | succ n ih =>
    rw [List.sum_range_succ, ih]
    by_cases h1 : k < n
    · have h2 : n ≠ k := by omega
      have h3 : k < n + 1 := by omega
      simp [h1, h2, h3]
    · by_cases h2 : n = k
      · subst h2
        simp
      · have h3 : ¬ k < n + 1 := by omega
        simp [h1, h2, h3]

theorem sum_map_const_of (n k : Nat) (f : Nat → Nat) (h : ∀ i, i < n → f i = k) :
    ((List.range n).map f).sum = n * k := by
  induction n with
  | zero => simp
  | succ n ih =>
    rw [List.sum_range_succ, ih (fun i hi => h i (Nat.lt_succ_of_lt hi)), h n (Nat.lt_succ_self n)]
    ring

theorem le_sum_map_of (n k : Nat) (f : Nat → Nat) (h : ∀ i, i < n → k ≤ f i) :
    n * k ≤ ((List.range n).map f).sum := by
  induction n with
  | zero => simp
  | succ n ih =>
    rw [List.sum_range_succ]
    have h1 := ih (fun i hi => h i (Nat.lt_succ_of_lt hi))
    have h2 := h n (Nat.lt_succ_self n)
    have h3 : (n + 1) * k = n * k + k := by ring
    omega

theorem exposedCount_ge (d : Dims) (hH : 0 < d.CHUNK_HEIGHT) :
    d.CHUNK_LENGTH * d.CHUNK_WIDTH ≤ d.exposedCount := by
  unfold Dims.exposedCount
  rw [List.length_flatMap]
  have h1 : d.CHUNK_WIDTH * d.CHUNK_LENGTH ≤ ((List.range d.CHUNK_WIDTH).map
      (List.length ∘ fun (z : Nat) => (List.range d.CHUNK_LENGTH).flatMap (fun (x : Nat) =>
        (List.range d.CHUNK_HEIGHT).filter (fun (y : Nat) =>
          decide (d.onShell (x : Int) (y : Int) (z : Int)))))).sum := by
    apply le_sum_map_of
    intro z _
    simp only [Function.comp]
    rw [List.length_flatMap]
    have h2 := le_sum_map_of d.CHUNK_LENGTH 1 (List.length ∘ fun (x : Nat) =>
        (List.range d.CHUNK_HEIGHT).filter (fun (y : Nat) =>
          decide (d.onShell (x : Int) (y : Int) (z : Int)))) ?_
    · simpa using h2
    · intro x _
      simp only [Function.comp]
      apply List.length_pos_of_mem (a := 0)
      rw [List.mem_filter]
      refine ⟨List.mem_range.mpr hH, ?_⟩
      simp [Dims.onShell]
  rw [Nat.mul_comm]
  exact h1

theorem solid_sideFree (reg : Vec3 → Option Chunk) (d : Dims) (c : Chunk) (b : BlockType)
    (hb1 : b ≠ BlockType.eAIR) (hb2 : b ≠ BlockType.eWATER)
    (hsolid : ∀ x y z, d.inGrid x y z → c.blockAt d x y z = some b)
    (hL : reg (c.mPosition.sub ⟨(d.CHUNK_LENGTH : ℚ), 0, 0⟩) = none)
    (hR : reg (c.mPosition.add ⟨(d.CHUNK_LENGTH : ℚ), 0, 0⟩) = none)
    (hF : reg (c.mPosition.add ⟨0, 0, (d.CHUNK_WIDTH : ℚ)⟩) = none)
    (hB : reg (c.mPosition.sub ⟨0, 0, (d.CHUNK_WIDTH : ℚ)⟩) = none)
    (x y z : Int) (hg : d.inGrid x y z) (side : CubeSides) :
    sideFree reg d c x y z side =
      match side with
      | CubeSides.eUP => decide (y + 1 = (d.CHUNK_HEIGHT : Int))
      | CubeSides.eDOWN => decide (y - 1 = -1)
      | _ => false := by
  have hsol : ∀ x' y' z', d.inGrid x' y' z' → _isTranslucent d c x' y' z' = some false := by
    intro x' y' z' hg'
    rw [isTranslucent_of_blockAt d c x' y' z' b (hsolid x' y' z' hg')]
    simp [hb1, hb2]
  obtain ⟨⟨hx0, hx1⟩, ⟨hy0, hy1⟩, hz0, hz1⟩ := hg
  cases side <;> unfold sideFree <;> simp only
  · by_cases h : y + 1 = (d.CHUNK_HEIGHT : Int)
    · simp [h]
    · rw [hsol x (y + 1) z ⟨⟨hx0, hx1⟩, ⟨by omega, by omega⟩, hz0, hz1⟩]
      simp [h]
  · by_cases h : y - 1 = -1
    · simp [h]
    · rw [hsol x (y - 1) z ⟨⟨hx0, hx1⟩, ⟨by omega, by omega⟩, hz0, hz1⟩]
      simp [h]
  · by_cases h : x - 1 = -1
    · simp [h, hL]
    · rw [hsol (x - 1) y z ⟨⟨by omega, by omega⟩, ⟨hy0, hy1⟩, hz0, hz1⟩]
      simp [h]
  · by_cases h : x + 1 = (d.CHUNK_LENGTH : Int)
    · simp [h, hR]
    · rw [hsol (x + 1) y z ⟨⟨by omega, by omega⟩, ⟨hy0, hy1⟩, hz0, hz1⟩]
      simp [h]
  · by_cases h : z + 1 = (d.CHUNK_WIDTH : Int)
    · simp [h, hF]
    · rw [hsol x y (z + 1) ⟨⟨hx0, hx1⟩, ⟨hy0, hy1⟩, by omega, by omega⟩]
      simp [h]
  · by_cases h : z - 1 = -1
    · simp [h, hB]
    · rw [hsol x y (z - 1) ⟨⟨hx0, hx1⟩, ⟨hy0, hy1⟩, by omega, by omega⟩]
      simp [h]

theorem mem_geometryFaces (reg : Vec3 → Option Chunk) (d : Dims) (c : Chunk) (f : Face)
    (hf : f ∈ geometryFaces reg d c) :
    ∃ x y z, d.inGrid x y z ∧ f ∈ voxelFaces reg d c x y z := by
  unfold geometryFaces at hf
  simp only [List.mem_flatMap, List.mem_range] at hf
  obtain ⟨z, hz, x, hx, y, hy, hmem⟩ := hf
  exact ⟨x, y, z, ⟨⟨by omega, by omega⟩, ⟨by omega, by omega⟩, ⟨by omega, by omega⟩⟩, hmem⟩

theorem geometryFaces_length (reg : Vec3 → Option Chunk) (d : Dims) (c : Chunk) (k : Nat)
    (hk : ∀ x z : Nat, x < d.CHUNK_LENGTH → z < d.CHUNK_WIDTH →
      ((List.range d.CHUNK_HEIGHT).map (fun (y : Nat) =>
        (voxelFaces reg d c (x : Int) (y : Int) (z : Int)).length)).sum = k) :
    (geometryFaces reg d c).length = d.CHUNK_WIDTH * (d.CHUNK_LENGTH * k) := by
  unfold geometryFaces
  rw [List.length_flatMap]
  apply sum_map_const_of
  intro z hz
  simp only [Function.comp]
  rw [List.length_flatMap]
  apply sum_map_const_of
  intro x hx
  simp only [Function.comp]
  rw [List.length_flatMap]
  exact hk x z hx hz

theorem solid_voxelFaces (reg : Vec3 → Option Chunk) (d : Dims) (c : Chunk) (b : BlockType)
    (hb1 : b ≠ BlockType.eAIR) (hb2 : b ≠ BlockType.eWATER)
    (hsolid : ∀ x y z, d.inGrid x y z → c.blockAt d x y z = some b)
    (hL : reg (c.mPosition.sub ⟨(d.CHUNK_LENGTH : ℚ), 0, 0⟩) = none)
    (hR : reg (c.mPosition.add ⟨(d.CHUNK_LENGTH : ℚ), 0, 0⟩) = none)
    (hF : reg (c.mPosition.add ⟨0, 0, (d.CHUNK_WIDTH : ℚ)⟩) = none)
    (hB : reg (c.mPosition.sub ⟨0, 0, (d.CHUNK_WIDTH : ℚ)⟩) = none)
    (x y z : Int) (hg : d.inGrid x y z) :
    voxelFaces reg d c x y z =
      (if y + 1 = (d.CHUNK_HEIGHT : Int)
        then [(⟨b, Vec3.ofInts x y z, CubeSides.eUP⟩ : Face)] else []) ++
      (if y - 1 = -1 then [(⟨b, Vec3.ofInts x y z, CubeSides.eDOWN⟩ : Face)] else []) := by
  have hs := solid_sideFree reg d c b hb1 hb2 hsolid hL hR hF hB x y z hg
  unfold voxelFaces
  rw [hsolid x y z hg]
  have hnt : ¬ (b = BlockType.eAIR ∨ b = BlockType.eWATER) := by tauto
  simp only [if_neg hnt, List.filter, hs]
  by_cases h1 : y + 1 = (d.CHUNK_HEIGHT : Int) <;> by_cases h2 : y - 1 = -1 <;> simp [h1, h2]

theorem solid_column_sum (reg : Vec3 → Option Chunk) (d : Dims) (c : Chunk) (b : BlockType)
    (hb1 : b ≠ BlockType.eAIR) (hb2 : b ≠ BlockType.eWATER)
    (hsolid : ∀ x y z, d.inGrid x y z → c.blockAt d x y z = some b)
    (hL : reg (c.mPosition.sub ⟨(d.CHUNK_LENGTH : ℚ), 0, 0⟩) = none)
    (hR : reg (c.mPosition.add ⟨(d.CHUNK_LENGTH : ℚ), 0, 0⟩) = none)
    (hF : reg (c.mPosition.add ⟨0, 0, (d.CHUNK_WIDTH : ℚ)⟩) = none)
    (hB : reg (c.mPosition.sub ⟨0, 0, (d.CHUNK_WIDTH : ℚ)⟩) = none)
    (hH : 0 < d.CHUNK_HEIGHT) (x z : Nat) (hx : x < d.CHUNK_LENGTH) (hz : z < d.CHUNK_WIDTH) :
    ((List.range d.CHUNK_HEIGHT).map (fun (y : Nat) =>
      (voxelFaces reg d c (x : Int) (y : Int) (z : Int)).length)).sum = 2 := by
  have hcongr : (List.range d.CHUNK_HEIGHT).map (fun (y : Nat) =>
      (voxelFaces reg d c (x : Int) (y : Int) (z : Int)).length) =
      (List.range d.CHUNK_HEIGHT).map (fun (y : Nat) =>
        (if y = d.CHUNK_HEIGHT - 1 then 1 else 0) + (if y = 0 then 1 else 0)) := by
    apply List.map_congr_left
    intro y hy
    have hy' : y < d.CHUNK_HEIGHT := List.mem_range.mp hy
    rw [solid_voxelFaces reg d c b hb1 hb2 hsolid hL hR hF hB x y z
      ⟨⟨by omega, by omega⟩, ⟨by omega, by omega⟩, ⟨by omega, by omega⟩⟩]
    have e1 : ((y : Int) + 1 = (d.CHUNK_HEIGHT : Int)) ↔ y = d.CHUNK_HEIGHT - 1 := by omega
    have e2 : ((y : Int) - 1 = -1) ↔ y = 0 := by omega
    have l1 : ∀ (p : Prop) [Decidable p] (f : Face),
        (if p then [f] else []).length = if p then 1 else 0 := by
      intro p _ f
      split_ifs <;> rfl
    rw [List.length_append, l1, l1]
    simp only [e1, e2]
  rw [hcongr, List.sum_map_add, sum_map_indicator, sum_map_indicator]
  have h1 : d.CHUNK_HEIGHT - 1 < d.CHUNK_HEIGHT := by omega
  simp [h1, hH]

/-- C6, counterexample. The cobblestone tower with an empty registry: all 61 voxels lie on the
outer shell, so six faces per boundary-exposed voxel would be 366 faces, but pass 0
holds two faces (eight vertices). -/
theorem face_count_counterexample :
    (genVisibleGeometry unitCubeTable emptyRegistry towerDims solidTower).map
        (fun c => c.mRenderData0.mVisibleMesh.length) = some 8 ∧
      (geometryFaces emptyRegistry towerDims solidTower).length = 2 ∧
      towerDims.exposedCount = 61 ∧
      (geometryFaces emptyRegistry towerDims solidTower).length ≠ 6 * towerDims.exposedCount := by
  decide!

/-- C6, amended. Face count of a solid chunk without neighbours: all voxels hold the same
material that is not translucent and the registry returns no chunk at the four neighbour
positions. Then `genVisibleGeometry` returns, pass 0 holds exactly
`2 * CHUNK_LENGTH * CHUNK_WIDTH` faces, which is at most six per boundary-exposed voxel,
and every face belongs to a voxel of the outer shell: it is the UP face of a voxel of
the top layer or the DOWN face of a voxel of the bottom layer. -/
theorem solid_chunk_face_count (tbl : CubeSides → Nat → CubeVert)
    (reg : Vec3 → Option Chunk) (d : Dims) (c : Chunk) (b : BlockType)
    (hwf : c.WellFormed d) (hreg : RegistryWellFormed d reg)
    (hH : WATER_HEIGHT < (d.CHUNK_HEIGHT : Int))
    (hb1 : b ≠ BlockType.eAIR) (hb2 : b ≠ BlockType.eWATER)
    (hsolid : ∀ x y z, d.inGrid x y z → c.blockAt d x y z = some b)
    (hL : reg (c.mPosition.sub ⟨(d.CHUNK_LENGTH : ℚ), 0, 0⟩) = none)
    (hR : reg (c.mPosition.add ⟨(d.CHUNK_LENGTH : ℚ), 0, 0⟩) = none)
    (hF : reg (c.mPosition.add ⟨0, 0, (d.CHUNK_WIDTH : ℚ)⟩) = none)
    (hB : reg (c.mPosition.sub ⟨0, 0, (d.CHUNK_WIDTH : ℚ)⟩) = none) :
    ∃ c', genVisibleGeometry tbl reg d c = some c' ∧
      c'.mRenderData0 = addFaces tbl ⟨[], [], 0⟩ (geometryFaces reg d c) ∧
      (geometryFaces reg d c).length = 2 * d.CHUNK_LENGTH * d.CHUNK_WIDTH ∧
      (geometryFaces reg d c).length ≤ 6 * d.exposedCount ∧
      ∀ f, f ∈ geometryFaces reg d c →
        ∃ x y z, d.inGrid x y z ∧ d.onShell x y z ∧ f.pos = Vec3.ofInts x y z ∧
          ((f.side = CubeSides.eUP ∧ y = (d.CHUNK_HEIGHT : Int) - 1) ∨
            (f.side = CubeSides.eDOWN ∧ y = 0)) := by
  have hHpos : 0 < d.CHUNK_HEIGHT := by
    unfold WATER_HEIGHT at hH
    omega
  have hlen : (geometryFaces reg d c).length = 2 * d.CHUNK_LENGTH * d.CHUNK_WIDTH := by
    rw [geometryFaces_length reg d c 2
      (fun x z hx hz => solid_column_sum reg d c b hb1 hb2 hsolid hL hR hF hB hHpos x z hx hz)]
    ring
  refine ⟨_, genVisibleGeometry_eq tbl reg d c hwf hreg hH, rfl, hlen, ?_, ?_⟩
  · rw [hlen]
    have := exposedCount_ge d hHpos
    have h2 : 2 * d.CHUNK_LENGTH * d.CHUNK_WIDTH = 2 * (d.CHUNK_LENGTH * d.CHUNK_WIDTH) := by
      ring
    omega
  · intro f hf
    obtain ⟨x, y, z, hg, hmem⟩ := mem_geometryFaces reg d c f hf
    rw [solid_voxelFaces reg d c b hb1 hb2 hsolid hL hR hF hB x y z hg] at hmem
    rw [List.mem_append] at hmem
    rcases hmem with hm | hm
    · by_cases h1 : y + 1 = (d.CHUNK_HEIGHT : Int)
      · rw [if_pos h1, List.mem_singleton] at hm
        subst hm
        have hy : y = (d.CHUNK_HEIGHT : Int) - 1 := by omega
        exact ⟨x, y, z, hg, Or.inr (Or.inr (Or.inr (Or.inl hy))), rfl, Or.inl ⟨rfl, hy⟩⟩
      · rw [if_neg h1] at hm
        cases hm
    · by_cases h1 : y - 1 = -1
      · rw [if_pos h1, List.mem_singleton] at hm
        subst hm
        have hy : y = 0 := by omega
        exact ⟨x, y, z, hg, Or.inr (Or.inr (Or.inl hy)), rfl, Or.inr ⟨rfl, hy⟩⟩
      · rw [if_neg h1] at hm
        cases hm

/-- Witness for C6 (amended): the cobblestone tower with an empty registry has two faces. -/
theorem solid_chunk_face_count_witness :
    ∃ c', genVisibleGeometry unitCubeTable emptyRegistry towerDims solidTower = some c' ∧
      (geometryFaces emptyRegistry towerDims solidTower).length = 2 * 1 * 1 := by
  obtain ⟨c', h1, _, h3, _⟩ := solid_chunk_face_count unitCubeTable emptyRegistry towerDims
    solidTower BlockType.eCOBBLESTONE (by decide) (fun p ch h => by simp [emptyRegistry] at h)
    (by decide) (by decide) (by decide)
    (fun x y z hg => blockAt_replicate towerDims solidTower BlockType.eCOBBLESTONE rfl x y z hg)
    rfl rfl rfl rfl
  exact ⟨c', h1, h3⟩

/-! ## The water pass -/

theorem mem_waterFaces (d : Dims) (c : Chunk) (f : Face) (hf : f ∈ waterFaces d c) :
    ∃ x z, d.inFootprint x z ∧ c.blockAt d x WATER_HEIGHT z = some BlockType.eWATER ∧
      f = ⟨BlockType.eWATER, Vec3.ofInts x WATER_HEIGHT z, CubeSides.eUP⟩ := by
  unfold waterFaces at hf
  simp only [List.mem_flatMap, List.mem_range] at hf
  obtain ⟨z, hz, x, hx, hmem⟩ := hf
  unfold waterColumnFaces at hmem
  by_cases hw : c.blockAt d (x : Int) WATER_HEIGHT (z : Int) = some BlockType.eWATER
  · rw [if_pos hw, List.mem_singleton] at hmem
    exact ⟨x, z, ⟨⟨by omega, by omega⟩, ⟨by omega, by omega⟩⟩, hw, hmem⟩
  · rw [if_neg hw] at hmem
    cases hmem

theorem faceCount_waterColumn_other (d : Dims) (c : Chunk) (x z x' z' y : Int)
    (side : CubeSides) (hne : ¬ (x' = x ∧ z' = z)) :
    faceCount (waterColumnFaces d c x' z') x y z side = 0 := by
  unfold faceCount waterColumnFaces
  rw [List.countP_eq_zero]
  intro f hf
  split_ifs at hf with hw
  · rw [List.mem_singleton] at hf
    subst hf
    simp only [decide_eq_true_eq, not_and]
    intro h
    have := Vec3.ofInts_inj _ _ _ _ _ _ h
    exact absurd ⟨this.1, this.2.2⟩ hne
  · cases hf

theorem faceCount_waterColumn_self (d : Dims) (c : Chunk) (x z : Int) :
    faceCount (waterColumnFaces d c x z) x WATER_HEIGHT z CubeSides.eUP =
      if c.blockAt d x WATER_HEIGHT z = some BlockType.eWATER then 1 else 0 := by
  unfold faceCount waterColumnFaces
  split_ifs with hw
  · simp
  · simp

theorem faceCount_waterFaces (d : Dims) (c : Chunk) (x z : Int) (hf : d.inFootprint x z) :
    faceCount (waterFaces d c) x WATER_HEIGHT z CubeSides.eUP =
      if c.blockAt d x WATER_HEIGHT z = some BlockType.eWATER then 1 else 0 := by
  obtain ⟨⟨hx0, hx1⟩, hz0, hz1⟩ := hf
  have hx : ((x.toNat : Nat) : Int) = x := Int.toNat_of_nonneg hx0
  have hz : ((z.toNat : Nat) : Int) = z := Int.toNat_of_nonneg hz0
  unfold waterFaces
  rw [faceCount_flatMap_range _ d.CHUNK_WIDTH z.toNat, if_pos (by omega),
    faceCount_flatMap_range _ d.CHUNK_LENGTH x.toNat, if_pos (by omega), hx, hz,
    faceCount_waterColumn_self]
  · intro i _ hne
    apply faceCount_waterColumn_other
    rw [hz]
    omega
  · intro i _ hne
    apply faceCount_flatMap_range_zero
    intro j _
    apply faceCount_waterColumn_other
    omega

theorem length_flatMap_ite {α : Type} (l : List Nat) (p : Nat → Bool) (g : Nat → α) :
    (l.flatMap (fun x => if p x = true then [g x] else [])).length = (l.filter p).length := by
  induction l with
  | nil => rfl
  | cons a l ih =>
    rw [List.flatMap_cons, List.length_append, ih, List.filter_cons]
    cases p a <;> simp
    omega

/-- The number of faces of the water pass is the number of columns with water at
`WATER_HEIGHT`. -/
theorem waterFaces_length (d : Dims) (c : Chunk) :
    (waterFaces d c).length =
      d.countColumns (fun x z => decide (c.blockAt d x WATER_HEIGHT z = some BlockType.eWATER)) := by
  unfold waterFaces Dims.countColumns
  rw [List.length_flatMap, List.length_flatMap]
  congr 1
  apply List.map_congr_left
  intro z _
  simp only [Function.comp, waterColumnFaces]
  have h := length_flatMap_ite (List.range d.CHUNK_LENGTH)
    (fun (x : Nat) => decide (c.blockAt d (x : Int) WATER_HEIGHT (z : Int) = some BlockType.eWATER))
    (fun (x : Nat) => (⟨BlockType.eWATER, Vec3.ofInts (x : Int) WATER_HEIGHT (z : Int),
      CubeSides.eUP⟩ : Face))
  simp only [decide_eq_true_eq] at h
  exact h

theorem countColumns_congr (d : Dims) (p q : Int → Int → Bool)
    (h : ∀ x z, d.inFootprint x z → p x z = q x z) : d.countColumns p = d.countColumns q := by
  unfold Dims.countColumns
  rw [List.length_flatMap, List.length_flatMap]
  congr 1
  apply List.map_congr_left
  intro z hz
  simp only [Function.comp]
  congr 1
  apply List.filter_congr
  intro x hx
  have hz' := List.mem_range.mp hz
  have hx' := List.mem_range.mp hx
  exact h x z ⟨⟨by omega, by omega⟩, ⟨by omega, by omega⟩⟩

/-- Water pass by the voxels at `WATER_HEIGHT`: `genVisibleGeometry` returns, pass 1 holds
the faces `waterFaces`: one
face for each column whose voxel at `WATER_HEIGHT` is water and none for another column,
each the UP face at `(x, WATER_HEIGHT, z)` tagged water. When the chunk comes from
`genTerrain` on a fresh chunk, the number of these faces is the number of columns whose
height, as the land loop reads it, is below `WATER_HEIGHT`; on a square footprint that is
the height computed from the column's own noise sample. -/
theorem water_pass (tbl : CubeSides → Nat → CubeVert) (reg : Vec3 → Option Chunk) (d : Dims)
    (c : Chunk) (hwf : c.WellFormed d) (hreg : RegistryWellFormed d reg)
    (hH : WATER_HEIGHT < (d.CHUNK_HEIGHT : Int)) :
    ∃ c', genVisibleGeometry tbl reg d c = some c' ∧
      c'.mRenderData1 = addFaces tbl ⟨[], [], 0⟩ (waterFaces d c) ∧
      (∀ x z, d.inFootprint x z →
        faceCount (waterFaces d c) x WATER_HEIGHT z CubeSides.eUP =
          if c.blockAt d x WATER_HEIGHT z = some BlockType.eWATER then 1 else 0) ∧
      (∀ f, f ∈ waterFaces d c →
        f.side = CubeSides.eUP ∧ f.block = BlockType.eWATER ∧
        ∃ x z, d.inFootprint x z ∧ f.pos = Vec3.ofInts x WATER_HEIGHT z ∧
          c.blockAt d x WATER_HEIGHT z = some BlockType.eWATER) ∧
      (waterFaces d c).length = d.countColumns (fun x z =>
        decide (c.blockAt d x WATER_HEIGHT z = some BlockType.eWATER)) ∧
      (∀ noise2 pos, genTerrain noise2 d (Chunk.fresh d pos) = some c →
        (waterFaces d c).length = d.countColumns (fun x z =>
          match c.heightAt d x z with
          | some h => decide (h < WATER_HEIGHT)
          | none => false) ∧
        (d.CHUNK_LENGTH = d.CHUNK_WIDTH →
          (waterFaces d c).length = d.countColumns (fun x z =>
            decide (columnHeight noise2 d pos x z < WATER_HEIGHT)))) := by
  refine ⟨_, genVisibleGeometry_eq tbl reg d c hwf hreg hH, rfl, faceCount_waterFaces d c, ?_,
    waterFaces_length d c, ?_⟩
  · intro f hf
    obtain ⟨x, z, hfp, hw, rfl⟩ := mem_waterFaces d c f hf
    exact ⟨rfl, rfl, x, z, hfp, rfl, hw⟩
  · intro noise2 pos hgen
    obtain ⟨_, _, hcols⟩ := genTerrain_fresh_columns noise2 d pos c hgen
    have hwater : ∀ x z, d.inFootprint x z → ∃ ht, c.heightAt d x z = some ht ∧
        (decide (c.blockAt d x WATER_HEIGHT z = some BlockType.eWATER) =
          decide (ht < WATER_HEIGHT)) := by
      intro x z hfp
      obtain ⟨_, ht, hl, _, hI⟩ := hcols x z hfp
      refine ⟨ht, hl, ?_⟩
      rw [hI WATER_HEIGHT (by decide) hH]
      by_cases hle : WATER_HEIGHT ≤ ht
      · have hlt : ¬ ht < WATER_HEIGHT := by omega
        rw [if_pos hle]
        by_cases heq : WATER_HEIGHT = ht <;> simp [heq, hlt]
      · have hlt : ht < WATER_HEIGHT := by omega
        simp [hle, hlt]
    constructor
    · rw [waterFaces_length]
      apply countColumns_congr
      intro x z hfp
      obtain ⟨ht, hl, he⟩ := hwater x z hfp
      rw [he, hl]
    · intro hsq
      rw [waterFaces_length]
      apply countColumns_congr
      intro x z hfp
      obtain ⟨ht, hl, he⟩ := hwater x z hfp
      have h2 := (genTerrain_fresh_square noise2 d pos c hsq hgen x z hfp).2.1
      unfold Chunk.heightAt at hl
      rw [hl] at h2
      rw [he, Option.some.inj h2]

/-- Example of `water_pass`: the two-by-two test terrain, meshed with an empty registry, has two
water faces, one for each of its two columns of height 50. -/
theorem water_pass_witness :
    ∃ c1 c2, genTerrain demoNoise demoDims (Chunk.fresh demoDims origin) = some c1 ∧
      genVisibleGeometry unitCubeTable emptyRegistry demoDims c1 = some c2 ∧
      c2.mRenderData1 = addFaces unitCubeTable ⟨[], [], 0⟩ (waterFaces demoDims c1) ∧
      (waterFaces demoDims c1).length = 2 := by
  obtain ⟨c1, hc1⟩ := genTerrain_fresh_succeeds demoNoise demoDims origin rfl (by decide)
    demo_heights_inside
  have hwf := (genTerrain_fresh_columns demoNoise demoDims origin c1 hc1).2.1
  obtain ⟨c2, h1, h2, _, _, _, h6⟩ := water_pass unitCubeTable emptyRegistry demoDims c1 hwf
    (fun p ch h => by simp [emptyRegistry] at h) (by decide)
  refine ⟨c1, c2, hc1, h1, h2, ?_⟩
  rw [(h6 demoNoise origin hc1).2 rfl]
  decide!

/-! ## Running `genTerrain` again -/

/-- Whenever `genTerrain` returns twice in a row on a chunk, the second run has appended
one more height per column to the height map. -/
theorem genTerrain_again_heightMap (noise2 : ℚ → ℚ → ℚ) (d : Dims) (c c1 c2 : Chunk)
    (h1 : genTerrain noise2 d c = some c1) (h2 : genTerrain noise2 d c1 = some c2) :
    c2.mHeightMap = c1.mHeightMap ++ columnHeights noise2 d c.mPosition ∧
      c2.mHeightMap.length = c1.mHeightMap.length + d.CHUNK_WIDTH * d.CHUNK_LENGTH := by
  obtain ⟨_, hp, _⟩ := genTerrain_frame noise2 d c c1 h1
  obtain ⟨hm, _⟩ := genTerrain_frame noise2 d c1 c2 h2
  rw [hp] at hm
  refine ⟨hm, ?_⟩
  rw [hm, List.length_append, columnHeights_length]

/-- C10, counterexample. On the two-by-two test chunk the first run of `genTerrain` leaves
four heights, the second run leaves eight, so the height map after the second run is not
the height map after the first run, while the blocks are the same after both runs. -/
theorem genTerrain_twice_heightMap :
    (genTerrain demoNoise demoDims (Chunk.fresh demoDims origin)).map
        (fun c => c.mHeightMap) = some [50, 74, 50, 74] ∧
      ((genTerrain demoNoise demoDims (Chunk.fresh demoDims origin)).bind
        (genTerrain demoNoise demoDims)).map (fun c => c.mHeightMap) =
          some [50, 74, 50, 74, 50, 74, 50, 74] ∧
      ((genTerrain demoNoise demoDims (Chunk.fresh demoDims origin)).bind
        (genTerrain demoNoise demoDims)).map (fun c => c.mBlocks) =
      (genTerrain demoNoise demoDims (Chunk.fresh demoDims origin)).map (fun c => c.mBlocks) ∧
      ((genTerrain demoNoise demoDims (Chunk.fresh demoDims origin)).bind
        (genTerrain demoNoise demoDims)).map (fun c => c.mHeightMap) ≠
      (genTerrain demoNoise demoDims (Chunk.fresh demoDims origin)).map
        (fun c => c.mHeightMap) := by
  decide!

/-! ## The linear index -/

/-- Every slot of the allocation is the index of a voxel of the grid. -/
theorem getCubeIndex_surj (d : Dims) (i : Int) (h0 : 0 ≤ i)
    (h1 : i < ((d.CHUNK_LENGTH * d.CHUNK_WIDTH * d.CHUNK_HEIGHT : Nat) : Int)) :
    ∃ x y z, d.inGrid x y z ∧ getCubeIndex d x y z = i := by
  push_cast at h1
  have hL : (0 : Int) < d.CHUNK_LENGTH := by
    rcases Nat.eq_zero_or_pos d.CHUNK_LENGTH with h | h
    · rw [h] at h1
      simp at h1
      omega
    · exact Int.ofNat_lt.mpr h
  have hW : (0 : Int) < d.CHUNK_WIDTH := by
    rcases Nat.eq_zero_or_pos d.CHUNK_WIDTH with h | h
    · rw [h] at h1
      simp at h1
      omega
    · exact Int.ofNat_lt.mpr h
  have hu0 : 0 ≤ i / (d.CHUNK_LENGTH : Int) := Int.ediv_nonneg h0 hL.le
  have hu1 : i / (d.CHUNK_LENGTH : Int) < (d.CHUNK_WIDTH : Int) * (d.CHUNK_HEIGHT : Int) := by
    apply Int.ediv_lt_of_lt_mul hL
    have : (d.CHUNK_WIDTH : Int) * (d.CHUNK_HEIGHT : Int) * (d.CHUNK_LENGTH : Int) =
        (d.CHUNK_LENGTH : Int) * (d.CHUNK_WIDTH : Int) * (d.CHUNK_HEIGHT : Int) := by ring
    rw [this]
    exact h1
  refine ⟨i % (d.CHUNK_LENGTH : Int), i / (d.CHUNK_LENGTH : Int) / (d.CHUNK_WIDTH : Int),
    i / (d.CHUNK_LENGTH : Int) % (d.CHUNK_WIDTH : Int), ⟨⟨?_, ?_⟩, ⟨?_, ?_⟩, ?_, ?_⟩, ?_⟩
  · exact Int.emod_nonneg i hL.ne'
  · exact Int.emod_lt_of_pos i hL
  · exact Int.ediv_nonneg hu0 hW.le
  · apply Int.ediv_lt_of_lt_mul hW
    rw [mul_comm]
    exact hu1
  · exact Int.emod_nonneg _ hW.ne'
  · exact Int.emod_lt_of_pos _ hW
  · rw [getCubeIndex_eq, Int.emod_add_ediv, Int.emod_add_ediv]

/-- C19. The linear index on the valid range: `getCubeIndex(x, y, z)` is
`x + z·CHUNK_LENGTH + y·CHUNK_LENGTH·CHUNK_WIDTH`, it lies inside the allocation, it
determines the coordinates, every slot of the allocation is reached, and a write to one
voxel leaves what is read at every other valid coordinate unchanged. -/
theorem getCubeIndex_bijection (d : Dims) :
    (∀ x y z, getCubeIndex d x y z =
      x + z * (d.CHUNK_LENGTH : Int) + y * (d.CHUNK_LENGTH : Int) * (d.CHUNK_WIDTH : Int)) ∧
    (∀ x y z, d.inGrid x y z → 0 ≤ getCubeIndex d x y z ∧
      getCubeIndex d x y z < ((d.CHUNK_LENGTH * d.CHUNK_WIDTH * d.CHUNK_HEIGHT : Nat) : Int)) ∧
    (∀ x y z x' y' z', d.inGrid x y z → d.inGrid x' y' z' →
      getCubeIndex d x y z = getCubeIndex d x' y' z' → x = x' ∧ y = y' ∧ z = z') ∧
    (∀ i, 0 ≤ i → i < ((d.CHUNK_LENGTH * d.CHUNK_WIDTH * d.CHUNK_HEIGHT : Nat) : Int) →
      ∃ x y z, d.inGrid x y z ∧ getCubeIndex d x y z = i) ∧
    (∀ (bs bs' : List BlockType) (v : BlockType) x y z x' y' z',
      d.inGrid x y z → d.inGrid x' y' z' → ¬ (x' = x ∧ y' = y ∧ z' = z) →
      storeAt bs (getCubeIndex d x y z) v = some bs' →
      loadAt bs' (getCubeIndex d x' y' z') = loadAt bs (getCubeIndex d x' y' z')) := by
  refine ⟨fun x y z => rfl, ?_, ?_, getCubeIndex_surj d, ?_⟩
  · intro x y z hg
    exact getCubeIndex_bounds d x y z hg.1.1 hg.1.2 hg.2.1.1 hg.2.1.2 hg.2.2.1 hg.2.2.2
  · intro x y z x' y' z' hg hg' h
    exact getCubeIndex_inj d x y z x' y' z' hg.1.1 hg.1.2 hg.2.2.1 hg.2.2.2
      hg'.1.1 hg'.1.2 hg'.2.2.1 hg'.2.2.2 h
  · intro bs bs' v x y z x' y' z' hg hg' hne hst
    rw [loadAt_store_cell d ⟨hg.1, hg.2.2⟩ hst x' y' z' ⟨hg'.1, hg'.2.2⟩, if_neg hne]

/-- Witness for C19 on the two-by-two test grid: the voxels `(1, 3, 0)` and `(0, 3, 1)`
have the indices 13 and 14, and a write to the first leaves the second as it was. -/
theorem getCubeIndex_bijection_witness :
    getCubeIndex demoDims 1 3 0 = 13 ∧ getCubeIndex demoDims 0 3 1 = 14 ∧
      (∀ bs', storeAt (Chunk.fresh demoDims origin).mBlocks (getCubeIndex demoDims 1 3 0)
          BlockType.eDIRT = some bs' →
        loadAt bs' (getCubeIndex demoDims 0 3 1) =
          loadAt (Chunk.fresh demoDims origin).mBlocks (getCubeIndex demoDims 0 3 1)) := by
  have key := getCubeIndex_bijection demoDims
  refine ⟨by decide, by decide, ?_⟩
  intro bs' h
  exact key.2.2.2.2 _ bs' BlockType.eDIRT 1 3 0 0 3 1 (by decide) (by decide) (by decide) h

/-! ## Noise sampling and height mapping -/

theorem noiseOffset_eq (p : ℚ) (n : Nat) (i : Int) :
    noiseOffset p n i = (p + (i : ℚ)) / (n : ℚ) * (1 / 4) := by
  unfold noiseOffset
  rw [add_div]

/-- C13. Seamless sampling: the noise coordinate that `genTerrain` samples for a column is
`((P.x + x)/CHUNK_LENGTH × 0.25, (P.z + z)/CHUNK_WIDTH × 0.25)`; it, and with it the
computed height, depends on the world coordinate of the column only; and from one column
to the next, also across the chunk boundary, it advances by `0.25/CHUNK_LENGTH`. -/
theorem seamless_sampling (noise2 : ℚ → ℚ → ℚ) (d : Dims) (P P' : Vec3) (x z x' z' : Int)
    (hx : P.x + (x : ℚ) = P'.x + (x' : ℚ)) (hz : P.z + (z : ℚ) = P'.z + (z' : ℚ)) :
    noiseOffset P.x d.CHUNK_LENGTH x = (P.x + (x : ℚ)) / (d.CHUNK_LENGTH : ℚ) * (1 / 4) ∧
    noiseOffset P.z d.CHUNK_WIDTH z = (P.z + (z : ℚ)) / (d.CHUNK_WIDTH : ℚ) * (1 / 4) ∧
    noiseOffset P.x d.CHUNK_LENGTH x = noiseOffset P'.x d.CHUNK_LENGTH x' ∧
    noiseOffset P.z d.CHUNK_WIDTH z = noiseOffset P'.z d.CHUNK_WIDTH z' ∧
    columnHeight noise2 d P x z = columnHeight noise2 d P' x' z' ∧
    (0 < d.CHUNK_LENGTH →
      noiseOffset P.x d.CHUNK_LENGTH (x + 1) =
        noiseOffset P.x d.CHUNK_LENGTH x + (1 / 4) / (d.CHUNK_LENGTH : ℚ) ∧
      noiseOffset (P.add ⟨(d.CHUNK_LENGTH : ℚ), 0, 0⟩).x d.CHUNK_LENGTH 0 =
        noiseOffset P.x d.CHUNK_LENGTH ((d.CHUNK_LENGTH : Int) - 1) +
          (1 / 4) / (d.CHUNK_LENGTH : ℚ)) := by
  have e1 : noiseOffset P.x d.CHUNK_LENGTH x = noiseOffset P'.x d.CHUNK_LENGTH x' := by
    rw [noiseOffset_eq, noiseOffset_eq, hx]
  have e2 : noiseOffset P.z d.CHUNK_WIDTH z = noiseOffset P'.z d.CHUNK_WIDTH z' := by
    rw [noiseOffset_eq, noiseOffset_eq, hz]
  refine ⟨noiseOffset_eq _ _ _, noiseOffset_eq _ _ _, e1, e2, ?_, ?_⟩
  · unfold columnHeight
    simp only [e1, e2]
  · intro hL
    have hne : (d.CHUNK_LENGTH : ℚ) ≠ 0 := by
      have : (0 : ℚ) < d.CHUNK_LENGTH := by exact_mod_cast hL
      exact this.ne'
    constructor
    · rw [noiseOffset_eq, noiseOffset_eq]
      push_cast
      field_simp
      ring
    · rw [noiseOffset_eq, noiseOffset_eq]
      simp only [Vec3.add]
      push_cast
      field_simp
      ring

/-- Witness for C13: column `x = 0` of the chunk at `(2, 0, 0)` and column `x = 2` of the
chunk at the origin, both with the two-by-two test dimensions, sample the same coordinate
`1/4`. -/
theorem seamless_sampling_witness :
    noiseOffset (2 : ℚ) demoDims.CHUNK_LENGTH 0 = 1 / 4 ∧
      noiseOffset (0 : ℚ) demoDims.CHUNK_LENGTH 2 = 1 / 4 ∧
      columnHeight demoNoise demoDims ⟨2, 0, 0⟩ 0 1 = columnHeight demoNoise demoDims origin 2 1 := by
  have key := seamless_sampling demoNoise demoDims ⟨2, 0, 0⟩ origin 0 1 2 1
    (by norm_num [origin]) (by norm_num [origin])
  refine ⟨?_, ?_, key.2.2.2.2.1⟩
  · rw [key.1]
    norm_num [demoDims]
  · have h := key.2.2.1
    simp only [origin] at h
    rw [← h, key.1]
    norm_num [demoDims]

theorem truncToInt_of_nonneg (q : ℚ) (h : 0 ≤ q) : truncToInt q = ⌊q⌋ := by
  unfold truncToInt
  rw [Rat.floor_def]
  exact Int.tdiv_eq_ediv (Rat.num_nonneg.mpr h) (Int.ofNat_nonneg _)

/-- For a noise sample of at least `-1` the conversion of line 117 is the floor. -/
theorem heightFromNoise_floor (n : ℚ) (h : -1 ≤ n) :
    heightFromNoise n =
      ⌊((n + 1) / 2) * (MAX_LAND_HEIGHT_FROM_WATER_SURFACE : ℚ)⌋ + WATER_HEIGHT -
        LAND_HEIGHT_BELOW_WATER := by
  unfold heightFromNoise
  rw [truncToInt_of_nonneg]
  have h1 : (0 : ℚ) ≤ (n + 1) / 2 := by linarith
  have h2 : (0 : ℚ) ≤ (MAX_LAND_HEIGHT_FROM_WATER_SURFACE : ℚ) := by
    norm_num [MAX_LAND_HEIGHT_FROM_WATER_SURFACE]
  exact mul_nonneg h1 h2

/-- For a noise sample in `[-1, 1]` the height of line 117 lies in `[50, 98]`. -/
theorem heightFromNoise_range (n : ℚ) (h0 : -1 ≤ n) (h1 : n ≤ 1) :
    50 ≤ heightFromNoise n ∧ heightFromNoise n ≤ 98 := by
  rw [heightFromNoise_floor n h0]
  have hq0 : (0 : ℚ) ≤ ((n + 1) / 2) * (MAX_LAND_HEIGHT_FROM_WATER_SURFACE : ℚ) := by
    norm_num [MAX_LAND_HEIGHT_FROM_WATER_SURFACE]
    linarith
  have hq1 : ((n + 1) / 2) * (MAX_LAND_HEIGHT_FROM_WATER_SURFACE : ℚ) ≤ 48 := by
    norm_num [MAX_LAND_HEIGHT_FROM_WATER_SURFACE]
    linarith
  have f0 : 0 ≤ ⌊((n + 1) / 2) * (MAX_LAND_HEIGHT_FROM_WATER_SURFACE : ℚ)⌋ :=
    Int.floor_nonneg.mpr hq0
  have f1 : ⌊((n + 1) / 2) * (MAX_LAND_HEIGHT_FROM_WATER_SURFACE : ℚ)⌋ ≤ 48 := by
    have := Int.floor_le_floor hq1
    simpa using this
  unfold WATER_HEIGHT LAND_HEIGHT_BELOW_WATER
  omega

/-- C12, counterexample. For the noise value `-31/32` the scaled value is `3/4`: line 117
yields height 50, the formula with `round` yields 51. -/
theorem height_mapping_counterexample :
    (-1 : ℚ) ≤ -31 / 32 ∧ (-31 / 32 : ℚ) ≤ 1 ∧
      ((-31 / 32 : ℚ) + 1) / 2 * 48 = 3 / 4 ∧
      heightFromNoise (-31 / 32) = 50 ∧ specHeight (-31 / 32) = 51 ∧
      heightFromNoise (-31 / 32) ≠ specHeight (-31 / 32) := by
  decide!

/-- C12, amended. Height mapping: for every noise value `n` in `[-1, 1]` (indeed for every
`n ≥ -1`) the height that `genTerrain` stores is `floor((n+1)/2 × 48) + 60 − 10`, because
the conversion `int(...)` truncates; it is the value of the formula with `round`, or one
less. -/
theorem height_mapping (n : ℚ) (h0 : -1 ≤ n) :
    heightFromNoise n = ⌊((n + 1) / 2) * 48⌋ + 60 - 10 ∧
      heightFromNoise n ≤ specHeight n ∧ specHeight n ≤ heightFromNoise n + 1 := by
  have hf := heightFromNoise_floor n h0
  have hc : (MAX_LAND_HEIGHT_FROM_WATER_SURFACE : ℚ) = 48 := by
    norm_num [MAX_LAND_HEIGHT_FROM_WATER_SURFACE]
  rw [hc] at hf
  refine ⟨hf, ?_, ?_⟩
  · rw [hf]
    unfold specHeight
    rw [hc, round_eq]
    have : ⌊((n + 1) / 2) * 48⌋ ≤ ⌊((n + 1) / 2) * 48 + 1 / 2⌋ :=
      Int.floor_le_floor (by linarith)
    omega
  · rw [hf]
    unfold specHeight
    rw [hc, round_eq]
    have h2 : ⌊((n + 1) / 2) * 48 + 1 / 2⌋ ≤ ⌊((n + 1) / 2) * 48 + 1⌋ :=
      Int.floor_le_floor (by linarith)
    rw [Int.floor_add_one] at h2
    omega

/-- Witness for C12 (amended): the noise value `-31/32` has height `floor(3/4) + 50 = 50`. -/
theorem height_mapping_witness :
    heightFromNoise (-31 / 32) = ⌊(((-31 / 32 : ℚ) + 1) / 2) * 48⌋ + 60 - 10 ∧
      heightFromNoise (-31 / 32) ≤ specHeight (-31 / 32) ∧
      specHeight (-31 / 32) ≤ heightFromNoise (-31 / 32) + 1 :=
  height_mapping (-31 / 32) (by norm_num)

/-! ## Terrain generation stays inside the grid -/

theorem heightRead_inside (d : Dims) (hWL : d.CHUNK_WIDTH ≤ d.CHUNK_LENGTH) (x z : Int)
    (hf : d.inFootprint x z) :
    0 ≤ x + z * (d.CHUNK_WIDTH : Int) ∧
      x + z * (d.CHUNK_WIDTH : Int) < (d.CHUNK_LENGTH : Int) * (d.CHUNK_WIDTH : Int) := by
  obtain ⟨⟨hx0, hx1⟩, hz0, hz1⟩ := hf
  have hWL' : (d.CHUNK_WIDTH : Int) ≤ (d.CHUNK_LENGTH : Int) := Int.ofNat_le.mpr hWL
  have h1 : 0 ≤ z * (d.CHUNK_WIDTH : Int) := mul_nonneg hz0 (by omega)
  have h2 : z * (d.CHUNK_WIDTH : Int) ≤ ((d.CHUNK_WIDTH : Int) - 1) * (d.CHUNK_WIDTH : Int) :=
    mul_le_mul_of_nonneg_right (by omega) (by omega)
  have h3 : ((d.CHUNK_WIDTH : Int) - 1) * (d.CHUNK_WIDTH : Int) ≤
      ((d.CHUNK_WIDTH : Int) - 1) * (d.CHUNK_LENGTH : Int) :=
    mul_le_mul_of_nonneg_left hWL' (by omega)
  have h4 : ((d.CHUNK_WIDTH : Int) - 1) * (d.CHUNK_LENGTH : Int) =
      (d.CHUNK_LENGTH : Int) * (d.CHUNK_WIDTH : Int) - (d.CHUNK_LENGTH : Int) := by ring
  constructor
  · omega
  · omega

/-- Every slot of the pushed heights holds the computed height of some column. -/
theorem columnHeights_loadAt_slot (noise2 : ℚ → ℚ → ℚ) (d : Dims) (pos : Vec3) (i : Int)
    (h0 : 0 ≤ i) (h1 : i < (d.CHUNK_LENGTH : Int) * (d.CHUNK_WIDTH : Int)) :
    loadAt (columnHeights noise2 d pos) i =
      some (columnHeight noise2 d pos (i % (d.CHUNK_LENGTH : Int))
        (i / (d.CHUNK_LENGTH : Int))) := by
  have hL : (0 : Int) < d.CHUNK_LENGTH := by
    rcases Nat.eq_zero_or_pos d.CHUNK_LENGTH with h | h
    · rw [h] at h1
      simp at h1
      omega
    · exact Int.ofNat_lt.mpr h
  have h := columnHeights_loadAt noise2 d pos (i % (d.CHUNK_LENGTH : Int))
    (i / (d.CHUNK_LENGTH : Int)) (Int.emod_nonneg i hL.ne') (Int.emod_lt_of_pos i hL)
    (Int.ediv_nonneg h0 hL.le)
    (Int.ediv_lt_of_lt_mul hL (by rw [mul_comm]; exact h1))
  have he : i % (d.CHUNK_LENGTH : Int) + i / (d.CHUNK_LENGTH : Int) * (d.CHUNK_LENGTH : Int) =
      i := by
    rw [mul_comm]
    exact Int.emod_add_ediv i _
  rw [he] at h
  exact h

/-- Voxel writes of terrain generation stay inside the grid: for a noise value in
`[-1, 1]` the computed height lies in `[50, 98]`; with `CHUNK_HEIGHT ≥ 99` the indices of the water
voxel, of the dirt voxel and of the cobblestone voxels of every column, for the computed
height of whichever column line 137 loads, lie inside the allocation; and `genTerrain` on
a fresh chunk returns, whenever every height-map read of line 137 lies inside the height
map, as it does for `CHUNK_WIDTH ≤ CHUNK_LENGTH`. -/
theorem genTerrain_inside_grid (noise2 : ℚ → ℚ → ℚ) (d : Dims) (pos : Vec3)
    (hnoise : ∀ a b, -1 ≤ noise2 a b ∧ noise2 a b ≤ 1)
    (hH : 99 ≤ d.CHUNK_HEIGHT) :
    (∀ n : ℚ, -1 ≤ n → n ≤ 1 → 50 ≤ heightFromNoise n ∧ heightFromNoise n ≤ 98) ∧
    (∀ x z, d.inFootprint x z →
      (50 ≤ columnHeight noise2 d pos x z ∧ columnHeight noise2 d pos x z ≤ 98) ∧
      (0 ≤ getCubeIndex d x WATER_HEIGHT z ∧ getCubeIndex d x WATER_HEIGHT z <
        ((d.CHUNK_LENGTH * d.CHUNK_WIDTH * d.CHUNK_HEIGHT : Nat) : Int)) ∧
      (∀ x' z' y, 0 ≤ y → y ≤ columnHeight noise2 d pos x' z' →
        0 ≤ getCubeIndex d x y z ∧ getCubeIndex d x y z <
          ((d.CHUNK_LENGTH * d.CHUNK_WIDTH * d.CHUNK_HEIGHT : Nat) : Int))) ∧
    ((∀ x z, d.inFootprint x z →
        ∃ v, loadAt (columnHeights noise2 d pos) (x + z * (d.CHUNK_WIDTH : Int)) = some v) →
      ∃ c', genTerrain noise2 d (Chunk.fresh d pos) = some c') ∧
    (d.CHUNK_WIDTH ≤ d.CHUNK_LENGTH →
      ∃ c', genTerrain noise2 d (Chunk.fresh d pos) = some c') := by
  have hcol : ∀ x z, 50 ≤ columnHeight noise2 d pos x z ∧ columnHeight noise2 d pos x z ≤ 98 := by
    intro x z
    unfold columnHeight
    exact heightFromNoise_range _ (hnoise _ _).1 (hnoise _ _).2
  have hH' : WATER_HEIGHT < (d.CHUNK_HEIGHT : Int) := by
    unfold WATER_HEIGHT
    omega
  have hreads : (∀ x z, d.inFootprint x z →
      ∃ v, loadAt (columnHeights noise2 d pos) (x + z * (d.CHUNK_WIDTH : Int)) = some v) →
      ∃ c', genTerrain noise2 d (Chunk.fresh d pos) = some c' := by
    intro hread
    have hex : ∀ x z, ∃ v, d.inFootprint x z →
        loadAt ((Chunk.fresh d pos).mHeightMap ++
          columnHeights noise2 d (Chunk.fresh d pos).mPosition)
          (x + (z * (d.CHUNK_WIDTH : Int))) = some v ∧ 0 ≤ v ∧ v < (d.CHUNK_HEIGHT : Int) := by
      intro x z
      by_cases hf : d.inFootprint x z
      · obtain ⟨v, hv⟩ := hread x z hf
        refine ⟨v, fun _ => ⟨by simpa [Chunk.fresh] using hv, ?_⟩⟩
        obtain ⟨hi0, hi1⟩ := (loadAt_isSome_iff _ _).mp ⟨v, hv⟩
        rw [columnHeights_length] at hi1
        have hi1' : x + z * (d.CHUNK_WIDTH : Int) <
            (d.CHUNK_LENGTH : Int) * (d.CHUNK_WIDTH : Int) := by
          push_cast at hi1
          rw [mul_comm (d.CHUNK_LENGTH : Int)]
          exact hi1
        have hs := columnHeights_loadAt_slot noise2 d pos _ hi0 hi1'
        rw [hv] at hs
        have hr := hcol ((x + z * (d.CHUNK_WIDTH : Int)) % (d.CHUNK_LENGTH : Int))
          ((x + z * (d.CHUNK_WIDTH : Int)) / (d.CHUNK_LENGTH : Int))
        rw [← Option.some.inj hs] at hr
        omega
      · exact ⟨0, fun hf' => absurd hf' hf⟩
    choose hfun hfun_spec using hex
    obtain ⟨c', hc, _⟩ := genTerrain_total noise2 d (Chunk.fresh d pos) hfun
      (Chunk.fresh_wellFormed d pos) hH' hfun_spec
    exact ⟨c', hc⟩
  refine ⟨fun n h0 h1 => heightFromNoise_range n h0 h1, ?_, hreads, ?_⟩
  · intro x z hf
    refine ⟨hcol x z, ?_, ?_⟩
    · exact getCubeIndex_bounds d x WATER_HEIGHT z hf.1.1 hf.1.2 (by decide) hH' hf.2.1 hf.2.2
    · intro x' z' y hy0 hy1
      have := hcol x' z'
      exact getCubeIndex_bounds d x y z hf.1.1 hf.1.2 hy0 (by omega) hf.2.1 hf.2.2
  · intro hWL
    apply hreads
    intro x z hf
    obtain ⟨hi0, hi1⟩ := heightRead_inside d hWL x z hf
    apply (loadAt_isSome_iff _ _).mpr
    refine ⟨hi0, ?_⟩
    rw [columnHeights_length]
    push_cast
    rw [mul_comm (d.CHUNK_WIDTH : Int)]
    exact hi1

/-- Example of `genTerrain_inside_grid`: with the constant noise `0` (height 74) and a two-by-two footprint 99
voxels high, `genTerrain` returns on a fresh chunk. -/
theorem genTerrain_inside_grid_witness :
    heightFromNoise 0 = 74 ∧
      ∃ c', genTerrain (fun _ _ => 0) ⟨2, 2, 99⟩ (Chunk.fresh ⟨2, 2, 99⟩ origin) = some c' := by
  have key := genTerrain_inside_grid (fun _ _ => 0) ⟨2, 2, 99⟩ origin
    (fun _ _ => ⟨by norm_num, by norm_num⟩) (by decide)
  exact ⟨by decide!, key.2.2.2 (by decide)⟩

/-! ## Camera -/

theorem glmClamp_range (x : ℚ) : -90 ≤ glmClamp x (-90) 90 ∧ glmClamp x (-90) 90 ≤ 90 := by
  unfold glmClamp
  constructor
  · exact le_min (le_max_right _ _) (by norm_num)
  · exact min_le_right _ _

theorem onMouseMoveEvent_pitch (cam : Camera) (data : MousePositionData)
    (h : -90 ≤ cam.mPitch ∧ cam.mPitch ≤ 90) :
    -90 ≤ (cam.onMouseMoveEvent data).mPitch ∧ (cam.onMouseMoveEvent data).mPitch ≤ 90 := by
  unfold Camera.onMouseMoveEvent
  by_cases hfirst : cam.mFirstMouseMove = true
  · simp only [hfirst, if_true]
    exact h
  · simp only [hfirst, if_false, Bool.false_eq_true]
    exact glmClamp_range _

theorem foldl_onMouseMoveEvent_pitch (events : List MousePositionData) (cam : Camera)
    (h : -90 ≤ cam.mPitch ∧ cam.mPitch ≤ 90) :
    -90 ≤ (events.foldl Camera.onMouseMoveEvent cam).mPitch ∧
      (events.foldl Camera.onMouseMoveEvent cam).mPitch ≤ 90 := by
  induction events generalizing cam with
  | nil => exact h
  | cons e es ih => exact ih _ (onMouseMoveEvent_pitch cam e h)

/-- C20. Camera pitch stays clamped: after any finite sequence of `onMouseMoveEvent` calls
on a new camera the pitch lies in `[-90, 90]`; the first event after construction only
records the mouse position and clears the first-move flag, yaw stays `-90` and pitch `0`;
and every later event leaves the pitch clamped to `[-90, 90]` of the moved value. -/
theorem camera_pitch_clamped :
    (∀ events : List MousePositionData,
      -90 ≤ (Camera.afterMoves events).mPitch ∧ (Camera.afterMoves events).mPitch ≤ 90) ∧
    (∀ data : MousePositionData,
      Camera.create.onMouseMoveEvent data =
        { Camera.create with mLastMousePos := ⟨data.x, data.y⟩, mFirstMouseMove := false } ∧
      (Camera.create.onMouseMoveEvent data).mYaw = -90 ∧
      (Camera.create.onMouseMoveEvent data).mPitch = 0) ∧
    (∀ (cam : Camera) (data : MousePositionData), cam.mFirstMouseMove = false →
      (cam.onMouseMoveEvent data).mPitch =
        glmClamp (cam.mPitch + (cam.mLastMousePos.y - data.y) * MOUSE_SENSITIVITY) (-90) 90 ∧
      (cam.onMouseMoveEvent data).mYaw =
        cam.mYaw + (data.x - cam.mLastMousePos.x) * MOUSE_SENSITIVITY) := by
  refine ⟨?_, ?_, ?_⟩
  · intro events
    unfold Camera.afterMoves
    apply foldl_onMouseMoveEvent_pitch
    simp only [Camera.create]
    constructor <;> norm_num
  · intro data
    exact ⟨rfl, rfl, rfl⟩
  · intro cam data hfirst
    unfold Camera.onMouseMoveEvent
    simp [hfirst]

/-- Witness for C20: after the events `(0, 0)`, `(5, -2000)`, `(7, 100)` the pitch is `-90`,
and an event on a camera whose first move is past moves yaw and pitch. -/
theorem camera_pitch_clamped_witness :
    (Camera.afterMoves [⟨0, 0⟩, ⟨5, -2000⟩, ⟨7, 100⟩]).mPitch = -90 ∧
      ((Camera.create.onMouseMoveEvent ⟨0, 0⟩).onMouseMoveEvent ⟨5, -2000⟩).mPitch = 90 ∧
      ((Camera.create.onMouseMoveEvent ⟨0, 0⟩).onMouseMoveEvent ⟨5, -2000⟩).mYaw =
        -90 + (5 - 0) * MOUSE_SENSITIVITY := by
  have key := camera_pitch_clamped.2.2 (Camera.create.onMouseMoveEvent ⟨0, 0⟩) ⟨5, -2000⟩ rfl
  refine ⟨by decide!, ?_, ?_⟩
  · rw [key.1]
    decide!
  · rw [key.2]
    rfl

/-! ## The height map on a footprint that is not square -/

/-- C11, evaluated. On the chunk of three by two columns at the origin the height map has
six entries, but column `(0, 1)`, whose computed height is 74, reads slot `0 + 1·2 = 2`,
the height 50 of column `(2, 0)`: its dirt voxel lies at `y = 50` and its voxel at
`y = 74` is air. On a footprint of one by two columns the read of column `(0, 1)` leaves
the height map and `genTerrain` has no defined result. -/
theorem heightMap_per_column_evaluated :
    (genTerrain slabNoise slabDims (Chunk.fresh slabDims origin)).map
        (fun c => (c.mHeightMap, c.heightAt slabDims 0 1, c.blockAt slabDims 0 50 1,
          c.blockAt slabDims 0 74 1)) =
      some ([74, 74, 50, 74, 74, 50], some 50, some BlockType.eDIRT, some BlockType.eAIR) ∧
    columnHeight slabNoise slabDims origin 0 1 = 74 ∧
    columnHeight slabNoise slabDims origin 2 0 = 50 ∧
    genTerrain slabNoise ⟨1, 2, 75⟩ (Chunk.fresh ⟨1, 2, 75⟩ origin) = none := by
  decide!

/-! ## Full rebuild -/

theorem meshVoxel_congr (tbl : CubeSides → Nat → CubeVert) (reg : Vec3 → Option Chunk)
    (d : Dims) (c1 c2 : Chunk) (hb : c1.mBlocks = c2.mBlocks)
    (hp : c1.mPosition = c2.mPosition) (x y z : Int) (rd : RenderData) :
    meshVoxel tbl reg d c1 x y z rd = meshVoxel tbl reg d c2 x y z rd := by
  simp only [meshVoxel, faceUp, faceDown, faceLeft, faceRight, faceFront, faceBack,
    _isTranslucent, hb, hp]

theorem meshGeometry_congr (tbl : CubeSides → Nat → CubeVert) (reg : Vec3 → Option Chunk)
    (d : Dims) (c1 c2 : Chunk) (hb : c1.mBlocks = c2.mBlocks)
    (hp : c1.mPosition = c2.mPosition) (rd : RenderData) :
    meshGeometry tbl reg d c1 rd = meshGeometry tbl reg d c2 rd := by
  unfold meshGeometry
  simp only [meshVoxel_congr tbl reg d c1 c2 hb hp]

theorem meshWater_congr (tbl : CubeSides → Nat → CubeVert) (d : Dims) (c1 c2 : Chunk)
    (hb : c1.mBlocks = c2.mBlocks) (rd : RenderData) :
    meshWater tbl d c1 rd = meshWater tbl d c2 rd := by
  simp only [meshWater, meshWaterColumn, hb]

theorem genVisibleGeometry_some (tbl : CubeSides → Nat → CubeVert)
    (reg : Vec3 → Option Chunk) (d : Dims) (c c' : Chunk)
    (h : genVisibleGeometry tbl reg d c = some c') :
    ∃ rd0 rd1, meshGeometry tbl reg d c ⟨[], [], 0⟩ = some rd0 ∧
      meshWater tbl d c ⟨[], [], 0⟩ = some rd1 ∧
      c' = { c with mRenderData0 := rd0, mRenderData1 := rd1 } := by
  unfold genVisibleGeometry at h
  simp only [RenderData.cleared] at h
  cases h0 : meshGeometry tbl reg d c ⟨[], [], 0⟩ with
  | none => simp [h0] at h
  | some rd0 =>
    cases h1 : meshWater tbl d c ⟨[], [], 0⟩ with
    | none => simp [h0, h1] at h
    | some rd1 =>
      simp only [h0, h1, Option.bind_eq_bind, Option.some_bind, Option.some.injEq] at h
      exact ⟨rd0, rd1, rfl, rfl, h.symm⟩

/-- C14. Full rebuild: the render data that `genVisibleGeometry` leaves is the same for two
chunks with the same voxels and position, whatever their passes held before; calling it
again on its own result returns that result; and it does return on a well-formed
chunk. -/
theorem full_rebuild (tbl : CubeSides → Nat → CubeVert) (reg : Vec3 → Option Chunk)
    (d : Dims) :
    (∀ c1 c2 : Chunk, c1.mBlocks = c2.mBlocks → c1.mPosition = c2.mPosition →
      (genVisibleGeometry tbl reg d c1).map (fun c => (c.mRenderData0, c.mRenderData1)) =
        (genVisibleGeometry tbl reg d c2).map (fun c => (c.mRenderData0, c.mRenderData1))) ∧
    (∀ c c' : Chunk, genVisibleGeometry tbl reg d c = some c' →
      genVisibleGeometry tbl reg d c' = some c') ∧
    (∀ c : Chunk, c.WellFormed d → RegistryWellFormed d reg →
      WATER_HEIGHT < (d.CHUNK_HEIGHT : Int) →
      ∃ c', genVisibleGeometry tbl reg d c = some c' ∧
        genVisibleGeometry tbl reg d c' = some c') := by
  have hidem : ∀ c c' : Chunk, genVisibleGeometry tbl reg d c = some c' →
      genVisibleGeometry tbl reg d c' = some c' := by
    intro c c' h
    obtain ⟨rd0, rd1, h0, h1, rfl⟩ := genVisibleGeometry_some tbl reg d c c' h
    unfold genVisibleGeometry
    simp only [RenderData.cleared]
    rw [meshGeometry_congr tbl reg d { c with mRenderData0 := rd0, mRenderData1 := rd1 } c
      rfl rfl, meshWater_congr tbl d { c with mRenderData0 := rd0, mRenderData1 := rd1 } c rfl,
      h0, h1]
    rfl
  refine ⟨?_, hidem, ?_⟩
  · intro c1 c2 hb hp
    unfold genVisibleGeometry
    simp only [RenderData.cleared]
    rw [meshGeometry_congr tbl reg d c1 c2 hb hp, meshWater_congr tbl d c1 c2 hb]
    cases meshGeometry tbl reg d c2 ⟨[], [], 0⟩ with
    | none => rfl
    | some rd0 =>
      cases meshWater tbl d c2 ⟨[], [], 0⟩ with
      | none => rfl
      | some rd1 => rfl
  · intro c hwf hreg hH
    have h := genVisibleGeometry_eq tbl reg d c hwf hreg hH
    exact ⟨_, h, hidem c _ h⟩

/-- Witness for C14: the cobblestone tower with stale render data gets the render data of
the cobblestone tower with empty render data, and meshing it twice changes nothing. -/
theorem full_rebuild_witness :
    (genVisibleGeometry unitCubeTable emptyRegistry towerDims
        { solidTower with mRenderData0 := ⟨[], [7, 7], 12⟩ }).map
          (fun c => (c.mRenderData0, c.mRenderData1)) =
      (genVisibleGeometry unitCubeTable emptyRegistry towerDims solidTower).map
          (fun c => (c.mRenderData0, c.mRenderData1)) ∧
    ∃ c', genVisibleGeometry unitCubeTable emptyRegistry towerDims
        { solidTower with mRenderData0 := ⟨[], [7, 7], 12⟩ } = some c' ∧
      genVisibleGeometry unitCubeTable emptyRegistry towerDims c' = some c' := by
  have key := full_rebuild unitCubeTable emptyRegistry towerDims
  exact ⟨key.1 _ _ rfl rfl, key.2.2 _ (by decide)
    (fun p ch h => by simp [emptyRegistry] at h) (by decide)⟩

/-! ## Draw decisions -/

theorem needRender_iff (c : Chunk) (pass : RenderPass) :
    needRender c pass = true ↔
      (c.passData pass).mVisibleMesh ≠ [] ∧ (c.passData pass).mIndexData ≠ [] := by
  unfold needRender Chunk.passData
  simp only [List.length_eq_zero]
  by_cases h1 : (if pass = RenderPass.eGEOMETRY then c.mRenderData0
      else c.mRenderData1).mIndexData = []
  · simp [h1]
  · by_cases h2 : (if pass = RenderPass.eGEOMETRY then c.mRenderData0
        else c.mRenderData1).mVisibleMesh = []
    · simp [h1, h2]
    · simp [h1, h2]

theorem needRender_addFaces (tbl : CubeSides → Nat → CubeVert) (c : Chunk) (pass : RenderPass)
    (fs : List Face) (h : c.passData pass = addFaces tbl ⟨[], [], 0⟩ fs) :
    (needRender c pass = false ↔ fs.length = 0) ∧
      (needRender c pass = true ↔ 0 < fs.length) := by
  have hs := addFaces_sizes tbl fs ⟨[], [], 0⟩
  simp only [List.length_nil, Nat.zero_add] at hs
  have hiff := needRender_iff c pass
  rw [h] at hiff
  have hm : (addFaces tbl ⟨[], [], 0⟩ fs).mVisibleMesh ≠ [] ↔ 0 < fs.length := by
    rw [← List.length_pos, hs.1]
    omega
  have hi : (addFaces tbl ⟨[], [], 0⟩ fs).mIndexData ≠ [] ↔ 0 < fs.length := by
    rw [← List.length_pos, hs.2.1]
    omega
  rw [hm, hi, and_self] at hiff
  refine ⟨?_, hiff⟩
  rw [← Bool.not_eq_true, hiff]
  omega

/-- C15. The method `needRender(pass)` selects pass 0 for `eGEOMETRY` and pass 1 for every
other value and returns true exactly when both the vertex list and the index list of
that pass are non-empty; after `genVisibleGeometry` it is false exactly when no face
was emitted into the pass and true when at least one was. -/
theorem needRender_correct :
    (∀ (c : Chunk) (pass : RenderPass), needRender c pass = true ↔
      (c.passData pass).mVisibleMesh ≠ [] ∧ (c.passData pass).mIndexData ≠ []) ∧
    (∀ c : Chunk, c.passData RenderPass.eGEOMETRY = c.mRenderData0) ∧
    (∀ (c : Chunk) (pass : RenderPass), pass ≠ RenderPass.eGEOMETRY →
      c.passData pass = c.mRenderData1) ∧
    (∀ (tbl : CubeSides → Nat → CubeVert) (reg : Vec3 → Option Chunk) (d : Dims) (c : Chunk),
      c.WellFormed d → RegistryWellFormed d reg → WATER_HEIGHT < (d.CHUNK_HEIGHT : Int) →
      ∃ c', genVisibleGeometry tbl reg d c = some c' ∧
        c'.mRenderData0 = addFaces tbl ⟨[], [], 0⟩ (geometryFaces reg d c) ∧
        c'.mRenderData1 = addFaces tbl ⟨[], [], 0⟩ (waterFaces d c) ∧
        (needRender c' RenderPass.eGEOMETRY = false ↔ (geometryFaces reg d c).length = 0) ∧
        (needRender c' RenderPass.eGEOMETRY = true ↔ 0 < (geometryFaces reg d c).length) ∧
        (∀ pass, pass ≠ RenderPass.eGEOMETRY →
          (needRender c' pass = false ↔ (waterFaces d c).length = 0) ∧
          (needRender c' pass = true ↔ 0 < (waterFaces d c).length))) := by
  refine ⟨needRender_iff, fun c => rfl, ?_, ?_⟩
  · intro c pass hne
    unfold Chunk.passData
    rw [if_neg hne]
  · intro tbl reg d c hwf hreg hH
    refine ⟨_, genVisibleGeometry_eq tbl reg d c hwf hreg hH, rfl, rfl, ?_, ?_, ?_⟩
    · exact (needRender_addFaces tbl
        { c with
          mRenderData0 := addFaces tbl ⟨[], [], 0⟩ (geometryFaces reg d c)
          mRenderData1 := addFaces tbl ⟨[], [], 0⟩ (waterFaces d c) }
        RenderPass.eGEOMETRY (geometryFaces reg d c) rfl).1
    · exact (needRender_addFaces tbl
        { c with
          mRenderData0 := addFaces tbl ⟨[], [], 0⟩ (geometryFaces reg d c)
          mRenderData1 := addFaces tbl ⟨[], [], 0⟩ (waterFaces d c) }
        RenderPass.eGEOMETRY (geometryFaces reg d c) rfl).2
    · intro pass hne
      apply needRender_addFaces tbl _ pass (waterFaces d c)
      unfold Chunk.passData
      rw [if_neg hne]

/-- Witness for C15: the meshed cobblestone tower needs its geometry pass rendered (two
faces) and not its water pass (no face). -/
theorem needRender_correct_witness :
    ∃ c', genVisibleGeometry unitCubeTable emptyRegistry towerDims solidTower = some c' ∧
      needRender c' RenderPass.eGEOMETRY = true ∧ needRender c' (RenderPass.eOTHER 1) = false := by
  obtain ⟨c', h1, _, _, _, h5, h6⟩ := needRender_correct.2.2.2 unitCubeTable emptyRegistry
    towerDims solidTower (by decide) (fun p ch h => by simp [emptyRegistry] at h) (by decide)
  refine ⟨c', h1, h5.mpr (by decide!), (h6 (RenderPass.eOTHER 1) (by decide)).1.mpr (by decide!)⟩

/-! ## Stored indices -/

theorem foldl_push_range {α : Type} (n : Nat) (g : Nat → α) (a : List α) :
    (List.range n).foldl (fun acc i => acc ++ [g i]) a = a ++ (List.range n).map g := by
  induction n with
  | zero => simp
  | succ n ih => simp [List.range_succ, List.foldl_append, ih]

theorem addFace_indexData (tbl : CubeSides → Nat → CubeVert) (rd : RenderData)
    (block : BlockType) (pos : Vec3) (side : CubeSides) :
    (_addFace tbl rd block pos side).mIndexData =
      rd.mIndexData ++ (List.range 6).map (fun j =>
        (sCubeFaceIndices.getD j 0 + rd.mCurrentIndex) % 65536) := by
  unfold _addFace
  simp only
  exact foldl_push_range 6 _ _

/-- The index list after the calls for `fs`: one row of six stored indices per face. -/
theorem addFaces_indexData (tbl : CubeSides → Nat → CubeVert) (fs : List Face)
    (rd : RenderData) :
    (addFaces tbl rd fs).mIndexData =
      rd.mIndexData ++ (List.range fs.length).flatMap (fun k =>
        (List.range 6).map (fun j =>
          (sCubeFaceIndices.getD j 0 + (rd.mCurrentIndex + 4 * k)) % 65536)) := by
  induction fs generalizing rd with
  | nil => simp [addFaces]
  | cons f fs ih =>
    have h := ih (_addFace tbl rd f.block f.pos f.side)
    have hc := (addFace_sizes tbl rd f.block f.pos f.side).2.2
    simp only [addFaces, List.foldl_cons] at h ⊢
    rw [h, addFace_indexData, hc, List.length_cons, List.range_succ_eq_map fs.length,
      List.flatMap_cons,
      List.flatMap_map, List.append_assoc]
    congr 2
    apply List.flatMap_congr
    intro k _
    apply List.map_congr_left
    intro j _
    congr 2
    simp only [Nat.succ_eq_add_one]
    ring

theorem addFaces_indicesStored (tbl : CubeSides → Nat → CubeVert) (fs : List Face) :
    IndicesStored (addFaces tbl ⟨[], [], 0⟩ fs) fs.length := by
  intro k j hk hj
  rw [addFaces_indexData]
  simp only [List.nil_append, Nat.zero_add]
  exact rows_getElem fs.length 6
    (fun k j => (sCubeFaceIndices.getD j 0 + 4 * k) % 65536) k j hk hj

theorem template_le_three (j : Nat) (hj : j < 6) : sCubeFaceIndices.getD j 0 ≤ 3 := by
  unfold sCubeFaceIndices
  interval_cases j <;> simp

theorem addFaces_indicesExact (tbl : CubeSides → Nat → CubeVert) (fs : List Face)
    (hF : 4 * fs.length ≤ 65536) : IndicesExact (addFaces tbl ⟨[], [], 0⟩ fs) fs.length := by
  intro k j hk hj
  have ht := template_le_three j hj
  refine ⟨_, addFaces_indicesStored tbl fs k j hk hj, ?_, ?_, ?_⟩
  · apply Nat.mod_eq_of_lt
    omega
  · rw [Nat.mod_eq_of_lt (by omega)]
    omega
  · rw [Nat.mod_eq_of_lt (by omega)]
    omega

theorem wideSolid_wellFormed : wideSolid.WellFormed wideDims := by
  simp [Chunk.WellFormed, wideSolid]

theorem wideSolid_faces :
    (geometryFaces emptyRegistry wideDims wideSolid).length = 32768 := by
  rw [geometryFaces_length emptyRegistry wideDims wideSolid 2
    (fun x z hx hz => solid_column_sum emptyRegistry wideDims wideSolid BlockType.eCOBBLESTONE
      (by decide) (by decide)
      (fun x y z hg => blockAt_replicate wideDims wideSolid BlockType.eCOBBLESTONE rfl x y z hg)
      rfl rfl rfl rfl (by decide) x z hx hz)]
  rfl

/-- C16, counterexample. The cobblestone chunk of 128 by 128 columns with an empty registry:
pass 0 receives 32768 faces, hence 131072 vertices, more than the 65536 that a 16-bit
index can address; the first index of face 16384 is stored as `0`, its unwrapped value
is `65536`. -/
theorem index_range_counterexample :
    ∃ c', genVisibleGeometry unitCubeTable emptyRegistry wideDims wideSolid = some c' ∧
      c'.mRenderData0.mVisibleMesh.length = 131072 ∧ ¬ (131072 ≤ 65536) ∧
      c'.mRenderData0.mIndexData[16384 * 6 + 0]? = some 0 ∧
      sCubeFaceIndices.getD 0 0 + 4 * 16384 = 65536 ∧
      ¬ IndicesExact c'.mRenderData0 32768 := by
  have hreg : RegistryWellFormed wideDims emptyRegistry := by
    intro p ch h
    simp [emptyRegistry] at h
  have hgen := genVisibleGeometry_eq unitCubeTable emptyRegistry wideDims wideSolid
    wideSolid_wellFormed hreg (by decide)
  have hsize := (addFaces_sizes unitCubeTable
    (geometryFaces emptyRegistry wideDims wideSolid) ⟨[], [], 0⟩).1
  have hst := addFaces_indicesStored unitCubeTable
    (geometryFaces emptyRegistry wideDims wideSolid) 16384 0
    (by rw [wideSolid_faces]; decide) (by decide)
  have hval : (sCubeFaceIndices.getD 0 0 + 4 * 16384) % 65536 = 0 := by decide
  rw [hval] at hst
  refine ⟨_, hgen, ?_, by decide, hst, by decide, ?_⟩
  · simp only
    rw [hsize, wideSolid_faces]
    rfl
  · intro hex
    obtain ⟨v, hv, hv2, _⟩ := hex 16384 0 (by decide) (by decide)
    simp only at hv
    rw [hst] at hv
    have h0 : v = 0 := (Option.some.inj hv).symm
    rw [h0] at hv2
    revert hv2
    decide

/-- C16, amended. Stored indices: `genVisibleGeometry` returns, and in each pass the six
indices of face number `k` are stored as `(template + 4k) mod 2^16`; when the pass holds at
most 16384 faces (at most 65536 vertices) each stored index is the unwrapped value
`template + 4k` and lies in `[4k, 4k + 3]`. -/
theorem index_range (tbl : CubeSides → Nat → CubeVert) (reg : Vec3 → Option Chunk) (d : Dims)
    (c : Chunk) (hwf : c.WellFormed d) (hreg : RegistryWellFormed d reg)
    (hH : WATER_HEIGHT < (d.CHUNK_HEIGHT : Int)) :
    ∃ c', genVisibleGeometry tbl reg d c = some c' ∧
      c'.mRenderData0 = addFaces tbl ⟨[], [], 0⟩ (geometryFaces reg d c) ∧
      c'.mRenderData1 = addFaces tbl ⟨[], [], 0⟩ (waterFaces d c) ∧
      IndicesStored c'.mRenderData0 (geometryFaces reg d c).length ∧
      IndicesStored c'.mRenderData1 (waterFaces d c).length ∧
      (4 * (geometryFaces reg d c).length ≤ 65536 →
        IndicesExact c'.mRenderData0 (geometryFaces reg d c).length) ∧
      (4 * (waterFaces d c).length ≤ 65536 →
        IndicesExact c'.mRenderData1 (waterFaces d c).length) :=
  ⟨_, genVisibleGeometry_eq tbl reg d c hwf hreg hH, rfl, rfl,
    addFaces_indicesStored tbl _, addFaces_indicesStored tbl _,
    addFaces_indicesExact tbl _, addFaces_indicesExact tbl _⟩

/-- Witness for C16 (amended): the meshed cobblestone tower has two faces; the indices of
its second face are stored unwrapped, the first of them is `4`. -/
theorem index_range_witness :
    ∃ c', genVisibleGeometry unitCubeTable emptyRegistry towerDims solidTower = some c' ∧
      ∃ v, c'.mRenderData0.mIndexData[1 * 6 + 0]? = some v ∧ v = 4 := by
  obtain ⟨c', h1, _, _, _, _, h6, _⟩ := index_range unitCubeTable emptyRegistry towerDims
    solidTower (by decide) (fun p ch h => by simp [emptyRegistry] at h) (by decide)
  have hlen : (geometryFaces emptyRegistry towerDims solidTower).length = 2 := by decide!
  rw [hlen] at h6
  obtain ⟨v, hv, hv2, _⟩ := h6 (by decide) 1 0 (by decide) (by decide)
  exact ⟨c', h1, v, hv, by rw [hv2]; decide⟩

/-! ## The isolated solid chunk -/

theorem solid_waterFaces (d : Dims) (c : Chunk) (b : BlockType) (hb2 : b ≠ BlockType.eWATER)
    (hH : WATER_HEIGHT < (d.CHUNK_HEIGHT : Int))
    (hsolid : ∀ x y z, d.inGrid x y z → c.blockAt d x y z = some b) : waterFaces d c = [] := by
  unfold waterFaces
  rw [List.flatMap_eq_nil_iff]
  intro z hz
  rw [List.flatMap_eq_nil_iff]
  intro x hx
  have hz' := List.mem_range.mp hz
  have hx' := List.mem_range.mp hx
  unfold waterColumnFaces
  rw [hsolid x WATER_HEIGHT z ⟨⟨by omega, by omega⟩, ⟨by decide, hH⟩, ⟨by omega, by omega⟩⟩]
  have : ¬ (some b = some BlockType.eWATER) := fun h => hb2 (Option.some.inj h)
  rw [if_neg this]

/-- C17. Isolated solid chunk: all voxels hold the same material that is not translucent
and the registry returns no chunk at the four horizontal neighbour positions. Then
`genVisibleGeometry` returns, pass 0 holds exactly `2 · CHUNK_LENGTH · CHUNK_WIDTH`
faces: the UP face of every voxel with `y = CHUNK_HEIGHT - 1`, the DOWN face of every
voxel with `y = 0`, and no other face, in particular no left, right, front or back face;
pass 1 is empty. -/
theorem isolated_solid_chunk (tbl : CubeSides → Nat → CubeVert)
    (reg : Vec3 → Option Chunk) (d : Dims) (c : Chunk) (b : BlockType)
    (hwf : c.WellFormed d) (hreg : RegistryWellFormed d reg)
    (hH : WATER_HEIGHT < (d.CHUNK_HEIGHT : Int))
    (hb1 : b ≠ BlockType.eAIR) (hb2 : b ≠ BlockType.eWATER)
    (hsolid : ∀ x y z, d.inGrid x y z → c.blockAt d x y z = some b)
    (hL : reg (c.mPosition.sub ⟨(d.CHUNK_LENGTH : ℚ), 0, 0⟩) = none)
    (hR : reg (c.mPosition.add ⟨(d.CHUNK_LENGTH : ℚ), 0, 0⟩) = none)
    (hF : reg (c.mPosition.add ⟨0, 0, (d.CHUNK_WIDTH : ℚ)⟩) = none)
    (hB : reg (c.mPosition.sub ⟨0, 0, (d.CHUNK_WIDTH : ℚ)⟩) = none) :
    ∃ c', genVisibleGeometry tbl reg d c = some c' ∧
      c'.mRenderData0 = addFaces tbl ⟨[], [], 0⟩ (geometryFaces reg d c) ∧
      (geometryFaces reg d c).length = 2 * d.CHUNK_LENGTH * d.CHUNK_WIDTH ∧
      (∀ x y z side, d.inGrid x y z →
        faceCount (geometryFaces reg d c) x y z side =
          if (side = CubeSides.eUP ∧ y = (d.CHUNK_HEIGHT : Int) - 1) ∨
              (side = CubeSides.eDOWN ∧ y = 0) then 1 else 0) ∧
      (∀ f, f ∈ geometryFaces reg d c → f.side = CubeSides.eUP ∨ f.side = CubeSides.eDOWN) ∧
      waterFaces d c = [] ∧ c'.mRenderData1 = ⟨[], [], 0⟩ := by
  have hHpos : 0 < d.CHUNK_HEIGHT := by
    unfold WATER_HEIGHT at hH
    omega
  have hw := solid_waterFaces d c b hb2 hH hsolid
  have hgen := genVisibleGeometry_eq tbl reg d c hwf hreg hH
  rw [hw] at hgen
  refine ⟨_, hgen, rfl, ?_, ?_, ?_, hw, rfl⟩
  · rw [geometryFaces_length reg d c 2
      (fun x z hx hz => solid_column_sum reg d c b hb1 hb2 hsolid hL hR hF hB hHpos x z hx hz)]
    ring
  · intro x y z side hg
    have hnt : _isTranslucent d c x y z = some false := by
      rw [isTranslucent_of_blockAt d c x y z b (hsolid x y z hg)]
      simp [hb1, hb2]
    rw [faceCount_geometry reg d c x y z hg side, hnt,
      solid_sideFree reg d c b hb1 hb2 hsolid hL hR hF hB x y z hg side]
    have e1 : y + 1 = (d.CHUNK_HEIGHT : Int) ↔ y = (d.CHUNK_HEIGHT : Int) - 1 := by omega
    have e2 : y - 1 = -1 ↔ y = 0 := by omega
    cases side <;> simp [e1, e2]
  · intro f hf
    obtain ⟨x, y, z, hg, hmem⟩ := mem_geometryFaces reg d c f hf
    rw [solid_voxelFaces reg d c b hb1 hb2 hsolid hL hR hF hB x y z hg, List.mem_append] at hmem
    rcases hmem with hm | hm
    · split_ifs at hm
      · rw [List.mem_singleton] at hm
        subst hm
        exact Or.inl rfl
      · cases hm
    · split_ifs at hm
      · rw [List.mem_singleton] at hm
        subst hm
        exact Or.inr rfl
      · cases hm

/-- Witness for C17: the cobblestone tower with an empty registry has two faces, the UP
face of its top voxel and the DOWN face of its bottom voxel, and no LEFT face. -/
theorem isolated_solid_chunk_witness :
    ∃ c', genVisibleGeometry unitCubeTable emptyRegistry towerDims solidTower = some c' ∧
      (geometryFaces emptyRegistry towerDims solidTower).length = 2 * 1 * 1 ∧
      faceCount (geometryFaces emptyRegistry towerDims solidTower) 0 60 0 CubeSides.eUP = 1 ∧
      faceCount (geometryFaces emptyRegistry towerDims solidTower) 0 0 0 CubeSides.eDOWN = 1 ∧
      faceCount (geometryFaces emptyRegistry towerDims solidTower) 0 0 0 CubeSides.eLEFT = 0 ∧
      c'.mRenderData1 = ⟨[], [], 0⟩ := by
  obtain ⟨c', h1, _, h3, h4, _, _, h7⟩ := isolated_solid_chunk unitCubeTable emptyRegistry
    towerDims solidTower BlockType.eCOBBLESTONE (by decide)
    (fun p ch h => by simp [emptyRegistry] at h) (by decide) (by decide) (by decide)
    (fun x y z hg => blockAt_replicate towerDims solidTower BlockType.eCOBBLESTONE rfl x y z hg)
    rfl rfl rfl rfl
  refine ⟨c', h1, h3, ?_, ?_, ?_, h7⟩
  · rw [h4 0 60 0 CubeSides.eUP (by decide)]
    decide
  · rw [h4 0 0 0 CubeSides.eDOWN (by decide)]
    decide
  · rw [h4 0 0 0 CubeSides.eLEFT (by decide)]
    decide

/-! ## The height-map stride on a footprint that is not square -/

/-- C8, evaluated. On the chunk of three by two columns at the origin, column `(2, 1)` has
the computed height 50, below `WATER_HEIGHT`, yet its voxel at `WATER_HEIGHT` is
cobblestone, because line 137 reads slot `2 + 1·2 = 4`, the height 74 of column `(1, 1)`;
column `(0, 1)` has the computed height 74, yet its voxel at `WATER_HEIGHT` is water,
because line 137 reads slot `0 + 1·2 = 2`, the height 50 of column `(2, 0)`. -/
theorem water_fill_evaluated :
    columnHeight slabNoise slabDims origin 2 1 = 50 ∧
    columnHeight slabNoise slabDims origin 0 1 = 74 ∧
    (genTerrain slabNoise slabDims (Chunk.fresh slabDims origin)).map
        (fun c => (c.heightAt slabDims 2 1, c.blockAt slabDims 2 WATER_HEIGHT 1,
          c.heightAt slabDims 0 1, c.blockAt slabDims 0 WATER_HEIGHT 1)) =
      some (some 74, some BlockType.eCOBBLESTONE, some 50, some BlockType.eWATER) := by
  decide!

/-- C9, evaluated. On the chunk of three by two columns at the origin with the noise that
is low at column `(2, 0)` only, one column has a computed height below `WATER_HEIGHT`,
but `genTerrain` followed by `genVisibleGeometry` leaves two water faces in pass 1 (eight
vertices, twelve indices), at the columns `(2, 0)` and `(0, 1)`: line 137 reads the
height 50 of column `(2, 0)` for column `(0, 1)` as well. -/
theorem water_pass_evaluated :
    slabDims.countColumns (fun x z =>
      decide (columnHeight cornerNoise slabDims origin x z < WATER_HEIGHT)) = 1 ∧
    columnHeight cornerNoise slabDims origin 0 1 = 74 ∧
    ∃ c1 c2, genTerrain cornerNoise slabDims (Chunk.fresh slabDims origin) = some c1 ∧
      genVisibleGeometry unitCubeTable emptyRegistry slabDims c1 = some c2 ∧
      c1.mHeightMap = [74, 74, 50, 74, 74, 74] ∧
      (waterFaces slabDims c1).map (fun f => f.pos) =
        [Vec3.ofInts 2 WATER_HEIGHT 0, Vec3.ofInts 0 WATER_HEIGHT 1] ∧
      c2.mRenderData1 = addFaces unitCubeTable ⟨[], [], 0⟩ (waterFaces slabDims c1) ∧
      c2.mRenderData1.mVisibleMesh.length = 8 ∧ c2.mRenderData1.mIndexData.length = 12 ∧
      c2.mRenderData1.mCurrentIndex = 8 := by
  have hE : (genTerrain cornerNoise slabDims (Chunk.fresh slabDims origin)).map
      (fun c => (c.mHeightMap, (waterFaces slabDims c).map (fun f => f.pos))) =
      some ([74, 74, 50, 74, 74, 74],
        [Vec3.ofInts 2 WATER_HEIGHT 0, Vec3.ofInts 0 WATER_HEIGHT 1]) := by
    decide!
  refine ⟨by decide!, by decide!, ?_⟩
  cases h1 : genTerrain cornerNoise slabDims (Chunk.fresh slabDims origin) with
  | none =>
    rw [h1] at hE
    cases hE
  | some c1 =>
    rw [h1, Option.map_some', Option.some.injEq, Prod.mk.injEq] at hE
    have hwf := (genTerrain_fresh_columns cornerNoise slabDims origin c1 h1).2.1
    have hgen := genVisibleGeometry_eq unitCubeTable emptyRegistry slabDims c1 hwf
      (fun p ch h => by simp [emptyRegistry] at h) (by decide)
    have hlen : (waterFaces slabDims c1).length = 2 := by
      have := congrArg List.length hE.2
      simpa using this
    have hs := addFaces_sizes unitCubeTable (waterFaces slabDims c1) ⟨[], [], 0⟩
    rw [hlen] at hs
    exact ⟨c1, _, rfl, hgen, hE.1, hE.2, rfl, hs.1, hs.2.1, hs.2.2⟩

/-- C18, evaluated. On a footprint one column long and two wide, 99 voxels high, with the
noise `0` everywhere (height 74): the height map gets two entries, line 137 reads slot
`0 + 1·2 = 2` for column `(0, 1)`, outside the height map, and `genTerrain` has no
defined result. -/
theorem genTerrain_inside_grid_evaluated :
    (-1 : ℚ) ≤ zeroNoise 0 0 ∧ zeroNoise 0 0 ≤ 1 ∧ 99 ≤ narrowDims.CHUNK_HEIGHT ∧
    columnHeights zeroNoise narrowDims origin = [74, 74] ∧
    narrowDims.inFootprint 0 1 ∧
    loadAt (columnHeights zeroNoise narrowDims origin)
      (0 + 1 * (narrowDims.CHUNK_WIDTH : Int)) = none ∧
    genTerrain zeroNoise narrowDims (Chunk.fresh narrowDims origin) = none := by
  decide!

/-! ## Running `genTerrain` a second time -/

theorem forCols_skip {σ : Type} (W L : Nat) (body : Int → Int → σ → Option σ) (s : σ)
    (h : L = 0 ∨ W = 0) :
    forUp W (fun z s => forUp L (fun x s => body x z s) s) s = some s := by
  obtain ⟨s', h1, h2⟩ := forCols_induct W L body (fun _ _ t => t = s) s rfl
    (fun z hz x hx t _ => by omega) (fun _ _ t ht => ht)
  rw [h2] at h1
  exact h1

/-- On an empty footprint `genTerrain` writes no voxel. -/
theorem genTerrain_empty (noise2 : ℚ → ℚ → ℚ) (d : Dims) (c : Chunk)
    (h : d.CHUNK_LENGTH = 0 ∨ d.CHUNK_WIDTH = 0) :
    genTerrain noise2 d c =
      some { c with mHeightMap := c.mHeightMap ++ columnHeights noise2 d c.mPosition } := by
  have hw : fillWater d c.mBlocks = some c.mBlocks :=
    forCols_skip d.CHUNK_WIDTH d.CHUNK_LENGTH
      (fun x z s => storeAt s (getCubeIndex d x WATER_HEIGHT z) BlockType.eWATER) c.mBlocks h
  have hl : fillLand d (c.mHeightMap ++ columnHeights noise2 d c.mPosition) c.mBlocks =
      some c.mBlocks :=
    forCols_skip d.CHUNK_WIDTH d.CHUNK_LENGTH
      (fun x z s => fillColumn d (c.mHeightMap ++ columnHeights noise2 d c.mPosition) x z s)
      c.mBlocks h
  unfold genTerrain
  simp [genHeightMap_eq, hw, hl]

/-- Two block arrays of the size of the grid that agree at every coordinate of the grid
are equal. -/
theorem blocks_ext (d : Dims) (bs bs' : List BlockType)
    (hlen : bs.length = d.CHUNK_LENGTH * d.CHUNK_WIDTH * d.CHUNK_HEIGHT)
    (hlen' : bs'.length = d.CHUNK_LENGTH * d.CHUNK_WIDTH * d.CHUNK_HEIGHT)
    (h : ∀ x y z, d.inGrid x y z →
      loadAt bs (getCubeIndex d x y z) = loadAt bs' (getCubeIndex d x y z)) : bs = bs' := by
  apply List.ext_getElem?
  intro i
  by_cases hi : i < d.CHUNK_LENGTH * d.CHUNK_WIDTH * d.CHUNK_HEIGHT
  · obtain ⟨x, y, z, hg, he⟩ := getCubeIndex_surj d (i : Int) (by omega) (by exact_mod_cast hi)
    have := h x y z hg
    rw [he] at this
    simpa [loadAt] using this
  · rw [List.getElem?_eq_none (by omega), List.getElem?_eq_none (by omega)]

/-- A second run of `genTerrain` returns, leaves the blocks as the first run left them and
appends the computed heights once more. -/
theorem genTerrain_again (noise2 : ℚ → ℚ → ℚ) (d : Dims) (c c1 : Chunk)
    (hwf : c.WellFormed d) (h1 : genTerrain noise2 d c = some c1) :
    ∃ c2, genTerrain noise2 d c1 = some c2 ∧ c2.mBlocks = c1.mBlocks ∧
      c2.mHeightMap = c1.mHeightMap ++ columnHeights noise2 d c.mPosition := by
  obtain ⟨hm1, hp1, _, _, hlen1⟩ := genTerrain_frame noise2 d c c1 h1
  have hwf1 : c1.WellFormed d := by
    unfold Chunk.WellFormed
    rw [hlen1]
    exact hwf
  by_cases hne : ∃ x z, d.inFootprint x z
  · obtain ⟨x0, z0, hf0⟩ := hne
    have hH := (genTerrain_guard noise2 d c c1 hwf h1 x0 z0 hf0).1
    have hex : ∀ x z, ∃ ht, d.inFootprint x z →
        loadAt (c.mHeightMap ++ columnHeights noise2 d c.mPosition)
          (x + (z * (d.CHUNK_WIDTH : Int))) = some ht ∧ 0 ≤ ht ∧ ht < (d.CHUNK_HEIGHT : Int) := by
      intro x z
      by_cases hf : d.inFootprint x z
      · obtain ⟨ht, h⟩ := (genTerrain_guard noise2 d c c1 hwf h1 x z hf).2
        exact ⟨ht, fun _ => h⟩
      · exact ⟨0, fun hf' => absurd hf' hf⟩
    choose hfun hfun_spec using hex
    obtain ⟨c1', hc1', _, _, _, _, _, hI1⟩ := genTerrain_total noise2 d c hfun hwf hH hfun_spec
    rw [h1] at hc1'
    cases hc1'
    obtain ⟨c2, hc2, hm2, _, _, _, hwf2, hI2⟩ := genTerrain_total noise2 d c1 hfun hwf1 hH
      (fun x z hf => ⟨by
        rw [hm1]
        exact loadAt_append_left _ _ _ _ (hfun_spec x z hf).1, (hfun_spec x z hf).2⟩)
    refine ⟨c2, hc2, ?_, by rw [hm2, hp1]⟩
    apply blocks_ext d c2.mBlocks c1.mBlocks hwf2 hwf1
    intro x y z hg
    have e2 := hI2 x y z hg
    have e1 := hI1 x y z hg
    unfold Chunk.blockAt at e1 e2
    rw [e2, e1]
    split_ifs <;> rfl
  · have h0 : d.CHUNK_LENGTH = 0 ∨ d.CHUNK_WIDTH = 0 := by
      by_contra hcon
      push_neg at hcon
      exact hne ⟨0, 0, ⟨le_refl 0, by omega⟩, ⟨le_refl 0, by omega⟩⟩
    refine ⟨_, genTerrain_empty noise2 d c1 h0, rfl, ?_⟩
    simp only
    rw [hp1]

/-- C10, amended. Running `genTerrain` twice: two runs that start from chunks with the same
blocks, height map and position yield the same height map and blocks; a second run on the
chunk that a first run left returns, leaves the same material in every voxel and the same
height read by line 137 for every column, and appends the `CHUNK_LENGTH·CHUNK_WIDTH`
computed heights to the height map once more, so that every earlier entry is unchanged
and the length grows by `CHUNK_LENGTH·CHUNK_WIDTH` (it doubles on a chunk that was fresh
before the first run). -/
theorem genTerrain_rerun (noise2 : ℚ → ℚ → ℚ) (d : Dims) (c c1 : Chunk)
    (hwf : c.WellFormed d) (h1 : genTerrain noise2 d c = some c1) :
    (∀ c' : Chunk, c'.mBlocks = c.mBlocks → c'.mHeightMap = c.mHeightMap →
      c'.mPosition = c.mPosition →
      (genTerrain noise2 d c').map (fun r => (r.mHeightMap, r.mBlocks)) =
        some (c1.mHeightMap, c1.mBlocks)) ∧
    ∃ c2, genTerrain noise2 d c1 = some c2 ∧ c2.mBlocks = c1.mBlocks ∧
      (∀ x y z, c2.blockAt d x y z = c1.blockAt d x y z) ∧
      (∀ x z, d.inFootprint x z → ∃ ht, c1.heightAt d x z = some ht ∧
        c2.heightAt d x z = some ht) ∧
      c2.mHeightMap = c1.mHeightMap ++ columnHeights noise2 d c.mPosition ∧
      (∀ i v, loadAt c1.mHeightMap i = some v → loadAt c2.mHeightMap i = some v) ∧
      c2.mHeightMap.length = c1.mHeightMap.length + d.CHUNK_LENGTH * d.CHUNK_WIDTH ∧
      (c.mHeightMap = [] → c2.mHeightMap = c1.mHeightMap ++ c1.mHeightMap ∧
        c1.mHeightMap.length = d.CHUNK_LENGTH * d.CHUNK_WIDTH ∧
        c2.mHeightMap.length = 2 * (d.CHUNK_LENGTH * d.CHUNK_WIDTH)) := by
  obtain ⟨hm1, hp1, _, _, _⟩ := genTerrain_frame noise2 d c c1 h1
  obtain ⟨c2, hc2, hb2, hm2⟩ := genTerrain_again noise2 d c c1 hwf h1
  have hcl : (columnHeights noise2 d c.mPosition).length = d.CHUNK_LENGTH * d.CHUNK_WIDTH := by
    rw [columnHeights_length, Nat.mul_comm]
  refine ⟨?_, c2, hc2, hb2, ?_, ?_, hm2, ?_, ?_, ?_⟩
  · intro c' hb hh hp
    have hgen : (genTerrain noise2 d c').map (fun r => (r.mHeightMap, r.mBlocks)) =
        (genTerrain noise2 d c).map (fun r => (r.mHeightMap, r.mBlocks)) := by
      unfold genTerrain
      simp only [genHeightMap_eq, Option.bind_eq_bind, Option.some_bind, hb, hh, hp]
      cases fillWater d c.mBlocks with
      | none => rfl
      | some bs1 =>
        simp only [Option.some_bind]
        cases fillLand d (c.mHeightMap ++ columnHeights noise2 d c.mPosition) bs1 with
        | none => rfl
        | some bs2 => rfl
    rw [hgen, h1]
    rfl
  · intro x y z
    unfold Chunk.blockAt
    rw [hb2]
  · intro x z hf
    obtain ⟨ht, hl, _⟩ := (genTerrain_guard noise2 d c c1 hwf h1 x z hf).2
    rw [← hm1] at hl
    refine ⟨ht, hl, ?_⟩
    unfold Chunk.heightAt
    rw [hm2]
    exact loadAt_append_left _ _ _ _ hl
  · intro i v hv
    rw [hm2]
    exact loadAt_append_left _ _ _ _ hv
  · rw [hm2, List.length_append, hcl]
  · intro hnil
    have e1 : c1.mHeightMap = columnHeights noise2 d c.mPosition := by
      rw [hm1, hnil, List.nil_append]
    refine ⟨?_, ?_, ?_⟩
    · rw [hm2, ← e1]
    · rw [e1, hcl]
    · rw [hm2, List.length_append, e1, hcl]
      omega

/-- Witness for C10 (amended): on the two-by-two test chunk the first run returns a chunk
on which the second run returns, with the same blocks and the height map twice over. -/
theorem genTerrain_rerun_witness :
    ∃ c1 c2, genTerrain demoNoise demoDims (Chunk.fresh demoDims origin) = some c1 ∧
      genTerrain demoNoise demoDims c1 = some c2 ∧ c2.mBlocks = c1.mBlocks ∧
      c2.mHeightMap = c1.mHeightMap ++ c1.mHeightMap ∧ c2.mHeightMap.length = 2 * (2 * 2) := by
  obtain ⟨c1, hc1⟩ := genTerrain_fresh_succeeds demoNoise demoDims origin rfl (by decide)
    demo_heights_inside
  obtain ⟨_, c2, h2, h3, _, _, _, _, _, h9⟩ := genTerrain_rerun demoNoise demoDims
    (Chunk.fresh demoDims origin) c1 (Chunk.fresh_wellFormed demoDims origin) hc1
  exact ⟨c1, c2, hc1, h2, h3, (h9 rfl).1, (h9 rfl).2.2⟩

end CPPCraft
